import Mathlib

/-!
# ROMP: the access-history check driver

A shallow embedding of `RompLib.cpp` (`upgradeHelper`, `getCounterType`,
`checkDataRace`) over an explicit machine state.  Everything the driver calls
but does not define (the PFQ lock, the race-analysis policies, the record
container policy) is a field of `Env`; every call the driver makes to one of
them, and every write it makes to the slot, is appended to a log together with
the value the local `writeLockHeld` had at that point.
-/

namespace Romp

/-! ## Data model -/

/-- Handle of a task label (`std::shared_ptr<Label>`); its contents belong to the task subsystem. -/
abbrev Label := Nat

/-- Handle of a lock set (`std::shared_ptr<LockSet>`). -/
abbrev LockSet := Nat

/-- Modelled from the spec: `Record.h` is not part of the sources; the fields are those the
constructor call in `checkDataRace` passes, in that order. -/
structure Record where
  isWrite : Bool
  label : Label
  lockSet : LockSet
  taskPtr : Nat
  instnAddr : Nat
  hwLock : Bool
  deriving DecidableEq, Repr

/-- The two flag bits of `AccessHistory.h`. -/
inductive AccessHistoryFlag where
  | eDataRaceFound
  | eMemoryRecycled
  deriving DecidableEq, Repr

/-- Modelled from the spec: the history state label (initially `Empty`; `SingleRead` or
`SingleWrite` after the first insertion; any other value is a token of the record policy). -/
inductive AccessHistoryState where
  | eEmpty
  | eSingleRead
  | eSingleWrite
  | eToken (n : Nat)
  deriving DecidableEq, Repr

/-- Modelled from the spec: the 64-bit `_state` word, partitioned into the two flag bits and
the history state label. -/
structure StateWord where
  dataRaceFound : Bool
  memoryRecycled : Bool
  label : AccessHistoryState
  deriving DecidableEq, Repr

/-- The nine counter buckets, used both per slot and process wide. -/
structure Counters where
  noModRWCon : Nat
  noModRRCon : Nat
  noModNoCon : Nat
  modRWConUS : Nat
  modRWConUF : Nat
  modRRConUS : Nat
  modRRConUF : Nat
  modNoConUS : Nat
  modNoConUF : Nat
  deriving DecidableEq, Repr

/-- The shadow slot: state word, lazily allocated record sequence (`none` is the null
`unique_ptr`), and the slot-local counters.  The PFQ lock of the slot is not a field: its
effect on the driver is the outcome of the lock calls in `Env`. -/
structure AccessHistory where
  state : StateWord
  records : Option (List Record)
  numAccess : Nat
  counters : Counters
  deriving DecidableEq, Repr

namespace AccessHistory

/-- Modelled from the spec: `peekRecords()` is non-mutating and may return absent. -/
def peekRecords (ah : AccessHistory) : Option (List Record) := ah.records

/-- Modelled from the spec: `getRecords()` force-allocates the sequence if it is absent. -/
def getRecords (ah : AccessHistory) : AccessHistory :=
  match ah.records with
  | none => { ah with records := some [] }
  | some _ => ah

/-- Modelled from the spec: `dataRaceFound()` reads the `DataRaceFound` flag. -/
def dataRaceFound (ah : AccessHistory) : Bool := ah.state.dataRaceFound

/-- Modelled from the spec: `memIsRecycled()` reads the `MemoryRecycled` flag. -/
def memIsRecycled (ah : AccessHistory) : Bool := ah.state.memoryRecycled

/-- Modelled from the spec: `setFlag` sets one flag bit and leaves the rest of the word. -/
def setFlag (flag : AccessHistoryFlag) (ah : AccessHistory) : AccessHistory :=
  match flag with
  | .eDataRaceFound => { ah with state := { ah.state with dataRaceFound := true } }
  | .eMemoryRecycled => { ah with state := { ah.state with memoryRecycled := true } }

/-- Modelled from the spec: `clearFlags` clears both flag bits. -/
def clearFlags (ah : AccessHistory) : AccessHistory :=
  { ah with state := { ah.state with dataRaceFound := false, memoryRecycled := false } }

/-- Modelled from the spec: `setState` replaces the history state label. -/
def setState (st : AccessHistoryState) (ah : AccessHistory) : AccessHistory :=
  { ah with state := { ah.state with label := st } }

end AccessHistory

/-- Modelled from the spec: the data-sharing classification of an access. -/
inductive DataSharingType where
  | eShared
  | eThreadPrivateBelowExit
  | eStaticThreadPrivate
  | eOtherSharing (n : Nat)
  deriving DecidableEq, Repr

/-- The fields of `CheckInfo` that the driver reads. -/
structure CheckInfo where
  isWrite : Bool
  taskPtr : Nat
  instnAddr : Nat
  hwLock : Bool
  byteAddress : Nat
  dataSharingType : DataSharingType
  deriving DecidableEq, Repr

/-- Modelled from the spec: the outcomes of the reader-to-writer upgrade. -/
inductive PfqUpgradeResult where
  | eAtomicUpgraded
  | eNonAtomicUpgraded
  | eBlocked
  deriving DecidableEq, Repr

/-- What one `pfqUpgrade` call yields: the result code, the value left in `rrContend`, and
the slot as the other threads left it by the time the writer hold begins. -/
structure UpgradeOutcome where
  res : PfqUpgradeResult
  rrContend : Bool
  ah : AccessHistory
  deriving DecidableEq, Repr

/-- The counter buckets of `getCounterType`. -/
inductive CounterType where
  | eNoModRWCon
  | eNoModRRCon
  | eNoModNoCon
  | eModRWConUS
  | eModRWConUF
  | eModRRConUS
  | eModRRConUF
  | eModNoConUS
  | eModNoConUF
  | eUndefCounter
  deriving DecidableEq, Repr

/-- A decision of the record policy (`manageAccessRecord`), applied by `modifyAccessHistory`. -/
abbrev RecordManagement := Nat

/-- One entry `(histInstn, curInstn, byteAddr)` of the deferred race-report list. -/
structure DataRaceInfo where
  instnAddrOne : Nat
  instnAddrTwo : Nat
  memAddr : Nat
  deriving DecidableEq, Repr

/-- Process-wide state the driver touches. -/
structure Globals where
  gNumCheckFuncCall : Nat
  gNumBytesChecked : Nat
  gNumAccessHistoryOverflow : Nat
  gDataRaceFound : Bool
  gNumDataRace : Nat
  gDataRaceRecords : List DataRaceInfo
  counters : Counters
  gAccessHistoryMap : Nat
  deriving DecidableEq, Repr

/-- Everything `checkDataRace` uses and `RompLib.cpp` does not define. -/
structure Env where
  REC_NUM_THRESHOLD : Nat
  gReportLineInfo : Bool
  gReportAtRuntime : Bool
  -- outcome of `pfqRWLockReadLock`: (contended with a writer, ticket drawn)
  pfqRWLockReadLock : Bool × Nat
  -- outcome of `pfqUpgrade` on the slot as it stands, for the ticket and the incoming
  -- value of `rrContend`
  pfqUpgrade : AccessHistory → Nat → Bool → UpgradeOutcome
  -- the value the uninitialised local `diffIndex` happens to hold
  diffIndexInit : Int
  -- result of `happensBefore(histLabel, curLabel, diffIndex)` and the value left in `diffIndex`
  happensBefore : Label → Label → Int → Bool × Int
  analyzeRaceCondition : Record → Record → Bool → Int → Bool
  manageAccessRecord : AccessHistory → Record → Record → Bool → Int →
    AccessHistoryState × RecordManagement
  -- effect of `modifyAccessHistory(action, records, it, curRecord)` on the sequence and on
  -- the iterator (an index into the sequence)
  modifyAccessHistory : RecordManagement → List Record → Nat → Record → List Record × Nat

/-- The calls and slot writes the driver performs, as they are logged. -/
inductive Event where
  | pfqRWLockReadLock (ticket : Nat)
  | pfqUpgrade (ticket : Nat) (res : PfqUpgradeResult)
  | pfqRWLockWriteUnlock
  | pfqRWLockReadUnlock (ticket : Nat)
  | getRecords
  | clear
  | push_back (r : Record)
  | modifyAccessHistory (action : RecordManagement)
  | setState (st : AccessHistoryState)
  | setFlag (flag : AccessHistoryFlag)
  | clearFlags
  | happensBefore (hist : Label) (cur : Label)
  | analyzeRaceCondition (hist : Record) (race : Bool)
  | manageAccessRecord (hist : Record)
  | reportDataRace (histInstn : Nat) (curInstn : Nat) (byteAddr : Nat)
  | gDataRaceRecordsPush (histInstn : Nat) (curInstn : Nat) (byteAddr : Nat)
  | gDataRaceLockAcquire
  | gDataRaceLockRelease
  | recordHistoryMap
  | fatal
  deriving DecidableEq, Repr

/-- A logged event with the value of the local `writeLockHeld` when it happened. -/
structure LogEntry where
  ev : Event
  writeLockHeld : Bool
  deriving DecidableEq, Repr

/-- Machine state of one `checkDataRace` call: the slot, the globals, the locals that live
across the `rollback` label, and the log. -/
structure St where
  ah : AccessHistory
  g : Globals
  ticketNum : Nat
  modIntent : Bool
  readWriteContend : Bool
  readReadContend : Bool
  upgradeSuccess : Bool
  writeLockHeld : Bool
  readLockHeld : Bool
  trace : List LogEntry
  deriving DecidableEq, Repr

/-- Why a run of the model stops short of `check_finish`. -/
inductive Stuck where
  | outOfFuel
  | nullDeref
  | badIterator
  deriving DecidableEq, Repr

/-- Where control goes after a piece of the driver body. -/
inductive Ctl where
  | finish
  | restart
  | stuck (w : Stuck)
  deriving DecidableEq, Repr

/-- How a `checkDataRace` call ends. -/
inductive Exit where
  | returned
  | fatal
  | stuck (w : Stuck)
  deriving DecidableEq, Repr

/-! ## Primitive steps -/

/-- Append an event to the log, stamped with the current `writeLockHeld`. -/
def emit (e : Event) (s : St) : St :=
  { s with trace := s.trace ++ [⟨e, s.writeLockHeld⟩] }

/-- The call `accessHistory->setState(st)`. -/
def setState (st : AccessHistoryState) (s : St) : St :=
  emit (.setState st) { s with ah := s.ah.setState st }

/-- The call `accessHistory->setFlag(flag)`. -/
def setFlag (flag : AccessHistoryFlag) (s : St) : St :=
  emit (.setFlag flag) { s with ah := s.ah.setFlag flag }

/-- The call `accessHistory->clearFlags()`. -/
def clearFlags (s : St) : St :=
  emit .clearFlags { s with ah := s.ah.clearFlags }

/-- The call `accessHistory->getRecords()`. -/
def getRecords (s : St) : St :=
  emit .getRecords { s with ah := s.ah.getRecords }

/-- Store a new value of the record sequence through the (non-null) `records` pointer. -/
def storeRecords (rs : List Record) (s : St) : St :=
  { s with ah := { s.ah with records := some rs } }

/-- The increment `gNumAccessHistoryOverflow++`. -/
def bumpOverflow (s : St) : St :=
  { s with g := { s.g with gNumAccessHistoryOverflow := s.g.gNumAccessHistoryOverflow + 1 } }

/-! ## `upgradeHelper` and `getCounterType` -/

/-- The function `upgradeHelper`.  The reference parameters are the fields of `St`; the
returned `Bool` is the C++ return value (`true`: roll back).  After an atomic upgrade the
slot is as the reader saw it; otherwise it is what `pfqUpgrade` reports. -/
def upgradeHelper (env : Env) (s : St) : Bool × St :=
  let s : St := { s with modIntent := true }
  if s.writeLockHeld then
    (false, s)
  else
    let out : UpgradeOutcome := env.pfqUpgrade s.ah s.ticketNum s.readReadContend
    let s : St := emit (Event.pfqUpgrade s.ticketNum out.res) s
    let s : St := { s with
      ah := if out.res = PfqUpgradeResult.eAtomicUpgraded then s.ah else out.ah,
      readReadContend := out.rrContend }
    let s : St := { s with writeLockHeld := true, readLockHeld := false }
    if out.res = PfqUpgradeResult.eAtomicUpgraded then
      (false, { s with upgradeSuccess := true })
    else
      (true, s)

/-- The function `getCounterType`. -/
def getCounterType (readWriteContend readReadContend upgradeSuccess modIntent : Bool) :
    CounterType :=
  if !modIntent then
    if readWriteContend then CounterType.eNoModRWCon
    else if readReadContend then CounterType.eNoModRRCon
    else CounterType.eNoModNoCon
  else
    if readWriteContend then
      (if upgradeSuccess then CounterType.eModRWConUS else CounterType.eModRWConUF)
    else if readReadContend then
      (if upgradeSuccess then CounterType.eModRRConUS else CounterType.eModRRConUF)
    else
      (if upgradeSuccess then CounterType.eModNoConUS else CounterType.eModNoConUF)

/-! ## The driver `checkDataRace`

The local pointer `records` is either null or the address of the slot's own vector, so a
dereference reads the sequence the slot holds at that moment; dereferencing while the slot
has none is `Stuck.nullDeref`.  The iterator `it` is an index into the sequence. -/

/-- Lines 207-220: the race branch of the loop body.  Sets the global flag, counts the race,
hands it to the configured sink, and marks the slot.  The `LockGuard` on `gDataRaceLock` is
the pair of events around the `push_back`: taken at its construction, given up at the end of
the block. -/
def raceFound (env : Env) (checkInfo : CheckInfo) (histRecord curRecord : Record) (s : St) : St :=
  let s : St := { s with g := { s.g with
    gDataRaceFound := true, gNumDataRace := s.g.gNumDataRace + 1 } }
  let s : St :=
    if env.gReportLineInfo then
      let s : St := emit Event.gDataRaceLockAcquire s
      let s : St := emit (Event.gDataRaceRecordsPush histRecord.instnAddr curRecord.instnAddr
          checkInfo.byteAddress)
        { s with g := { s.g with gDataRaceRecords := s.g.gDataRaceRecords ++
          [⟨histRecord.instnAddr, curRecord.instnAddr, checkInfo.byteAddress⟩] } }
      emit Event.gDataRaceLockRelease s
    else if env.gReportAtRuntime then
      emit (Event.reportDataRace histRecord.instnAddr curRecord.instnAddr
        checkInfo.byteAddress) s
    else s
  setFlag AccessHistoryFlag.eDataRaceFound s

/-- The pair `setState(nextState); modifyAccessHistory(action, records, it, curRecord)` of
lines 226-227 and 234-235; yields the iterator the action leaves. -/
def applyDecision (env : Env) (curRecord : Record) (nextState : AccessHistoryState)
    (action : RecordManagement) (it : Nat) (s : St) : Option (Nat × St) :=
  let s : St := setState nextState s
  match s.ah.records with
  | none => none
  | some rs =>
    let r := env.modifyAccessHistory action rs it curRecord
    some (r.2, emit (Event.modifyAccessHistory action) (storeRecords r.1 s))

/-- Lines 200-238: the `while (it != records->end())` loop; one unit of fuel per test of the
loop condition.  `Ctl.restart` is `goto rollback`, `Ctl.finish` is falling out of the loop
(by the condition or by `break`). -/
def recordLoop (env : Env) (curRecord : Record) (checkInfo : CheckInfo) :
    Nat → Nat → Int → St → Ctl × St
  | 0, _, _, s => (Ctl.stuck Stuck.outOfFuel, s)
  | fuel + 1, it, diffIndex, s =>
    match s.ah.records with
    | none => (Ctl.stuck Stuck.nullDeref, s)
    | some rs =>
      if it = rs.length then
        (Ctl.finish, s)
      else
        match rs.get? it with
        | none => (Ctl.stuck Stuck.badIterator, s)
        | some histRecord =>
          let hb := env.happensBefore histRecord.label curRecord.label diffIndex
          let s : St := emit (Event.happensBefore histRecord.label curRecord.label) s
          let race := env.analyzeRaceCondition histRecord curRecord hb.1 hb.2
          let s : St := emit (Event.analyzeRaceCondition histRecord race) s
          if race then
            (Ctl.finish, raceFound env checkInfo histRecord curRecord s)
          else
            let d := env.manageAccessRecord s.ah histRecord curRecord hb.1 hb.2
            let s : St := emit (Event.manageAccessRecord histRecord) s
            if s.writeLockHeld then
              match applyDecision env curRecord d.1 d.2 it s with
              | none => (Ctl.stuck Stuck.nullDeref, s)
              | some (it1, s1) => recordLoop env curRecord checkInfo fuel it1 hb.2 s1
            else
              let u := upgradeHelper env s
              if u.1 then
                (Ctl.restart, u.2)
              else
                match applyDecision env curRecord d.1 d.2 it u.2 with
                | none => (Ctl.stuck Stuck.nullDeref, u.2)
                | some (it1, s1) => recordLoop env curRecord checkInfo fuel it1 hb.2 s1

/-- Lines 183-239: insert into an empty history, or walk a non-empty one. -/
def historyStage (env : Env) (curRecord : Record) (checkInfo : CheckInfo) (fuel : Nat)
    (s : St) : Ctl × St :=
  match s.ah.records with
  | none => (Ctl.stuck Stuck.nullDeref, s)
  | some rs =>
    if rs.isEmpty then
      let u := upgradeHelper env s
      if u.1 then
        (Ctl.restart, u.2)
      else
        let s : St := setState (if checkInfo.isWrite then AccessHistoryState.eSingleWrite
          else AccessHistoryState.eSingleRead) u.2
        match s.ah.records with
        | none => (Ctl.stuck Stuck.nullDeref, s)
        | some rs1 => (Ctl.finish, emit (Event.push_back curRecord)
            (storeRecords (rs1 ++ [curRecord]) s))
    else
      recordLoop env curRecord checkInfo fuel 0 env.diffIndexInit s

/-- Lines 171-182: a recycled slot is reset under the writer lock, then treated as fresh. -/
def recycledStage (env : Env) (curRecord : Record) (checkInfo : CheckInfo) (fuel : Nat)
    (s : St) : Ctl × St :=
  if s.ah.memIsRecycled then
    let u := upgradeHelper env s
    if u.1 then
      (Ctl.restart, u.2)
    else
      let s : St := clearFlags u.2
      match s.ah.records with
      | none => (Ctl.stuck Stuck.nullDeref, s)
      | some _ => historyStage env curRecord checkInfo fuel (emit Event.clear (storeRecords [] s))
  else
    historyStage env curRecord checkInfo fuel s

/-- Lines 150-170: overflow bookkeeping, then the branch for a slot already marked
`DataRaceFound`. -/
def foundStage (env : Env) (curRecord : Record) (checkInfo : CheckInfo) (fuel : Nat)
    (s : St) : Ctl × St :=
  match s.ah.records with
  | none => (Ctl.stuck Stuck.nullDeref, s)
  | some rs =>
    let s : St := if rs.length > env.REC_NUM_THRESHOLD then bumpOverflow s else s
    if s.ah.dataRaceFound then
      if !rs.isEmpty then
        let u := upgradeHelper env s
        if u.1 then
          (Ctl.restart, u.2)
        else
          match u.2.ah.records with
          | none => (Ctl.stuck Stuck.nullDeref, u.2)
          | some _ => (Ctl.finish, emit Event.clear (storeRecords [] u.2))
      else
        (Ctl.finish, s)
    else
      recycledStage env curRecord checkInfo fuel s

/-- Lines 134-239: one traversal of the body from the label `rollback`, up to the next
`goto rollback` (`Ctl.restart`) or to `check_finish` (`Ctl.finish`). -/
def pass (env : Env) (curRecord : Record) (checkInfo : CheckInfo) (fuel : Nat)
    (s : St) : Ctl × St :=
  if checkInfo.dataSharingType = DataSharingType.eThreadPrivateBelowExit ∨
      checkInfo.dataSharingType = DataSharingType.eStaticThreadPrivate then
    (Ctl.finish, s)
  else
    match s.ah.peekRecords with
    | none =>
      let u := upgradeHelper env s
      if u.1 then
        (Ctl.restart, u.2)
      else
        foundStage env curRecord checkInfo fuel (getRecords u.2)
    | some _ => foundStage env curRecord checkInfo fuel s

/-- The body from the label `rollback` with its backward jumps: each `goto rollback` costs
one unit of fuel and the traversal that follows runs on what is left. -/
def rollback (env : Env) (curRecord : Record) (checkInfo : CheckInfo) : Nat → St → Ctl × St
  | 0, s => (Ctl.stuck Stuck.outOfFuel, s)
  | fuel + 1, s =>
    match pass env curRecord checkInfo fuel s with
    | (Ctl.restart, s1) => rollback env curRecord checkInfo fuel s1
    | r => r

/-- Increment one bucket; `none` for a value outside the nine buckets (the `default` case). -/
def Counters.bump (c : CounterType) (k : Counters) : Option Counters :=
  match c with
  | CounterType.eNoModRWCon => some { k with noModRWCon := k.noModRWCon + 1 }
  | CounterType.eNoModRRCon => some { k with noModRRCon := k.noModRRCon + 1 }
  | CounterType.eNoModNoCon => some { k with noModNoCon := k.noModNoCon + 1 }
  | CounterType.eModRWConUS => some { k with modRWConUS := k.modRWConUS + 1 }
  | CounterType.eModRWConUF => some { k with modRWConUF := k.modRWConUF + 1 }
  | CounterType.eModRRConUS => some { k with modRRConUS := k.modRRConUS + 1 }
  | CounterType.eModRRConUF => some { k with modRRConUF := k.modRRConUF + 1 }
  | CounterType.eModNoConUS => some { k with modNoConUS := k.modNoConUS + 1 }
  | CounterType.eModNoConUF => some { k with modNoConUF := k.modNoConUF + 1 }
  | CounterType.eUndefCounter => none

/-- The function `recordHistoryMap`: count the slot in the seen-map under `gMapLock`. -/
def recordHistoryMap (s : St) : St :=
  emit Event.recordHistoryMap
    { s with g := { s.g with gAccessHistoryMap := s.g.gAccessHistoryMap + 1 } }

/-- Lines 240-289: release the lock that is held, bump the bucket, record the slot. -/
def check_finish (s : St) : Exit × St :=
  let s : St :=
    if s.writeLockHeld then emit Event.pfqRWLockWriteUnlock s
    else if s.readLockHeld then emit (Event.pfqRWLockReadUnlock s.ticketNum) s
    else s
  let counterType := getCounterType s.readWriteContend s.readReadContend
    s.upgradeSuccess s.modIntent
  match Counters.bump counterType s.g.counters, Counters.bump counterType s.ah.counters with
  | some gc, some ac =>
    (Exit.returned, recordHistoryMap
      { s with g := { s.g with counters := gc }, ah := { s.ah with counters := ac } })
  | _, _ => (Exit.fatal, emit Event.fatal s)

/-- The state at the label `rollback` on first arrival (lines 111-132). -/
def enter (env : Env) (g : Globals) (accessHistory : AccessHistory) : St :=
  { ah := { accessHistory with numAccess := accessHistory.numAccess + 1 }
    g := { g with gNumCheckFuncCall := g.gNumCheckFuncCall + 1 }
    ticketNum := env.pfqRWLockReadLock.2
    modIntent := false
    readWriteContend := env.pfqRWLockReadLock.1
    readReadContend := false
    upgradeSuccess := false
    writeLockHeld := false
    readLockHeld := true
    trace := [⟨Event.pfqRWLockReadLock env.pfqRWLockReadLock.2, false⟩] }

/-- The record of the current access (line 131). -/
def mkRecord (curLabel : Label) (curLockSet : LockSet) (checkInfo : CheckInfo) : Record :=
  ⟨checkInfo.isWrite, curLabel, curLockSet, checkInfo.taskPtr, checkInfo.instnAddr,
    checkInfo.hwLock⟩

/-- The function `checkDataRace`. -/
def checkDataRace (env : Env) (fuel : Nat) (g : Globals) (accessHistory : AccessHistory)
    (curLabel : Label) (curLockSet : LockSet) (checkInfo : CheckInfo) : Exit × St :=
  match rollback env (mkRecord curLabel curLockSet checkInfo) checkInfo fuel
      (enter env g accessHistory) with
  | (Ctl.finish, s) => check_finish s
  | (Ctl.restart, s) => (Exit.stuck Stuck.outOfFuel, s)
  | (Ctl.stuck w, s) => (Exit.stuck w, s)

/-! ## Reading the log -/

/-- The events that change the slot's record sequence. -/
def Event.isRecordsMutation : Event → Bool
  | Event.getRecords => true
  | Event.clear => true
  | Event.push_back _ => true
  | Event.modifyAccessHistory _ => true
  | _ => false

/-- The two unlock calls. -/
def Event.isUnlock : Event → Bool
  | Event.pfqRWLockWriteUnlock => true
  | Event.pfqRWLockReadUnlock _ => true
  | _ => false

/-- The upgrade call. -/
def Event.isUpgrade : Event → Bool
  | Event.pfqUpgrade _ _ => true
  | _ => false

/-- Delivery of a race to one of the two report sinks. -/
def Event.isReport : Event → Bool
  | Event.reportDataRace _ _ _ => true
  | Event.gDataRaceRecordsPush _ _ _ => true
  | _ => false

/-- A consultation of `analyzeRaceCondition`. -/
def Event.isAnalysis : Event → Bool
  | Event.analyzeRaceCondition _ _ => true
  | _ => false

/-- Whether the writer lock is held after the events of a log: it is taken by the return of
`pfqUpgrade` and given up by `pfqRWLockWriteUnlock`. -/
def writerHeldAfter (t : List LogEntry) : Bool :=
  t.foldl (fun held e =>
    match e.ev with
    | Event.pfqUpgrade _ _ => true
    | Event.pfqRWLockWriteUnlock => false
    | _ => held) false

/-- Number of unlock calls in a log. -/
def unlockCount (t : List LogEntry) : Nat := t.countP (fun e => e.ev.isUnlock)

/-- Number of upgrade calls in a log. -/
def upgradeCount (t : List LogEntry) : Nat := t.countP (fun e => e.ev.isUpgrade)

/-- Number of races delivered to a report sink in a log. -/
def reportCount (t : List LogEntry) : Nat := t.countP (fun e => e.ev.isReport)

/-- Number of consultations of `analyzeRaceCondition` in a log. -/
def analysisCount (t : List LogEntry) : Nat := t.countP (fun e => e.ev.isAnalysis)

/-- No other thread changes the slot while this call upgrades its lock. -/
def Env.quiet (env : Env) : Prop :=
  ∀ ah ticket rr, (env.pfqUpgrade ah ticket rr).ah = ah

/-- The access is to shared data: neither of the two thread-private classifications. -/
def CheckInfo.shared (checkInfo : CheckInfo) : Prop :=
  checkInfo.dataSharingType ≠ DataSharingType.eThreadPrivateBelowExit ∧
  checkInfo.dataSharingType ≠ DataSharingType.eStaticThreadPrivate

instance (checkInfo : CheckInfo) : Decidable checkInfo.shared := by
  unfold CheckInfo.shared; infer_instance


/-! ## Auxiliary definitions for the proofs -/

/-- The state `upgradeHelper` leaves when it calls `pfqUpgrade`. -/
def upgraded (env : Env) (s : St) : St :=
  { s with
    modIntent := true
    ah := if (env.pfqUpgrade s.ah s.ticketNum s.readReadContend).res =
        PfqUpgradeResult.eAtomicUpgraded then s.ah
      else (env.pfqUpgrade s.ah s.ticketNum s.readReadContend).ah
    readReadContend := (env.pfqUpgrade s.ah s.ticketNum s.readReadContend).rrContend
    writeLockHeld := true
    readLockHeld := false
    upgradeSuccess := if (env.pfqUpgrade s.ah s.ticketNum s.readReadContend).res =
        PfqUpgradeResult.eAtomicUpgraded then true else s.upgradeSuccess
    trace := s.trace ++ [⟨Event.pfqUpgrade s.ticketNum
      (env.pfqUpgrade s.ah s.ticketNum s.readReadContend).res, false⟩] }


/-- The lock discipline a run maintains up to `check_finish`, for the ticket drawn by the
initial `pfqRWLockReadLock`. -/
structure Inv (ticket : Nat) (s : St) : Prop where
  stamped : ∀ e ∈ s.trace, e.ev.isRecordsMutation = true → e.writeLockHeld = true
  placed : ∀ pre e post, s.trace = pre ++ e :: post → e.ev.isRecordsMutation = true →
    writerHeldAfter pre = true
  held : writerHeldAfter s.trace = s.writeLockHeld
  noUnlock : ∀ e ∈ s.trace, e.ev.isUnlock = false
  upgrades : upgradeCount s.trace = if s.writeLockHeld then 1 else 0
  readHeld : s.readLockHeld = !s.writeLockHeld
  ticketNum : s.ticketNum = ticket
  first : s.trace.head? = some ⟨Event.pfqRWLockReadLock ticket, false⟩

/-! ## Concrete inputs on which the theorems are exercised -/

/-- An environment with an uncontended lock whose upgrades are atomic; a history record races
with the current one when the two are unordered and one of them is a write. -/
def demoEnv : Env :=
  { REC_NUM_THRESHOLD := 4
    gReportLineInfo := false
    gReportAtRuntime := true
    pfqRWLockReadLock := (false, 7)
    pfqUpgrade := fun ah _ rr => ⟨PfqUpgradeResult.eAtomicUpgraded, rr, ah⟩
    diffIndexInit := 0
    happensBefore := fun h c d => (decide (h < c), d)
    analyzeRaceCondition := fun h c hb _ => !hb && (h.isWrite || c.isWrite)
    manageAccessRecord := fun _ _ _ _ _ => (AccessHistoryState.eToken 1, 0)
    modifyAccessHistory := fun _ rs it _ => (rs, it + 1) }

/-- As `demoEnv`, but every upgrade is non-atomic (no other thread touches the slot). -/
def demoEnvNonAtomic : Env :=
  { demoEnv with
    pfqUpgrade := fun ah _ _ => ⟨PfqUpgradeResult.eNonAtomicUpgraded, true, ah⟩ }

/-- All counters zero. -/
def demoCounters : Counters := ⟨0, 0, 0, 0, 0, 0, 0, 0, 0⟩

/-- Globals at process start. -/
def demoGlobals : Globals := ⟨0, 0, 0, false, 0, [], demoCounters, 0⟩

/-- A freshly constructed slot: state word zero, records not allocated. -/
def demoSlot : AccessHistory :=
  ⟨⟨false, false, AccessHistoryState.eEmpty⟩, none, 0, demoCounters⟩

/-- A write to shared data at byte 4096 from instruction 100. -/
def demoCheck : CheckInfo := ⟨true, 1, 100, false, 4096, DataSharingType.eShared⟩

/-- A record of an earlier write with label 1 from instruction 100. -/
def demoRecord : Record := ⟨true, 1, 0, 1, 100, false⟩

/-! ## Sequences of calls on one slot -/

/-- No other thread clears `DataRaceFound` while a call upgrades its lock; this holds in
particular when no other thread touches the slot (`Env.quiet`). -/
def Env.keepsRaceFlag (env : Env) : Prop :=
  ∀ ah ticket rr, ah.dataRaceFound = true →
    (env.pfqUpgrade ah ticket rr).ah.dataRaceFound = true

/-- One call in a sequence of `checkDataRace` calls on the same slot, with whether
`MemoryRecycled` is set from outside just before it. -/
structure Call where
  env : Env
  fuel : Nat
  curLabel : Label
  curLockSet : LockSet
  checkInfo : CheckInfo
  recycledBefore : Bool

/-- The slot on which a call of a sequence starts. -/
def Call.slotBefore (c : Call) (ah : AccessHistory) : AccessHistory :=
  if c.recycledBefore then ah.setFlag AccessHistoryFlag.eMemoryRecycled else ah

/-- What is observed of one call of a sequence: how it ended, its log, and the slot as the
call left it. -/
structure CallResult where
  exit : Exit
  log : List LogEntry
  slot : AccessHistory

/-- Run the calls one after another on the same slot, each on the globals and the slot the
previous one left.  A call that does not return ends the sequence. -/
def runCalls : List Call → Globals → AccessHistory → List CallResult
  | [], _, _ => []
  | c :: cs, g, ah =>
    let r := checkDataRace c.env c.fuel g (c.slotBefore ah) c.curLabel c.curLockSet
      c.checkInfo
    ⟨r.1, r.2.trace, r.2.ah⟩ ::
      (match r.1 with
      | Exit.returned => runCalls cs r.2.g r.2.ah
      | _ => [])

/-- A traversal that ended at `check_finish` having delivered at most one race and with the
slot marked `DataRaceFound`. -/
def Reported (r : Ctl × St) : Prop :=
  r.1 = Ctl.finish ∧ reportCount r.2.trace ≤ 1 ∧ r.2.ah.dataRaceFound = true

/-- A slot already marked `DataRaceFound` on which nothing was analysed or reported. -/
def Quiesced (s : St) : Prop :=
  s.ah.dataRaceFound = true ∧ reportCount s.trace = 0 ∧ analysisCount s.trace = 0

/-- The demo slot after a first write was recorded in it. -/
def demoSlotOne : AccessHistory :=
  ⟨⟨false, false, AccessHistoryState.eSingleWrite⟩, some [demoRecord], 1, demoCounters⟩

/-- A second, unordered write (label 0) to the same byte from instruction 200. -/
def demoCheckTwo : CheckInfo := ⟨true, 2, 200, false, 4096, DataSharingType.eShared⟩

/-- Three calls on one slot: a first write, an unordered second write, and a third write
issued after `MemoryRecycled` was set from outside. -/
def demoCalls : List Call :=
  [⟨demoEnv, 5, 1, 0, demoCheck, false⟩,
   ⟨demoEnv, 5, 0, 0, demoCheckTwo, false⟩,
   ⟨demoEnv, 5, 0, 0, demoCheckTwo, true⟩]

/-! ## A slot that starts a fresh history -/

/-- A consultation of one of the three race-analysis oracles. -/
def Event.isConsult : Event → Bool
  | Event.happensBefore _ _ => true
  | Event.analyzeRaceCondition _ _ => true
  | Event.manageAccessRecord _ => true
  | _ => false

/-- A log in which no oracle was consulted and no race was reported. -/
def Silent (t : List LogEntry) : Prop :=
  ∀ e ∈ t, e.ev.isConsult = false ∧ e.ev.isReport = false

/-- The state word of a slot that holds exactly the record of the current access. -/
def firstState (checkInfo : CheckInfo) : StateWord :=
  ⟨false, false, if checkInfo.isWrite then AccessHistoryState.eSingleWrite
    else AccessHistoryState.eSingleRead⟩

/-- The slot holds exactly the current record, both flags are clear, the label is
`SingleWrite` or `SingleRead` by the kind of the access, and the log is silent. -/
def Fresh (curRecord : Record) (checkInfo : CheckInfo) (s : St) : Prop :=
  s.ah.records = some [curRecord] ∧ s.ah.state = firstState checkInfo ∧ Silent s.trace

/-- How a traversal from `s` that starts a fresh history ends: at `check_finish` with the fresh
history in place, or in a restart caused by the upgrade of a reader, with the writer lock
held, the slot as it was and the log still silent. -/
def FreshOutcome (curRecord : Record) (checkInfo : CheckInfo) (s : St) (r : Ctl × St) : Prop :=
  (r.1 = Ctl.finish ∧ Fresh curRecord checkInfo r.2) ∨
  (r.1 = Ctl.restart ∧ s.writeLockHeld = false ∧ r.2.writeLockHeld = true ∧
    r.2.ah = s.ah ∧ Silent r.2.trace)

/-- The demo slot with records of a completed task, after `MemoryRecycled` was set. -/
def demoSlotRecycled : AccessHistory :=
  ⟨⟨false, true, AccessHistoryState.eSingleWrite⟩, some [demoRecord], 1, demoCounters⟩

/-- A slot on which a race was found earlier and `MemoryRecycled` was set afterwards. -/
def demoSlotMarked : AccessHistory :=
  ⟨⟨true, true, AccessHistoryState.eSingleWrite⟩, some [demoRecord], 2, demoCounters⟩

/-- The log only grows: every entry of the log of `s` is in the log of `s1`. -/
def Keeps (s s1 : St) : Prop := ∀ e ∈ s.trace, e ∈ s1.trace

/-! ## Race detection and the records of the slot -/

/-- A consultation of `analyzeRaceCondition` that returned `true`: a race is detected. -/
def Event.isDetection : Event → Bool
  | Event.analyzeRaceCondition _ race => race
  | _ => false

/-- Number of races detected in a log. -/
def detectCount (t : List LogEntry) : Nat := t.countP (fun e => e.ev.isDetection)

/-- How a traversal that started without a detected race stands: either it reached
`check_finish` having detected exactly one race, with the slot marked and its records still
in place; or no race was detected and, if it reached `check_finish` with the slot marked,
the records are empty. -/
def Settled (r : Ctl × St) : Prop :=
  (r.1 = Ctl.finish ∧ detectCount r.2.trace = 1 ∧ r.2.ah.dataRaceFound = true ∧
    ∃ rs, r.2.ah.records = some rs ∧ rs ≠ []) ∨
  (detectCount r.2.trace = 0 ∧
    (r.1 = Ctl.finish → r.2.ah.dataRaceFound = true → r.2.ah.records = some []))

/-! ## Restart after a non-atomic upgrade -/

/-- The end of a call, given where the body stopped: `check_finish` if it reached that label. -/
def conclude (r : Ctl × St) : Exit × St :=
  match r with
  | (Ctl.finish, s) => check_finish s
  | (Ctl.restart, s) => (Exit.stuck Stuck.outOfFuel, s)
  | (Ctl.stuck w, s) => (Exit.stuck w, s)

/-- The state at the label `rollback` with the writer lock already held on the slot as it
stands right after the `pfqUpgrade` issued on the slot as entered has returned: the locals
are those `upgradeHelper` leaves after a non-atomic upgrade, the log is empty. -/
def resumeAfterUpgrade (env : Env) (g : Globals) (accessHistory : AccessHistory) : St :=
  { enter env g accessHistory with
    ah := (env.pfqUpgrade (enter env g accessHistory).ah env.pfqRWLockReadLock.2 false).ah
    modIntent := true
    readReadContend :=
      (env.pfqUpgrade (enter env g accessHistory).ah env.pfqRWLockReadLock.2 false).rrContend
    writeLockHeld := true
    readLockHeld := false
    trace := [] }

/-- The same state with a log prefix put in front and the overflow counter advanced. -/
def reframe (p : List LogEntry) (k : Nat) (s : St) : St :=
  { s with
    trace := p ++ s.trace
    g := { s.g with gNumAccessHistoryOverflow := s.g.gNumAccessHistoryOverflow + k } }

/-- The state `s` after more consultations were logged and more overflows counted. -/
def ahead (n : List LogEntry) (k : Nat) (s : St) : St :=
  { s with
    trace := s.trace ++ n
    g := { s.g with gNumAccessHistoryOverflow := s.g.gNumAccessHistoryOverflow + k } }

/-- The state in which the body restarts after `upgradeHelper` was called in `s`, with an
empty log. -/
def restartState (env : Env) (s : St) : St :=
  { upgraded env s with trace := [] }

/-- The log entry of the `pfqUpgrade` call issued in state `s`. -/
def upgradeEntry (env : Env) (s : St) : LogEntry :=
  ⟨Event.pfqUpgrade s.ticketNum (env.pfqUpgrade s.ah s.ticketNum s.readReadContend).res, false⟩

/-- How a traversal that enters without the writer lock stands when `pfqUpgrade` answers
non-atomically: either it was sent back to `rollback` by its first upgrade, in the restart
state of `s` behind a log of consultations and the upgrade call, or it ended without
upgrading. -/
def Diverted (env : Env) (s : St) (r : Ctl × St) : Prop :=
  (r.1 = Ctl.restart ∧ ∃ n k, (∀ e ∈ n, e.ev.isConsult = true) ∧
    r.2 = reframe (s.trace ++ n ++ [upgradeEntry env s]) k (restartState env s)) ∨
  (r.1 ≠ Ctl.restart ∧ upgradeCount r.2.trace = upgradeCount s.trace)

/-- As `demoEnv`, but every upgrade is non-atomic and finds that another thread has meanwhile
recorded a write in the slot. -/
def demoEnvContended : Env :=
  { demoEnv with
    pfqUpgrade := fun _ _ _ => ⟨PfqUpgradeResult.eNonAtomicUpgraded, true, demoSlotOne⟩ }

/-! ## A proof rule for the driver body -/

/-- What two predicates must satisfy to be carried through the driver body: `P` holds of the
state while the traversal runs, `Q` of the state in which the race branch leaves the loop.
Each field is one kind of step of the body, with what is known where that step is taken. -/
structure DriverRule (env : Env) (curRecord : Record) (checkInfo : CheckInfo)
    (P Q : St → Prop) : Prop where
  consult : ∀ s e, P s → e.isConsult = true → e.isDetection = false → P (emit e s)
  overflow : ∀ s, P s → P (bumpOverflow s)
  upgrade : ∀ s, P s → P (upgradeHelper env s).2
  alloc : ∀ s, P s → s.writeLockHeld = true → P (getRecords s)
  relabel : ∀ s st, P s → s.writeLockHeld = true → P (setState st s)
  reset : ∀ s, P s → s.writeLockHeld = true → P (clearFlags s)
  rewrite : ∀ s rs e, P s → s.writeLockHeld = true →
    (e = Event.clear ∨ (∃ r, e = Event.push_back r) ∨
      ∃ a, e = Event.modifyAccessHistory a) →
    P (emit e (storeRecords rs s))
  race : ∀ s rs it hist d, P s → s.ah.records = some rs → rs.get? it = some hist →
    env.analyzeRaceCondition hist curRecord
      (env.happensBefore hist.label curRecord.label d).1
      (env.happensBefore hist.label curRecord.label d).2 = true →
    Q (raceFound env checkInfo hist curRecord
      (emit (Event.analyzeRaceCondition hist (env.analyzeRaceCondition hist curRecord
          (env.happensBefore hist.label curRecord.label d).1
          (env.happensBefore hist.label curRecord.label d).2))
        (emit (Event.happensBefore hist.label curRecord.label) s)))

/-! ## Jumps back to `rollback` -/

/-- Number of `goto rollback` jumps the body takes when run from `s`; it follows the recursion
of `rollback`. -/
def restartCount (env : Env) (curRecord : Record) (checkInfo : CheckInfo) : Nat → St → Nat
  | 0, _ => 0
  | fuel + 1, s =>
    match pass env curRecord checkInfo fuel s with
    | (Ctl.restart, s1) => restartCount env curRecord checkInfo fuel s1 + 1
    | _ => 0

/-- A piece of the body restarts only by an upgrade that leaves the writer lock held, and not
at all when it is entered with the writer lock held. -/
def NoLoopBack (s : St) (r : Ctl × St) : Prop :=
  (r.1 = Ctl.restart → r.2.writeLockHeld = true) ∧
  (s.writeLockHeld = true → r.1 ≠ Ctl.restart)

/-! ## Writes to the state word -/

/-- The writes to the state word that replace the label or clear the flags. -/
def Event.isLabelWrite : Event → Bool
  | Event.setState _ => true
  | Event.clearFlags => true
  | _ => false

/-- Every write `checkDataRace` makes to the state word. -/
def Event.isWordWrite : Event → Bool
  | Event.setState _ => true
  | Event.clearFlags => true
  | Event.setFlag _ => true
  | _ => false

/-- The steps the driver takes only after `upgradeHelper` has returned `false`. -/
def Event.isWriterOnly : Event → Bool
  | Event.getRecords => true
  | Event.clear => true
  | Event.push_back _ => true
  | Event.modifyAccessHistory _ => true
  | Event.setState _ => true
  | Event.clearFlags => true
  | _ => false

/-- Every logged event of the class `c` was made with `writeLockHeld` true and at a position
of the log where the writer lock is held; the log agrees with the local `writeLockHeld`. -/
structure GuardedBy (c : Event → Bool) (s : St) : Prop where
  stamped : ∀ e ∈ s.trace, c e.ev = true → e.writeLockHeld = true
  placed : ∀ pre e post, s.trace = pre ++ e :: post → c e.ev = true →
    writerHeldAfter pre = true
  held : writerHeldAfter s.trace = s.writeLockHeld

/-! ## The bucket counters -/

/-- The value of one bucket counter. -/
def Counters.get (c : CounterType) (k : Counters) : Nat :=
  match c with
  | CounterType.eNoModRWCon => k.noModRWCon
  | CounterType.eNoModRRCon => k.noModRRCon
  | CounterType.eNoModNoCon => k.noModNoCon
  | CounterType.eModRWConUS => k.modRWConUS
  | CounterType.eModRWConUF => k.modRWConUF
  | CounterType.eModRRConUS => k.modRRConUS
  | CounterType.eModRRConUF => k.modRRConUF
  | CounterType.eModNoConUS => k.modNoConUS
  | CounterType.eModNoConUF => k.modNoConUF
  | CounterType.eUndefCounter => 0

/-- The six `Mod*` buckets. -/
def CounterType.isMod : CounterType → Bool
  | CounterType.eModRWConUS => true
  | CounterType.eModRWConUF => true
  | CounterType.eModRRConUS => true
  | CounterType.eModRRConUF => true
  | CounterType.eModNoConUS => true
  | CounterType.eModNoConUF => true
  | _ => false

/-- The three `*US` buckets. -/
def CounterType.isUS : CounterType → Bool
  | CounterType.eModRWConUS => true
  | CounterType.eModRRConUS => true
  | CounterType.eModNoConUS => true
  | _ => false

/-- A `pfqUpgrade` call that returned `eAtomicUpgraded`. -/
def Event.isAtomicUpgrade : Event → Bool
  | Event.pfqUpgrade _ PfqUpgradeResult.eAtomicUpgraded => true
  | _ => false

/-- Whether the log holds a `pfqUpgrade` that returned `eAtomicUpgraded`. -/
def atomicUpgradeLogged (t : List LogEntry) : Bool := t.any (fun e => e.ev.isAtomicUpgrade)

/-- No other thread changes the slot-local counters while this call upgrades its lock. -/
def Env.keepsCounters (env : Env) : Prop :=
  ∀ ah ticket rr, (env.pfqUpgrade ah ticket rr).ah.counters = ah.counters

/-- What the body of `checkDataRace` maintains about the inputs of `getCounterType` and about
the counters, relative to the globals and the slot the call was entered with. -/
structure Tally (env : Env) (g0 : Globals) (ah0 : AccessHistory) (s : St) : Prop where
  globals : s.g.counters = g0.counters
  intent : s.modIntent = s.writeLockHeld
  success : s.upgradeSuccess = atomicUpgradeLogged s.trace
  owner : s.upgradeSuccess = true → s.writeLockHeld = true
  contend : s.writeLockHeld = false → s.readReadContend = false
  slot : env.keepsCounters → s.ah.counters = ah0.counters

/-! ## Delivery of a detected race -/

/-- The log entries of lines 209-218 for the racing pair, made with `held` as the value of
`writeLockHeld`: the guarded `push_back` when `gReportLineInfo` is set, else the call of
`reportDataRace` when `gReportAtRuntime` is set, else nothing. -/
def sinkEntries (env : Env) (checkInfo : CheckInfo) (histRecord curRecord : Record)
    (held : Bool) : List LogEntry :=
  if env.gReportLineInfo then
    [⟨Event.gDataRaceLockAcquire, held⟩,
     ⟨Event.gDataRaceRecordsPush histRecord.instnAddr curRecord.instnAddr
        checkInfo.byteAddress, held⟩,
     ⟨Event.gDataRaceLockRelease, held⟩]
  else if env.gReportAtRuntime then
    [⟨Event.reportDataRace histRecord.instnAddr curRecord.instnAddr
        checkInfo.byteAddress, held⟩]
  else []

/-- What lines 209-218 append to `gDataRaceRecords` for the racing pair. -/
def sinkRecords (env : Env) (checkInfo : CheckInfo) (histRecord curRecord : Record) :
    List DataRaceInfo :=
  if env.gReportLineInfo then
    [⟨histRecord.instnAddr, curRecord.instnAddr, checkInfo.byteAddress⟩]
  else []

/-- No race has been detected so far in the call: no consultation of `analyzeRaceCondition`
in the log returned `true` and `gDataRaceRecords` is as on entry. -/
structure NoRace (g0 : Globals) (s : St) : Prop where
  none : ∀ e ∈ s.trace, e.ev.isDetection = false
  records : s.g.gDataRaceRecords = g0.gDataRaceRecords

/-- The race branch has just run: the log ends with the one detection of the call, the
entries of the sink, and the `setFlag`; `gDataRaceRecords` has grown by what the sink
appends. -/
def Delivered (env : Env) (checkInfo : CheckInfo) (curRecord : Record) (g0 : Globals)
    (s : St) : Prop :=
  ∃ (pre : List LogEntry) (hist : Record) (held : Bool),
    (∀ e ∈ pre, e.ev.isDetection = false) ∧
    s.trace = pre ++ ⟨Event.analyzeRaceCondition hist true, held⟩ ::
      (sinkEntries env checkInfo hist curRecord held ++
        [⟨Event.setFlag AccessHistoryFlag.eDataRaceFound, held⟩]) ∧
    s.g.gDataRaceRecords = g0.gDataRaceRecords ++ sinkRecords env checkInfo hist curRecord

/-- The environment `demoEnv` with both report options off. -/
def demoEnvMute : Env := { demoEnv with gReportLineInfo := false, gReportAtRuntime := false }

/-- The environment `demoEnv` configured for deferred line-info reporting. -/
def demoEnvLineInfo : Env := { demoEnv with gReportLineInfo := true }

/-! ## The MCS lock (`McsLock.cpp`)

A queue node is named by the thread that owns it; `none` is `MCS_NIL`. -/

/-- The memory of one MCS lock: the tail pointer `l->tail` and, for every node, its fields
`next` and `blocked`. -/
structure McsMem where
  tail : Option Nat
  next : Nat → Option Nat
  blocked : Nat → Bool

/-- The store `node->next = v`. -/
def McsMem.setNext (node : Nat) (v : Option Nat) (m : McsMem) : McsMem :=
  { m with next := fun x => if x = node then v else m.next x }

/-- The store `node->blocked = v`. -/
def McsMem.setBlocked (node : Nat) (v : Bool) (m : McsMem) : McsMem :=
  { m with blocked := fun x => if x = node then v else m.blocked x }

/-- The call `atomic_compare_exchange_strong(&l->tail, &expected, desired)`: the returned
flag and the memory it leaves. -/
def McsMem.casTail (expected desired : Option Nat) (m : McsMem) : Bool × McsMem :=
  if m.tail = expected then (true, { m with tail := desired }) else (false, m)

/-- The function `mcsTryLock`: store nil to `me->next`, then compare-exchange `l->tail` from
nil to `me` and return the outcome. -/
def mcsTryLock (me : Nat) (m : McsMem) : Bool × McsMem :=
  let m : McsMem := m.setNext me none
  m.casTail none (some me)

/-! ## The entry point `checkAccess` (lines 317-372) -/

/-- The fields of `TaskData` that `checkAccess` reads: the label, the lock set, and the
address of the structure itself (it becomes `CheckInfo::taskPtr`). -/
structure TaskData where
  ptr : Nat
  label : Label
  lockSet : LockSet
  deriving DecidableEq, Repr

/-- What `prepareAllInfo` leaves in its reference parameters when it returns `true`: the task
type and `allTaskInfo.taskData->ptr` (`none` is the null pointer). -/
structure AllTaskInfo where
  taskType : Int
  taskData : Option TaskData
  deriving DecidableEq, Repr

/-- Everything `checkAccess` uses and `RompLib.cpp` does not define.  The answer of
`isDupMemAccess` may depend on the queries made before it in the same call (the filter is
updated by its own queries); `driver i` holds the outcome of the lock calls and the oracles
during the driver call for the byte with index `i`, `fuel` the bound of each driver call. -/
structure AccessEnv where
  gOmptInitialized : Bool
  prepareAllInfo : Option AllTaskInfo
  ompt_task_initial : Int
  analyzeDataSharing : Nat → DataSharingType
  isDupMemAccess : List (Bool × Nat) → Bool → Nat → Bool
  getShadowMemorySlot : Nat → Nat
  driver : Nat → Env
  fuel : Nat

/-- The calls `checkAccess` makes, in program order.  A driver call is logged with the slot
it is given, its `CheckInfo`, and the log of the call. -/
inductive AccessEvent where
  | analyzeDataSharing (address : Nat)
  | warning
  | isDupMemAccess (isWrite : Bool) (address : Nat)
  | getShadowMemorySlot (address : Nat)
  | checkDataRace (slot : Nat) (checkInfo : CheckInfo) (trace : List LogEntry)
  deriving DecidableEq, Repr

/-- Machine state around one `checkAccess` call: the globals, the shadow memory (slot number
to slot), the log of calls, and the queries put to the duplicate filter so far. -/
structure AccessState where
  g : Globals
  slots : Nat → AccessHistory
  log : List AccessEvent
  queries : List (Bool × Nat)

/-- Lines 361-371: the loop over the bytes of the access, at index `i` with `n` bytes left.
A driver call that does not return ends the loop with its exit. -/
def byteLoop (env : AccessEnv) (curTaskData : TaskData) (checkInfo : CheckInfo)
    (address : Nat) : Nat → Nat → AccessState → Exit × AccessState
  | 0, _, s => (Exit.returned, s)
  | n + 1, i, s =>
    let curAddress := (address + i) % 2 ^ 64
    let s : AccessState :=
      { s with g := { s.g with gNumBytesChecked := s.g.gNumBytesChecked + 1 } }
    let dup := env.isDupMemAccess s.queries checkInfo.isWrite address
    let s : AccessState := { s with
      log := s.log ++ [AccessEvent.isDupMemAccess checkInfo.isWrite address]
      queries := s.queries ++ [(checkInfo.isWrite, address)] }
    if dup then
      byteLoop env curTaskData checkInfo address n (i + 1) s
    else
      let accessHistory := env.getShadowMemorySlot curAddress
      let s : AccessState :=
        { s with log := s.log ++ [AccessEvent.getShadowMemorySlot curAddress] }
      let checkInfo : CheckInfo := { checkInfo with byteAddress := curAddress }
      let r := checkDataRace (env.driver i) env.fuel s.g (s.slots accessHistory)
        curTaskData.label curTaskData.lockSet checkInfo
      let s : AccessState := { s with
        g := r.2.g
        slots := fun x => if x = accessHistory then r.2.ah else s.slots x
        log := s.log ++ [AccessEvent.checkDataRace accessHistory checkInfo r.2.trace] }
      match r.1 with
      | Exit.returned => byteLoop env curTaskData checkInfo address n (i + 1) s
      | e => (e, s)

/-- The function `checkAccess`.  The `CheckInfo` is constructed without a byte address (`0`
here); the loop sets it before every driver call. -/
def checkAccess (env : AccessEnv) (address bytesAccessed instnAddr : Nat)
    (hwLock isWrite : Bool) (s : AccessState) : Exit × AccessState :=
  if !env.gOmptInitialized then
    (Exit.returned, s)
  else
    match env.prepareAllInfo with
    | none => (Exit.returned, s)
    | some allTaskInfo =>
      if allTaskInfo.taskType = env.ompt_task_initial then
        (Exit.returned, s)
      else
        let dataSharingType := env.analyzeDataSharing address
        let s : AccessState :=
          { s with log := s.log ++ [AccessEvent.analyzeDataSharing address] }
        match allTaskInfo.taskData with
        | none => (Exit.returned, { s with log := s.log ++ [AccessEvent.warning] })
        | some curTaskData =>
          let checkInfo : CheckInfo :=
            ⟨isWrite, curTaskData.ptr, instnAddr, hwLock, 0, dataSharingType⟩
          byteLoop env curTaskData checkInfo address bytesAccessed 0 s

/-- The slot resolutions and driver calls. -/
def AccessEvent.touchesSlot : AccessEvent → Bool
  | AccessEvent.getShadowMemorySlot _ => true
  | AccessEvent.checkDataRace _ _ _ => true
  | _ => false

/-- The byte addresses the driver was called with, in call order. -/
def driverBytes : List AccessEvent → List Nat
  | [] => []
  | AccessEvent.checkDataRace _ checkInfo _ :: t => checkInfo.byteAddress :: driverBytes t
  | _ :: t => driverBytes t

/-- The addresses put to the duplicate filter, in call order. -/
def filterQueries : List AccessEvent → List Nat
  | [] => []
  | AccessEvent.isDupMemAccess _ address :: t => address :: filterQueries t
  | _ :: t => filterQueries t

/-- The skip conditions of lines 327-351. -/
def AccessEnv.skips (env : AccessEnv) : Prop :=
  env.gOmptInitialized = false ∨ env.prepareAllInfo = none ∨
  (∃ info, env.prepareAllInfo = some info ∧ info.taskType = env.ompt_task_initial) ∨
  (∃ info, env.prepareAllInfo = some info ∧ info.taskData = none)

/-- A task with label 0 and no locks held. -/
def demoTask : TaskData := ⟨2, 0, 0⟩

/-- An initialised tool inside an explicit task; every byte is mapped to its own slot and
all slots are fresh; the filter is given below. -/
def demoAccessEnv (dup : List (Bool × Nat) → Bool → Nat → Bool) : AccessEnv :=
  { gOmptInitialized := true
    prepareAllInfo := some ⟨4, some demoTask⟩
    ompt_task_initial := 1
    analyzeDataSharing := fun _ => DataSharingType.eShared
    isDupMemAccess := dup
    getShadowMemorySlot := fun a => a
    driver := fun _ => demoEnv
    fuel := 5 }

/-- The state at process start: all slots fresh, nothing logged. -/
def demoAccessState : AccessState := ⟨demoGlobals, fun _ => demoSlot, [], []⟩

/-- A read of thread-private data below the exit frame. -/
def demoCheckPrivate : CheckInfo :=
  ⟨false, 1, 300, false, 8192, DataSharingType.eThreadPrivateBelowExit⟩

/-! ## Threads running `mcsLock` / `mcsUnlock`

Every thread owns the node of its own number and runs `mcsLock`, its critical section and
`mcsUnlock` on one lock, any number of times.  One step of a thread is one atomic operation
of `McsLock.cpp`; a run is a schedule, the list of the threads in the order they step. -/

/-- Where a thread stands: the operation it executes next.  A thread at `lockInit` is outside
the lock (before `mcsLock`, or after `mcsUnlock` has returned); a thread at `critical` is
between the return of `mcsLock` and the start of `mcsUnlock`. -/
inductive McsPc where
  | lockInit
  | lockExchange
  | lockSetBlocked (predecessor : Nat)
  | lockLink (predecessor : Nat)
  | lockSpin
  | critical
  | unlockCas
  | unlockWait
  | unlockSignal (successor : Nat)
  deriving DecidableEq, Repr

/-- The lock memory, the position of every thread, and two histories: the threads in the
order their exchanges on `l->tail` took effect, and in the order `mcsLock` returned. -/
structure McsSys where
  mem : McsMem
  pc : Nat → McsPc
  arrivals : List Nat
  entries : List Nat

/-- Move thread `t` to position `p`. -/
def McsSys.setPc (t : Nat) (p : McsPc) (s : McsSys) : McsSys :=
  { s with pc := fun x => if x = t then p else s.pc x }

/-- One atomic operation of thread `t`.
`mcsLock`: `atomic_init(&me->next, nil)`; the exchange on `l->tail`, after which the call
returns if there was no predecessor; `atomic_init(&me->blocked, true)`; the store to
`predecessor->next`; one load of `me->blocked` (the call returns when it reads `false`).
`mcsUnlock`: the load of `me->next` (at `critical`); the compare-exchange of `l->tail` from
`me` to nil, after which the call returns if it succeeded; one load of `me->next` in the
waiting loop; the store of `false` to `successor->blocked`. -/
def mcsStep (t : Nat) (s : McsSys) : McsSys :=
  match s.pc t with
  | McsPc.lockInit =>
    McsSys.setPc t McsPc.lockExchange { s with mem := s.mem.setNext t none }
  | McsPc.lockExchange =>
    let s1 : McsSys :=
      { s with mem := { s.mem with tail := some t }, arrivals := s.arrivals ++ [t] }
    match s.mem.tail with
    | none => McsSys.setPc t McsPc.critical { s1 with entries := s1.entries ++ [t] }
    | some predecessor => McsSys.setPc t (McsPc.lockSetBlocked predecessor) s1
  | McsPc.lockSetBlocked predecessor =>
    McsSys.setPc t (McsPc.lockLink predecessor) { s with mem := s.mem.setBlocked t true }
  | McsPc.lockLink predecessor =>
    McsSys.setPc t McsPc.lockSpin { s with mem := s.mem.setNext predecessor (some t) }
  | McsPc.lockSpin =>
    if s.mem.blocked t then s
    else McsSys.setPc t McsPc.critical { s with entries := s.entries ++ [t] }
  | McsPc.critical =>
    match s.mem.next t with
    | none => McsSys.setPc t McsPc.unlockCas s
    | some successor => McsSys.setPc t (McsPc.unlockSignal successor) s
  | McsPc.unlockCas =>
    let r := s.mem.casTail (some t) none
    if r.1 then McsSys.setPc t McsPc.lockInit { s with mem := r.2 }
    else McsSys.setPc t McsPc.unlockWait { s with mem := r.2 }
  | McsPc.unlockWait =>
    match s.mem.next t with
    | none => s
    | some successor => McsSys.setPc t (McsPc.unlockSignal successor) s
  | McsPc.unlockSignal successor =>
    McsSys.setPc t McsPc.lockInit { s with mem := s.mem.setBlocked successor false }

/-- The state a schedule leads to. -/
def mcsRun (schedule : List Nat) (s : McsSys) : McsSys :=
  schedule.foldl (fun s t => mcsStep t s) s

/-- A free lock with every thread outside of it; the nodes hold anything. -/
def mcsInitial (next : Nat → Option Nat) (blocked : Nat → Bool) : McsSys :=
  ⟨⟨none, next, blocked⟩, fun _ => McsPc.lockInit, [], []⟩

/-- The thread has the lock: `mcsLock` has returned and `mcsUnlock` has not handed it on. -/
def McsPc.holding : McsPc → Bool
  | McsPc.critical => true
  | McsPc.unlockCas => true
  | McsPc.unlockWait => true
  | McsPc.unlockSignal _ => true
  | _ => false

/-- The thread's node is in the queue: its exchange is done, its `mcsUnlock` is not. -/
def McsPc.queued : McsPc → Bool
  | McsPc.lockInit => false
  | McsPc.lockExchange => false
  | _ => true

/-- `b` directly follows `a` in the list. -/
def Adj : List Nat → Nat → Nat → Prop
  | x :: y :: r, a, b => (x = a ∧ y = b) ∨ Adj (y :: r) a b
  | _, _, _ => False

/-- How thread `b` stands behind its predecessor `a`: not yet linked, or linked and
blocked. -/
def Waits (s : McsSys) (a b : Nat) : Prop :=
  (s.pc b = McsPc.lockSetBlocked a ∧ s.mem.next a = none) ∨
  (s.pc b = McsPc.lockLink a ∧ s.mem.blocked b = true ∧ s.mem.next a = none) ∨
  (s.pc b = McsPc.lockSpin ∧ s.mem.blocked b = true ∧ s.mem.next a = some b)

/-- The threads that have arrived and not entered, given the queue. -/
def waiting (s : McsSys) : List Nat → List Nat
  | [] => []
  | h :: r => if (s.pc h).holding then r else h :: r

/-- The queue invariant: `q` lists the queued threads in arrival order. -/
structure McsInv (s : McsSys) (q : List Nat) : Prop where
  nodup : q.Nodup
  tail : s.mem.tail = q.getLast?
  queued : ∀ t, t ∈ q ↔ (s.pc t).queued = true
  fresh : ∀ t, s.pc t = McsPc.lockExchange → s.mem.next t = none
  head : ∀ h r, q = h :: r →
    (s.pc h).holding = true ∨ (s.pc h = McsPc.lockSpin ∧ s.mem.blocked h = false)
  behind : ∀ a b, Adj q a b → Waits s a b
  last : ∀ l, q.getLast? = some l → s.mem.next l = none
  signal : ∀ t n, s.pc t = McsPc.unlockSignal n → s.mem.next t = some n
  fifo : s.arrivals = s.entries ++ waiting s q

/-! ## The `records` pointer -/

/-- The slot has its record sequence: `peekRecords` is non-null. -/
def Allocated (s : St) : Prop := s.ah.records ≠ none

/-- The piece of the body did not end in a dereference of a null `records` pointer. -/
def NullFree (r : Ctl × St) : Prop := r.1 ≠ Ctl.stuck Stuck.nullDeref

/-- Thread `t`, outside the lock, calls `mcsTryLock` on its node: on success it is in its
critical section, and its acquisition enters both histories; on failure it stays outside. -/
def mcsTryLockBy (t : Nat) (s : McsSys) : McsSys :=
  let r := mcsTryLock t s.mem
  if r.1 then
    McsSys.setPc t McsPc.critical
      { s with mem := r.2, arrivals := s.arrivals ++ [t], entries := s.entries ++ [t] }
  else
    { s with mem := r.2 }

/-! # Properties -/

/-! ## `upgradeHelper` and `getCounterType` on their own -/

/-- C6: `upgradeHelper` asks for a restart exactly when the writer lock was not held on entry
and `pfqUpgrade` returned something other than `eAtomicUpgraded`; with the writer lock held
it returns `false` and changes nothing but `modIntent` (no `pfqUpgrade` call is logged);
called without the writer lock it logs exactly one `pfqUpgrade` call and leaves
`writeLockHeld = true` and `readLockHeld = false`. -/
theorem upgradeHelper_contract (env : Env) (s : St) :
    ((upgradeHelper env s).1 = true ↔
      (s.writeLockHeld = false ∧
        (env.pfqUpgrade s.ah s.ticketNum s.readReadContend).res ≠
          PfqUpgradeResult.eAtomicUpgraded)) ∧
    upgradeHelper env { s with writeLockHeld := true } =
      (false, { s with writeLockHeld := true, modIntent := true }) ∧
    (upgradeHelper env { s with writeLockHeld := false }).2.trace =
      s.trace ++ [⟨Event.pfqUpgrade s.ticketNum
        (env.pfqUpgrade s.ah s.ticketNum s.readReadContend).res, false⟩] ∧
    (upgradeHelper env { s with writeLockHeld := false }).2.writeLockHeld = true ∧
    (upgradeHelper env { s with writeLockHeld := false }).2.readLockHeld = false := by
  refine ⟨?_, ?_, ?_, ?_, ?_⟩
  · unfold upgradeHelper
    cases hw : s.writeLockHeld <;>
      by_cases hr : (env.pfqUpgrade s.ah s.ticketNum s.readReadContend).res =
        PfqUpgradeResult.eAtomicUpgraded <;> simp [hw, hr, emit]
  · simp [upgradeHelper]
  · unfold upgradeHelper
    by_cases hr : (env.pfqUpgrade s.ah s.ticketNum s.readReadContend).res =
        PfqUpgradeResult.eAtomicUpgraded <;> simp [hr, emit]
  · unfold upgradeHelper
    by_cases hr : (env.pfqUpgrade s.ah s.ticketNum s.readReadContend).res =
        PfqUpgradeResult.eAtomicUpgraded <;> simp [hr, emit]
  · unfold upgradeHelper
    by_cases hr : (env.pfqUpgrade s.ah s.ticketNum s.readReadContend).res =
        PfqUpgradeResult.eAtomicUpgraded <;> simp [hr, emit]

/-- C7: `getCounterType` returns the bucket of the classification table for all sixteen
inputs: without `modIntent` the bucket is chosen by contention alone, with `modIntent` the
suffix is `US` exactly when `upgradeSuccess` holds, and reader/writer contention wins over
reader/reader contention. -/
theorem getCounterType_table :
    (∀ rr us, getCounterType true rr us false = CounterType.eNoModRWCon) ∧
    (∀ us, getCounterType false true us false = CounterType.eNoModRRCon) ∧
    (∀ us, getCounterType false false us false = CounterType.eNoModNoCon) ∧
    (∀ rr, getCounterType true rr true true = CounterType.eModRWConUS) ∧
    (∀ rr, getCounterType true rr false true = CounterType.eModRWConUF) ∧
    getCounterType false true true true = CounterType.eModRRConUS ∧
    getCounterType false true false true = CounterType.eModRRConUF ∧
    getCounterType false false true true = CounterType.eModNoConUS ∧
    getCounterType false false false true = CounterType.eModNoConUF := by
  refine ⟨?_, ?_, ?_, ?_, ?_, ?_, ?_, ?_, ?_⟩ <;> decide

/-! ## The lock discipline along a run -/

theorem writerHeldAfter_snoc (t : List LogEntry) (x : LogEntry) :
    writerHeldAfter (t ++ [x]) =
      (match x.ev with
      | Event.pfqUpgrade _ _ => true
      | Event.pfqRWLockWriteUnlock => false
      | _ => writerHeldAfter t) := by
  simp [writerHeldAfter, List.foldl_append]

/-- Splitting a log extended by one entry: the marked entry is the new one or an old one. -/
theorem snoc_eq_split {α : Type} (t : List α) (x : α) (pre : List α) (e : α) (post : List α)
    (h : t ++ [x] = pre ++ e :: post) :
    (post = [] ∧ pre = t ∧ e = x) ∨ (∃ post1, post = post1 ++ [x] ∧ t = pre ++ e :: post1) := by
  rcases List.eq_nil_or_concat post with hp | ⟨post1, y, hp⟩
  · subst hp
    left
    have h2 : t ++ [x] = pre ++ [e] := h
    have h3 := List.append_inj' h2 rfl
    refine ⟨rfl, h3.1.symm, ?_⟩
    simpa using h3.2.symm
  · right
    subst hp
    have h2 : t ++ [x] = (pre ++ e :: post1) ++ [y] := by simpa using h
    have h3 := List.append_inj' h2 rfl
    have hy : x = y := by simpa using h3.2
    subst hy
    exact ⟨post1, by simp, h3.1⟩

theorem Inv.congr {ticket : Nat} {s s1 : St} (h : Inv ticket s) (ht : s1.trace = s.trace)
    (hw : s1.writeLockHeld = s.writeLockHeld) (hr : s1.readLockHeld = s.readLockHeld)
    (hk : s1.ticketNum = s.ticketNum) : Inv ticket s1 := by
  constructor
  · rw [ht]; exact h.stamped
  · rw [ht]; exact h.placed
  · rw [ht, hw]; exact h.held
  · rw [ht]; exact h.noUnlock
  · rw [ht, hw]; exact h.upgrades
  · rw [hr, hw]; exact h.readHeld
  · rw [hk]; exact h.ticketNum
  · rw [ht]; exact h.first

theorem Inv.emit_inv {ticket : Nat} {s : St} (h : Inv ticket s) (e : Event)
    (hm : e.isRecordsMutation = true → s.writeLockHeld = true)
    (hu : e.isUnlock = false) (hg : e.isUpgrade = false) : Inv ticket (emit e s) := by
  constructor
  · intro x hx hmx
    simp only [Romp.emit, List.mem_append, List.mem_singleton] at hx
    rcases hx with hx | hx
    · exact h.stamped x hx hmx
    · subst hx; exact hm hmx
  · intro pre x post hsplit hmx
    simp only [Romp.emit] at hsplit
    rcases snoc_eq_split _ _ _ _ _ hsplit with ⟨_, hpre, hx⟩ | ⟨post1, _, ht⟩
    · subst hpre; subst hx
      rw [h.held]; exact hm hmx
    · exact h.placed pre x post1 ht hmx
  · show writerHeldAfter (s.trace ++ [⟨e, s.writeLockHeld⟩]) = s.writeLockHeld
    rw [writerHeldAfter_snoc]
    cases e <;> simp_all [Event.isUnlock, Event.isUpgrade, h.held]
  · intro x hx
    simp only [Romp.emit, List.mem_append, List.mem_singleton] at hx
    rcases hx with hx | hx
    · exact h.noUnlock x hx
    · subst hx; exact hu
  · show upgradeCount (s.trace ++ [⟨e, s.writeLockHeld⟩]) = _
    have := h.upgrades
    simp only [upgradeCount, List.countP_append] at this ⊢
    simp [List.countP_cons, hg, this, Romp.emit]
  · exact h.readHeld
  · exact h.ticketNum
  · have hf := h.first
    show (s.trace ++ [LogEntry.mk e s.writeLockHeld]).head? = _
    cases hs : s.trace with
    | nil => rw [hs] at hf; cases hf
    | cons a t => rw [hs] at hf; simpa using hf

theorem Inv.step {ticket : Nat} {s : St} (h : Inv ticket s) (s1 : St) (e : Event)
    (hm : e.isRecordsMutation = true → s.writeLockHeld = true)
    (hu : e.isUnlock = false) (hg : e.isUpgrade = false)
    (ht : s1.trace = s.trace) (hw : s1.writeLockHeld = s.writeLockHeld)
    (hr : s1.readLockHeld = s.readLockHeld) (hk : s1.ticketNum = s.ticketNum) :
    Inv ticket (Romp.emit e s1) :=
  Inv.emit_inv (h.congr ht hw hr hk) e (fun x => by rw [hw]; exact hm x) hu hg

theorem Inv.setState_inv {ticket : Nat} {s : St} (h : Inv ticket s) (st : AccessHistoryState) :
    Inv ticket (Romp.setState st s) := by
  unfold Romp.setState
  apply Inv.step h <;> first | rfl | simp [Event.isRecordsMutation]

theorem Inv.setFlag_inv {ticket : Nat} {s : St} (h : Inv ticket s) (f : AccessHistoryFlag) :
    Inv ticket (Romp.setFlag f s) := by
  unfold Romp.setFlag
  apply Inv.step h <;> first | rfl | simp [Event.isRecordsMutation]

theorem Inv.clearFlags_inv {ticket : Nat} {s : St} (h : Inv ticket s) :
    Inv ticket (Romp.clearFlags s) := by
  unfold Romp.clearFlags
  apply Inv.step h <;> first | rfl | simp [Event.isRecordsMutation]

theorem Inv.getRecords_inv {ticket : Nat} {s : St} (h : Inv ticket s)
    (hw : s.writeLockHeld = true) : Inv ticket (Romp.getRecords s) := by
  unfold Romp.getRecords
  apply Inv.step h <;> first | rfl | exact fun _ => hw

theorem Inv.store_inv {ticket : Nat} {s : St} (h : Inv ticket s) (rs : List Record) (e : Event)
    (hw : s.writeLockHeld = true) (hu : e.isUnlock = false) (hg : e.isUpgrade = false) :
    Inv ticket (Romp.emit e (storeRecords rs s)) := by
  apply Inv.step h <;> first | rfl | assumption | exact fun _ => hw

theorem Inv.bumpOverflow_inv {ticket : Nat} {s : St} (h : Inv ticket s) :
    Inv ticket (Romp.bumpOverflow s) :=
  h.congr rfl rfl rfl rfl

theorem Inv.withGlobals_inv {ticket : Nat} {s : St} (h : Inv ticket s) (g : Globals) :
    Inv ticket { s with g := g } :=
  h.congr rfl rfl rfl rfl

theorem Inv.raceFound_inv {ticket : Nat} {s : St} (h : Inv ticket s) (env : Env)
    (checkInfo : CheckInfo) (hist cur : Record) :
    Inv ticket (Romp.raceFound env checkInfo hist cur s) := by
  unfold Romp.raceFound
  apply Inv.setFlag_inv
  split
  · refine Inv.emit_inv ?_ _ (by simp [Event.isRecordsMutation]) rfl rfl
    refine Inv.emit_inv (Inv.withGlobals_inv ?_ _) _ (by simp [Event.isRecordsMutation]) rfl rfl
    refine Inv.emit_inv ?_ _ (by simp [Event.isRecordsMutation]) rfl rfl
    exact h.congr rfl rfl rfl rfl
  · split
    · apply Inv.step h <;> first | rfl | simp [Event.isRecordsMutation]
    · exact h.congr rfl rfl rfl rfl

theorem upgradeHelper_of_held (env : Env) (s : St) (hw : s.writeLockHeld = true) :
    upgradeHelper env s = (false, { s with modIntent := true }) := by
  unfold upgradeHelper
  simp [hw]

theorem upgradeHelper_of_free (env : Env) (s : St) (hw : s.writeLockHeld = false) :
    upgradeHelper env s =
      (decide ((env.pfqUpgrade s.ah s.ticketNum s.readReadContend).res ≠
        PfqUpgradeResult.eAtomicUpgraded), upgraded env s) := by
  unfold upgradeHelper upgraded
  by_cases hr : (env.pfqUpgrade s.ah s.ticketNum s.readReadContend).res =
      PfqUpgradeResult.eAtomicUpgraded <;> simp [hw, hr, emit]

theorem upgradeHelper_held (env : Env) (s : St) :
    (upgradeHelper env s).2.writeLockHeld = true := by
  cases hw : s.writeLockHeld
  · rw [upgradeHelper_of_free env s hw]; rfl
  · rw [upgradeHelper_of_held env s hw]; exact hw

theorem Inv.upgradeHelper_inv {ticket : Nat} {s : St} (h : Inv ticket s) (env : Env) :
    Inv ticket (Romp.upgradeHelper env s).2 := by
  cases hw : s.writeLockHeld
  · rw [upgradeHelper_of_free env s hw]
    have ht : (upgraded env s).trace = s.trace ++ [⟨Event.pfqUpgrade s.ticketNum
          (env.pfqUpgrade s.ah s.ticketNum s.readReadContend).res, false⟩] := rfl
    have hw1 : (upgraded env s).writeLockHeld = true := rfl
    have hr1 : (upgraded env s).readLockHeld = false := rfl
    have hk1 : (upgraded env s).ticketNum = s.ticketNum := rfl
    constructor
    · intro x hx hmx
      rw [ht] at hx
      simp only [List.mem_append, List.mem_singleton] at hx
      rcases hx with hx | hx
      · exact h.stamped x hx hmx
      · subst hx; simp [Event.isRecordsMutation] at hmx
    · intro pre x post hsplit hmx
      rw [ht] at hsplit
      rcases snoc_eq_split _ _ _ _ _ hsplit with ⟨_, _, hx⟩ | ⟨post1, _, ht1⟩
      · subst hx; simp [Event.isRecordsMutation] at hmx
      · exact h.placed pre x post1 ht1 hmx
    · rw [ht, writerHeldAfter_snoc, hw1]
    · intro x hx
      rw [ht] at hx
      simp only [List.mem_append, List.mem_singleton] at hx
      rcases hx with hx | hx
      · exact h.noUnlock x hx
      · subst hx; rfl
    · have := h.upgrades
      rw [hw] at this
      simp only [upgradeCount] at this ⊢
      rw [ht, hw1, List.countP_append, this]
      simp [Event.isUpgrade]
    · rw [hr1, hw1]; rfl
    · rw [hk1]; exact h.ticketNum
    · have hf := h.first
      rw [ht]
      cases hs : s.trace with
      | nil => rw [hs] at hf; cases hf
      | cons a t => rw [hs] at hf; simpa using hf
  · rw [upgradeHelper_of_held env s hw]
    exact h.congr rfl rfl rfl rfl

theorem Inv.applyDecision_inv {ticket : Nat} {s s1 : St} (h : Inv ticket s) (env : Env)
    (cur : Record) (st : AccessHistoryState) (a : RecordManagement) (it it1 : Nat)
    (hw : s.writeLockHeld = true)
    (he : Romp.applyDecision env cur st a it s = some (it1, s1)) :
    Inv ticket s1 ∧ s1.writeLockHeld = true := by
  unfold Romp.applyDecision at he
  simp only [] at he
  split at he
  · cases he
  · simp only [Option.some.injEq, Prod.mk.injEq] at he
    rw [← he.2]
    exact ⟨(h.setState_inv st).store_inv _ _ hw rfl rfl, hw⟩

theorem Inv.note {ticket : Nat} {s : St} (h : Inv ticket s) (e : Event)
    (hm : e.isRecordsMutation = false) (hu : e.isUnlock = false) (hg : e.isUpgrade = false) :
    Inv ticket (Romp.emit e s) :=
  Inv.emit_inv h e (fun x => by rw [hm] at x; cases x) hu hg

theorem Inv.recordLoop_inv {ticket : Nat} (env : Env) (cur : Record) (ci : CheckInfo) :
    ∀ (fuel it : Nat) (d : Int) (s : St), Inv ticket s →
      Inv ticket (Romp.recordLoop env cur ci fuel it d s).2
  | 0, _, _, s, h => by simpa [Romp.recordLoop] using h
  | fuel + 1, it, d, s, h => by
    rw [Romp.recordLoop]
    split
    · exact h
    · split
      · exact h
      · split
        · exact h
        · rename_i rs _ hist _
          simp only []
          have h2 := (h.note (Event.happensBefore hist.label cur.label) rfl rfl rfl).note
            (Event.analyzeRaceCondition hist (env.analyzeRaceCondition hist cur
              (env.happensBefore hist.label cur.label d).1
              (env.happensBefore hist.label cur.label d).2)) rfl rfl rfl
          split
          · exact h2.raceFound_inv env ci hist cur
          · have h3 := h2.note (Event.manageAccessRecord hist) rfl rfl rfl
            split
            · rename_i hw
              split
              · exact h3
              · rename_i it1 s4 he
                exact Inv.recordLoop_inv env cur ci fuel it1 _ s4
                  (h3.applyDecision_inv env cur _ _ _ _ hw he).1
            · split
              · exact h3.upgradeHelper_inv env
              · split
                · exact h3.upgradeHelper_inv env
                · rename_i it1 s4 he
                  exact Inv.recordLoop_inv env cur ci fuel it1 _ s4
                    ((h3.upgradeHelper_inv env).applyDecision_inv env cur _ _ _ _
                      (upgradeHelper_held env _) he).1

theorem Inv.historyStage_inv {ticket : Nat} (env : Env) (cur : Record) (ci : CheckInfo)
    (fuel : Nat) (s : St) (h : Inv ticket s) :
    Inv ticket (Romp.historyStage env cur ci fuel s).2 := by
  unfold Romp.historyStage
  cases hrec : s.ah.records with
  | none => exact h
  | some rs =>
    dsimp only
    by_cases he : rs.isEmpty = true
    · rw [if_pos he]
      by_cases hu : (Romp.upgradeHelper env s).1 = true
      · rw [if_pos hu]; exact h.upgradeHelper_inv env
      · rw [if_neg hu]
        generalize (if ci.isWrite = true then AccessHistoryState.eSingleWrite
          else AccessHistoryState.eSingleRead) = st
        have h1 := (h.upgradeHelper_inv env).setState_inv st
        split
        · exact h1
        · exact Inv.store_inv h1 _ _ (upgradeHelper_held env s) rfl rfl
    · rw [if_neg he]
      exact Inv.recordLoop_inv env cur ci fuel 0 _ s h

theorem Inv.recycledStage_inv {ticket : Nat} (env : Env) (cur : Record) (ci : CheckInfo)
    (fuel : Nat) (s : St) (h : Inv ticket s) :
    Inv ticket (Romp.recycledStage env cur ci fuel s).2 := by
  unfold Romp.recycledStage
  by_cases hm : s.ah.memIsRecycled = true
  · rw [if_pos hm]
    dsimp only
    by_cases hu : (Romp.upgradeHelper env s).1 = true
    · rw [if_pos hu]; exact h.upgradeHelper_inv env
    · rw [if_neg hu]
      have h1 := (h.upgradeHelper_inv env).clearFlags_inv
      split
      · exact h1
      · exact Inv.historyStage_inv env cur ci fuel _
          (Inv.store_inv h1 _ _ (upgradeHelper_held env s) rfl rfl)
  · rw [if_neg hm]
    exact Inv.historyStage_inv env cur ci fuel s h

theorem Inv.foundStage_inv {ticket : Nat} (env : Env) (cur : Record) (ci : CheckInfo)
    (fuel : Nat) (s : St) (h : Inv ticket s) :
    Inv ticket (Romp.foundStage env cur ci fuel s).2 := by
  unfold Romp.foundStage
  cases hrec : s.ah.records with
  | none => exact h
  | some rs =>
    dsimp only
    have h1 : Inv ticket (if rs.length > env.REC_NUM_THRESHOLD then Romp.bumpOverflow s
        else s) := by
      split
      · exact h.bumpOverflow_inv
      · exact h
    generalize (if rs.length > env.REC_NUM_THRESHOLD then Romp.bumpOverflow s else s) = s1
      at h1 ⊢
    by_cases hf : s1.ah.dataRaceFound = true
    · rw [if_pos hf]
      by_cases he : (!rs.isEmpty) = true
      · rw [if_pos he]
        by_cases hu : (Romp.upgradeHelper env s1).1 = true
        · rw [if_pos hu]; exact h1.upgradeHelper_inv env
        · rw [if_neg hu]
          split
          · exact h1.upgradeHelper_inv env
          · exact Inv.store_inv (h1.upgradeHelper_inv env) _ _ (upgradeHelper_held env s1) rfl rfl
      · rw [if_neg he]; exact h1
    · rw [if_neg hf]
      exact Inv.recycledStage_inv env cur ci fuel s1 h1

theorem Inv.pass_inv {ticket : Nat} (env : Env) (cur : Record) (ci : CheckInfo)
    (fuel : Nat) (s : St) (h : Inv ticket s) :
    Inv ticket (Romp.pass env cur ci fuel s).2 := by
  unfold Romp.pass
  split
  · exact h
  · cases hrec : s.ah.peekRecords with
    | none =>
      dsimp only
      by_cases hu : (Romp.upgradeHelper env s).1 = true
      · rw [if_pos hu]; exact h.upgradeHelper_inv env
      · rw [if_neg hu]
        exact Inv.foundStage_inv env cur ci fuel _
          ((h.upgradeHelper_inv env).getRecords_inv (upgradeHelper_held env s))
    | some rs => exact Inv.foundStage_inv env cur ci fuel s h

theorem Inv.rollback_inv {ticket : Nat} (env : Env) (cur : Record) (ci : CheckInfo) :
    ∀ (fuel : Nat) (s : St), Inv ticket s → Inv ticket (Romp.rollback env cur ci fuel s).2
  | 0, s, h => by simpa [Romp.rollback] using h
  | fuel + 1, s, h => by
    rw [Romp.rollback]
    have hp := Inv.pass_inv env cur ci fuel s h
    split
    · rename_i s1 he
      rw [he] at hp
      exact Inv.rollback_inv env cur ci fuel s1 hp
    · exact hp

theorem Inv.enter_inv (env : Env) (g : Globals) (ah : AccessHistory) :
    Inv env.pfqRWLockReadLock.2 (Romp.enter env g ah) := by
  constructor
  · intro x hx hmx
    simp only [Romp.enter, List.mem_singleton] at hx
    subst hx
    simp [Event.isRecordsMutation] at hmx
  · intro pre x post hsplit hmx
    simp only [Romp.enter] at hsplit
    rcases snoc_eq_split [] _ _ _ _ hsplit with ⟨_, _, hx⟩ | ⟨post1, _, ht⟩
    · subst hx; simp [Event.isRecordsMutation] at hmx
    · simp at ht
  · rfl
  · intro x hx
    simp only [Romp.enter, List.mem_singleton] at hx
    subst hx
    rfl
  · rfl
  · rfl
  · rfl
  · rfl

/-- What `check_finish` appends to the log: the unlock that matches the lock held, then
either `recordHistoryMap` or the fatal diagnostic. -/
theorem check_finish_trace (s : St) (hr : s.readLockHeld = !s.writeLockHeld) :
    ∃ last, (last = Event.recordHistoryMap ∨ last = Event.fatal) ∧
      (check_finish s).2.trace = s.trace ++
        [⟨if s.writeLockHeld then Event.pfqRWLockWriteUnlock
          else Event.pfqRWLockReadUnlock s.ticketNum, s.writeLockHeld⟩,
         ⟨last, s.writeLockHeld⟩] := by
  unfold check_finish
  cases hw : s.writeLockHeld
  · have hr1 : s.readLockHeld = true := by rw [hr, hw]; rfl
    simp only [hw, hr1, if_true, Bool.false_eq_true, if_false]
    split
    · exact ⟨Event.recordHistoryMap, Or.inl rfl, by simp [recordHistoryMap, emit, hw]⟩
    · exact ⟨Event.fatal, Or.inr rfl, by simp [emit, hw]⟩
  · simp only [hw, if_true]
    split
    · exact ⟨Event.recordHistoryMap, Or.inl rfl, by simp [recordHistoryMap, emit, hw]⟩
    · exact ⟨Event.fatal, Or.inr rfl, by simp [emit, hw]⟩

/-- The state in which `checkDataRace` leaves the body: it satisfies the lock discipline, and
the call's final state is either that state (the run is stuck) or `check_finish` of it. -/
theorem checkDataRace_cases (env : Env) (fuel : Nat) (g : Globals) (ah : AccessHistory)
    (l : Label) (ls : LockSet) (ci : CheckInfo) :
    ∃ s, Inv env.pfqRWLockReadLock.2 s ∧
      ((checkDataRace env fuel g ah l ls ci = check_finish s) ∨
       (∃ w, checkDataRace env fuel g ah l ls ci = (Exit.stuck w, s))) := by
  have h := Inv.rollback_inv env (mkRecord l ls ci) ci fuel (enter env g ah) (Inv.enter_inv env g ah)
  unfold checkDataRace
  generalize rollback env (mkRecord l ls ci) ci fuel (enter env g ah) = r at h
  obtain ⟨c, s⟩ := r
  refine ⟨s, h, ?_⟩
  cases c with
  | finish => exact Or.inl rfl
  | restart => exact Or.inr ⟨_, rfl⟩
  | stuck w => exact Or.inr ⟨w, rfl⟩

/-- C1: in every run of `checkDataRace` (any slot, record, check descriptor, fuel, and any
outcome of the lock calls and the oracles), every logged mutation of the record sequence
(`getRecords`, `clear`, `push_back`, `modifyAccessHistory`) happens with `writeLockHeld`
true and at a position of the log after `pfqUpgrade` returned and before
`pfqRWLockWriteUnlock`. -/
theorem records_mutated_only_under_writer_lock (env : Env) (fuel : Nat) (g : Globals)
    (accessHistory : AccessHistory) (curLabel : Label) (curLockSet : LockSet)
    (checkInfo : CheckInfo) (pre : List LogEntry) (e : LogEntry) (post : List LogEntry)
    (hsplit : (checkDataRace env fuel g accessHistory curLabel curLockSet checkInfo).2.trace =
      pre ++ e :: post)
    (hmut : e.ev.isRecordsMutation = true) :
    e.writeLockHeld = true ∧ writerHeldAfter pre = true := by
  obtain ⟨s, hinv, hfin | ⟨w, hst⟩⟩ :=
    checkDataRace_cases env fuel g accessHistory curLabel curLockSet checkInfo
  · rw [hfin] at hsplit
    obtain ⟨last, hlast, ht⟩ := check_finish_trace s hinv.readHeld
    rw [ht] at hsplit
    have h2 : (s.trace ++ [⟨if s.writeLockHeld then Event.pfqRWLockWriteUnlock
          else Event.pfqRWLockReadUnlock s.ticketNum, s.writeLockHeld⟩]) ++
        [⟨last, s.writeLockHeld⟩] = pre ++ e :: post := by simpa using hsplit
    rcases snoc_eq_split _ _ _ _ _ h2 with ⟨_, _, hx⟩ | ⟨post1, _, ht1⟩
    · subst hx
      rcases hlast with hl | hl <;> subst hl <;> simp [Event.isRecordsMutation] at hmut
    · rcases snoc_eq_split _ _ _ _ _ ht1 with ⟨_, _, hx⟩ | ⟨post2, _, ht2⟩
      · subst hx
        cases hw : s.writeLockHeld <;> simp [hw, Event.isRecordsMutation] at hmut
      · exact ⟨hinv.stamped e (by rw [ht2]; simp) hmut, hinv.placed pre e post2 ht2 hmut⟩
  · rw [hst] at hsplit
    exact ⟨hinv.stamped e (by rw [show s.trace = pre ++ e :: post from hsplit]; simp) hmut,
      hinv.placed pre e post hsplit hmut⟩

theorem records_mutated_only_under_writer_lock_witness :
    (LogEntry.mk Event.getRecords true).writeLockHeld = true ∧
      writerHeldAfter [⟨Event.pfqRWLockReadLock 7, false⟩,
        ⟨Event.pfqUpgrade 7 PfqUpgradeResult.eAtomicUpgraded, false⟩] = true :=
  records_mutated_only_under_writer_lock demoEnv 5 demoGlobals demoSlot 1 0 demoCheck
    [⟨Event.pfqRWLockReadLock 7, false⟩,
      ⟨Event.pfqUpgrade 7 PfqUpgradeResult.eAtomicUpgraded, false⟩]
    ⟨Event.getRecords, true⟩
    [⟨Event.setState AccessHistoryState.eSingleWrite, true⟩,
      ⟨Event.push_back ⟨true, 1, 0, 1, 100, false⟩, true⟩,
      ⟨Event.pfqRWLockWriteUnlock, true⟩,
      ⟨Event.recordHistoryMap, true⟩]
    (by decide) (by decide)

theorem filter_unlock_of_none (t : List LogEntry) (h : ∀ e ∈ t, e.ev.isUnlock = false) :
    (t.map LogEntry.ev).filter Event.isUnlock = [] := by
  rw [List.filter_eq_nil_iff]
  intro a ha
  rw [List.mem_map] at ha
  obtain ⟨e, he, rfl⟩ := ha
  rw [h e he]
  simp

/-- C2: a `checkDataRace` call that returns has invoked exactly one unlock: the unlock events
of its log are the one-element list holding `pfqRWLockWriteUnlock` if `pfqUpgrade` was
invoked during the call, and otherwise `pfqRWLockReadUnlock` with the ticket that the initial
`pfqRWLockReadLock` (the first entry of the log) returned. -/
theorem exactly_one_unlock (env : Env) (fuel : Nat) (g : Globals)
    (accessHistory : AccessHistory) (curLabel : Label) (curLockSet : LockSet)
    (checkInfo : CheckInfo)
    (hret : (checkDataRace env fuel g accessHistory curLabel curLockSet checkInfo).1 =
      Exit.returned) :
    (((checkDataRace env fuel g accessHistory curLabel curLockSet checkInfo).2.trace.map
        LogEntry.ev).filter Event.isUnlock =
      [if upgradeCount
          (checkDataRace env fuel g accessHistory curLabel curLockSet checkInfo).2.trace = 0
        then Event.pfqRWLockReadUnlock env.pfqRWLockReadLock.2
        else Event.pfqRWLockWriteUnlock]) ∧
    (checkDataRace env fuel g accessHistory curLabel curLockSet checkInfo).2.trace.head? =
      some ⟨Event.pfqRWLockReadLock env.pfqRWLockReadLock.2, false⟩ := by
  obtain ⟨s, hinv, hfin | ⟨w, hst⟩⟩ :=
    checkDataRace_cases env fuel g accessHistory curLabel curLockSet checkInfo
  · rw [hfin]
    obtain ⟨last, hlast, ht⟩ := check_finish_trace s hinv.readHeld
    rw [ht]
    have hnone := filter_unlock_of_none s.trace hinv.noUnlock
    have hup := hinv.upgrades
    have hfirst := hinv.first
    refine ⟨?_, ?_⟩
    · simp only [List.map_append, List.filter_append, hnone, List.nil_append, upgradeCount,
        List.countP_append] at hup ⊢
      rw [hup]
      rcases hlast with h | h <;> subst h <;> cases hw : s.writeLockHeld <;>
        simp [List.filter_cons, List.countP_cons, Event.isUnlock, Event.isUpgrade,
          hinv.ticketNum]
    · cases hs : s.trace with
      | nil => rw [hs] at hfirst; cases hfirst
      | cons a t => rw [hs] at hfirst; simpa using hfirst
  · rw [hst] at hret
    cases hret

theorem exactly_one_unlock_witness :
    (((checkDataRace demoEnv 5 demoGlobals demoSlot 1 0 demoCheck).2.trace.map
        LogEntry.ev).filter Event.isUnlock =
      [if upgradeCount (checkDataRace demoEnv 5 demoGlobals demoSlot 1 0 demoCheck).2.trace = 0
        then Event.pfqRWLockReadUnlock demoEnv.pfqRWLockReadLock.2
        else Event.pfqRWLockWriteUnlock]) ∧
    (checkDataRace demoEnv 5 demoGlobals demoSlot 1 0 demoCheck).2.trace.head? =
      some ⟨Event.pfqRWLockReadLock demoEnv.pfqRWLockReadLock.2, false⟩ :=
  exactly_one_unlock demoEnv 5 demoGlobals demoSlot 1 0 demoCheck (by decide)

/-! ## One report per slot -/

theorem reportCount_emit (e : Event) (s : St) :
    reportCount (emit e s).trace = reportCount s.trace + if e.isReport then 1 else 0 := by
  simp [reportCount, emit, List.countP_append, List.countP_cons]

theorem analysisCount_emit (e : Event) (s : St) :
    analysisCount (emit e s).trace = analysisCount s.trace + if e.isAnalysis then 1 else 0 := by
  simp [analysisCount, emit, List.countP_append, List.countP_cons]

theorem detectCount_emit (e : Event) (s : St) :
    detectCount (emit e s).trace = detectCount s.trace + if e.isDetection then 1 else 0 := by
  simp [detectCount, emit, List.countP_append, List.countP_cons]

theorem reportCount_upgradeHelper (env : Env) (s : St) :
    reportCount (upgradeHelper env s).2.trace = reportCount s.trace := by
  cases hw : s.writeLockHeld
  · rw [upgradeHelper_of_free env s hw]
    simp [upgraded, reportCount, List.countP_append, List.countP_cons, Event.isReport]
  · rw [upgradeHelper_of_held env s hw]

theorem analysisCount_upgradeHelper (env : Env) (s : St) :
    analysisCount (upgradeHelper env s).2.trace = analysisCount s.trace := by
  cases hw : s.writeLockHeld
  · rw [upgradeHelper_of_free env s hw]
    simp [upgraded, analysisCount, List.countP_append, List.countP_cons, Event.isAnalysis]
  · rw [upgradeHelper_of_held env s hw]

theorem reportCount_setState (st : AccessHistoryState) (s : St) :
    reportCount (setState st s).trace = reportCount s.trace := by
  unfold setState; rw [reportCount_emit]; rfl

theorem reportCount_clearFlags (s : St) :
    reportCount (clearFlags s).trace = reportCount s.trace := by
  unfold clearFlags; rw [reportCount_emit]; rfl

theorem reportCount_getRecords (s : St) :
    reportCount (getRecords s).trace = reportCount s.trace := by
  unfold getRecords; rw [reportCount_emit]; rfl

theorem reportCount_applyDecision (env : Env) (cur : Record) (st : AccessHistoryState)
    (a : RecordManagement) (it it1 : Nat) (s s1 : St)
    (he : applyDecision env cur st a it s = some (it1, s1)) :
    reportCount s1.trace = reportCount s.trace := by
  unfold applyDecision at he
  dsimp only at he
  split at he
  · cases he
  · simp only [Option.some.injEq, Prod.mk.injEq] at he
    rw [← he.2, reportCount_emit]
    exact reportCount_setState st s

theorem raceFound_flag (env : Env) (ci : CheckInfo) (hist cur : Record) (s : St) :
    (raceFound env ci hist cur s).ah.dataRaceFound = true := by
  unfold raceFound
  rfl

theorem reportCount_raceFound (env : Env) (ci : CheckInfo) (hist cur : Record) (s : St) :
    reportCount (raceFound env ci hist cur s).trace ≤ reportCount s.trace + 1 := by
  unfold raceFound setFlag
  dsimp only
  rw [reportCount_emit]
  by_cases h1 : env.gReportLineInfo = true
  · simp [h1, reportCount_emit, Event.isReport]
  · by_cases h2 : env.gReportAtRuntime = true
    · simp [h1, h2, reportCount_emit, Event.isReport]
    · simp [h1, h2, Event.isReport]

theorem recordLoop_reports (env : Env) (cur : Record) (ci : CheckInfo) :
    ∀ (fuel it : Nat) (d : Int) (s : St), reportCount s.trace = 0 →
      reportCount (recordLoop env cur ci fuel it d s).2.trace = 0 ∨
        Reported (recordLoop env cur ci fuel it d s)
  | 0, _, _, s, h => by left; simpa [recordLoop] using h
  | fuel + 1, it, d, s, h => by
    rw [recordLoop]
    split
    · exact Or.inl h
    · split
      · exact Or.inl h
      · split
        · exact Or.inl h
        · rename_i rs _ hist _
          dsimp only
          have h2 : reportCount (emit (Event.analyzeRaceCondition hist
              (env.analyzeRaceCondition hist cur (env.happensBefore hist.label cur.label d).1
                (env.happensBefore hist.label cur.label d).2))
              (emit (Event.happensBefore hist.label cur.label) s)).trace = 0 := by
            simp [reportCount_emit, Event.isReport, h]
          split
          · right
            refine ⟨rfl, ?_, raceFound_flag _ _ _ _ _⟩
            refine le_trans (reportCount_raceFound env ci hist cur _) ?_
            rw [h2]
          · have h3 : reportCount (emit (Event.manageAccessRecord hist)
                (emit (Event.analyzeRaceCondition hist
                  (env.analyzeRaceCondition hist cur
                    (env.happensBefore hist.label cur.label d).1
                    (env.happensBefore hist.label cur.label d).2))
                  (emit (Event.happensBefore hist.label cur.label) s))).trace = 0 := by
              rw [reportCount_emit, h2]; rfl
            split
            · split
              · exact Or.inl h3
              · rename_i it1 s4 he
                exact recordLoop_reports env cur ci fuel it1 _ s4
                  (by rw [reportCount_applyDecision _ _ _ _ _ _ _ _ he]; exact h3)
            · split
              · left; rw [reportCount_upgradeHelper]; exact h3
              · split
                · left; rw [reportCount_upgradeHelper]; exact h3
                · rename_i it1 s4 he
                  exact recordLoop_reports env cur ci fuel it1 _ s4
                    (by rw [reportCount_applyDecision _ _ _ _ _ _ _ _ he,
                      reportCount_upgradeHelper]; exact h3)

theorem historyStage_reports (env : Env) (cur : Record) (ci : CheckInfo) (fuel : Nat)
    (s : St) (h : reportCount s.trace = 0) :
    reportCount (historyStage env cur ci fuel s).2.trace = 0 ∨
      Reported (historyStage env cur ci fuel s) := by
  unfold historyStage
  cases hrec : s.ah.records with
  | none => exact Or.inl h
  | some rs =>
    dsimp only
    by_cases he : rs.isEmpty = true
    · rw [if_pos he]
      left
      by_cases hu : (upgradeHelper env s).1 = true
      · rw [if_pos hu, reportCount_upgradeHelper]; exact h
      · rw [if_neg hu]
        generalize (if ci.isWrite = true then AccessHistoryState.eSingleWrite
          else AccessHistoryState.eSingleRead) = st
        split
        · rw [reportCount_setState, reportCount_upgradeHelper]; exact h
        · dsimp only
          rw [reportCount_emit]
          show reportCount (setState st (upgradeHelper env s).2).trace + 0 = 0
          rw [reportCount_setState, reportCount_upgradeHelper]; exact h
    · rw [if_neg he]
      exact recordLoop_reports env cur ci fuel 0 _ s h

theorem recycledStage_reports (env : Env) (cur : Record) (ci : CheckInfo) (fuel : Nat)
    (s : St) (h : reportCount s.trace = 0) :
    reportCount (recycledStage env cur ci fuel s).2.trace = 0 ∨
      Reported (recycledStage env cur ci fuel s) := by
  unfold recycledStage
  by_cases hm : s.ah.memIsRecycled = true
  · rw [if_pos hm]
    dsimp only
    by_cases hu : (upgradeHelper env s).1 = true
    · rw [if_pos hu]; left; rw [reportCount_upgradeHelper]; exact h
    · rw [if_neg hu]
      split
      · left; rw [reportCount_clearFlags, reportCount_upgradeHelper]; exact h
      · apply historyStage_reports
        rw [reportCount_emit]
        show reportCount (clearFlags (upgradeHelper env s).2).trace + 0 = 0
        rw [reportCount_clearFlags, reportCount_upgradeHelper]; exact h
  · rw [if_neg hm]
    exact historyStage_reports env cur ci fuel s h

theorem foundStage_reports (env : Env) (cur : Record) (ci : CheckInfo) (fuel : Nat)
    (s : St) (h : reportCount s.trace = 0) :
    reportCount (foundStage env cur ci fuel s).2.trace = 0 ∨
      Reported (foundStage env cur ci fuel s) := by
  unfold foundStage
  cases hrec : s.ah.records with
  | none => exact Or.inl h
  | some rs =>
    dsimp only
    have h1 : reportCount (if rs.length > env.REC_NUM_THRESHOLD then bumpOverflow s
        else s).trace = 0 := by
      split
      · exact h
      · exact h
    generalize (if rs.length > env.REC_NUM_THRESHOLD then bumpOverflow s else s) = s1
      at h1 ⊢
    by_cases hf : s1.ah.dataRaceFound = true
    · rw [if_pos hf]
      left
      by_cases he : (!rs.isEmpty) = true
      · rw [if_pos he]
        by_cases hu : (upgradeHelper env s1).1 = true
        · rw [if_pos hu, reportCount_upgradeHelper]; exact h1
        · rw [if_neg hu]
          split
          · rw [reportCount_upgradeHelper]; exact h1
          · dsimp only
            rw [reportCount_emit]
            show reportCount (upgradeHelper env s1).2.trace + 0 = 0
            rw [reportCount_upgradeHelper]; exact h1
      · rw [if_neg he]; exact h1
    · rw [if_neg hf]
      exact recycledStage_reports env cur ci fuel s1 h1

theorem pass_reports (env : Env) (cur : Record) (ci : CheckInfo) (fuel : Nat)
    (s : St) (h : reportCount s.trace = 0) :
    reportCount (pass env cur ci fuel s).2.trace = 0 ∨ Reported (pass env cur ci fuel s) := by
  unfold pass
  split
  · exact Or.inl h
  · cases hrec : s.ah.peekRecords with
    | none =>
      dsimp only
      by_cases hu : (upgradeHelper env s).1 = true
      · rw [if_pos hu]; left; rw [reportCount_upgradeHelper]; exact h
      · rw [if_neg hu]
        apply foundStage_reports
        rw [reportCount_getRecords, reportCount_upgradeHelper]; exact h
    | some rs => exact foundStage_reports env cur ci fuel s h

theorem rollback_reports (env : Env) (cur : Record) (ci : CheckInfo) :
    ∀ (fuel : Nat) (s : St), reportCount s.trace = 0 →
      reportCount (rollback env cur ci fuel s).2.trace = 0 ∨
        Reported (rollback env cur ci fuel s)
  | 0, s, h => by left; simpa [rollback] using h
  | fuel + 1, s, h => by
    rw [rollback]
    have hp := pass_reports env cur ci fuel s h
    split
    · rename_i s1 he
      rw [he] at hp
      rcases hp with hp | hp
      · exact rollback_reports env cur ci fuel s1 hp
      · cases hp.1
    · exact hp

/-- What `check_finish` appends to the log is neither an analysis nor a report, and it leaves
the state word and the records of the slot alone. -/
theorem check_finish_frame (s : St) :
    reportCount (check_finish s).2.trace = reportCount s.trace ∧
    analysisCount (check_finish s).2.trace = analysisCount s.trace ∧
    (check_finish s).2.ah.state = s.ah.state ∧
    (check_finish s).2.ah.records = s.ah.records ∧
    detectCount (check_finish s).2.trace = detectCount s.trace := by
  unfold check_finish
  dsimp only
  have h1 : reportCount (if s.writeLockHeld = true then emit Event.pfqRWLockWriteUnlock s
        else if s.readLockHeld = true then emit (Event.pfqRWLockReadUnlock s.ticketNum) s
        else s).trace = reportCount s.trace ∧
      analysisCount (if s.writeLockHeld = true then emit Event.pfqRWLockWriteUnlock s
        else if s.readLockHeld = true then emit (Event.pfqRWLockReadUnlock s.ticketNum) s
        else s).trace = analysisCount s.trace ∧
      (if s.writeLockHeld = true then emit Event.pfqRWLockWriteUnlock s
        else if s.readLockHeld = true then emit (Event.pfqRWLockReadUnlock s.ticketNum) s
        else s).ah = s.ah ∧
      detectCount (if s.writeLockHeld = true then emit Event.pfqRWLockWriteUnlock s
        else if s.readLockHeld = true then emit (Event.pfqRWLockReadUnlock s.ticketNum) s
        else s).trace = detectCount s.trace := by
    split
    · exact ⟨by rw [reportCount_emit]; rfl, by rw [analysisCount_emit]; rfl, rfl,
        by rw [detectCount_emit]; rfl⟩
    · split
      · exact ⟨by rw [reportCount_emit]; rfl, by rw [analysisCount_emit]; rfl, rfl,
          by rw [detectCount_emit]; rfl⟩
      · exact ⟨rfl, rfl, rfl, rfl⟩
  generalize (if s.writeLockHeld = true then emit Event.pfqRWLockWriteUnlock s
    else if s.readLockHeld = true then emit (Event.pfqRWLockReadUnlock s.ticketNum) s
    else s) = s1 at h1 ⊢
  obtain ⟨hr, ha, hs, hdt⟩ := h1
  split
  · refine ⟨?_, ?_, ?_, ?_, ?_⟩
    · unfold recordHistoryMap; rw [reportCount_emit]; exact hr
    · unfold recordHistoryMap; rw [analysisCount_emit]; exact ha
    · show s1.ah.state = s.ah.state
      rw [hs]
    · show s1.ah.records = s.ah.records
      rw [hs]
    · unfold recordHistoryMap; rw [detectCount_emit]; exact hdt
  · refine ⟨?_, ?_, ?_, ?_, ?_⟩
    · rw [reportCount_emit]; exact hr
    · rw [analysisCount_emit]; exact ha
    · show s1.ah.state = s.ah.state
      rw [hs]
    · show s1.ah.records = s.ah.records
      rw [hs]
    · rw [detectCount_emit]; exact hdt

/-- Any single call delivers at most one race, and if it delivers one it leaves the slot
marked `DataRaceFound`. -/
theorem checkDataRace_reports (env : Env) (fuel : Nat) (g : Globals) (ah : AccessHistory)
    (l : Label) (ls : LockSet) (ci : CheckInfo) :
    reportCount (checkDataRace env fuel g ah l ls ci).2.trace ≤ 1 ∧
    (1 ≤ reportCount (checkDataRace env fuel g ah l ls ci).2.trace →
      (checkDataRace env fuel g ah l ls ci).2.ah.dataRaceFound = true) := by
  have h := rollback_reports env (mkRecord l ls ci) ci fuel (enter env g ah) rfl
  unfold checkDataRace
  generalize rollback env (mkRecord l ls ci) ci fuel (enter env g ah) = r at h
  obtain ⟨c, s⟩ := r
  have hf := check_finish_frame s
  rcases h with h | ⟨hc, hle, hflag⟩
  · cases c with
    | finish =>
      dsimp only at h ⊢
      rw [hf.1, h]
      exact ⟨Nat.zero_le _, fun x => absurd x (by decide)⟩
    | restart =>
      dsimp only at h ⊢
      rw [h]
      exact ⟨Nat.zero_le _, fun x => absurd x (by decide)⟩
    | stuck w =>
      dsimp only at h ⊢
      rw [h]
      exact ⟨Nat.zero_le _, fun x => absurd x (by decide)⟩
  · dsimp only at hc hle hflag
    subst hc
    dsimp only
    rw [hf.1]
    refine ⟨hle, fun _ => ?_⟩
    unfold AccessHistory.dataRaceFound at hflag ⊢
    rw [hf.2.2.1]
    exact hflag

theorem Quiesced.upgradeHelper_quiesced {env : Env} (hk : env.keepsRaceFlag) {s : St}
    (h : Quiesced s) : Quiesced (Romp.upgradeHelper env s).2 := by
  obtain ⟨hf, hr, ha⟩ := h
  refine ⟨?_, by rw [reportCount_upgradeHelper]; exact hr,
    by rw [analysisCount_upgradeHelper]; exact ha⟩
  cases hw : s.writeLockHeld
  · rw [upgradeHelper_of_free env s hw]
    show (if (env.pfqUpgrade s.ah s.ticketNum s.readReadContend).res =
        PfqUpgradeResult.eAtomicUpgraded then s.ah
      else (env.pfqUpgrade s.ah s.ticketNum s.readReadContend).ah).dataRaceFound = true
    split
    · exact hf
    · exact hk _ _ _ hf
  · rw [upgradeHelper_of_held env s hw]
    exact hf

theorem Quiesced.foundStage_quiesced {env : Env} (hk : env.keepsRaceFlag) (cur : Record)
    (ci : CheckInfo) (fuel : Nat) {s : St} (h : Quiesced s) :
    Quiesced (Romp.foundStage env cur ci fuel s).2 := by
  unfold Romp.foundStage
  cases hrec : s.ah.records with
  | none => exact h
  | some rs =>
    dsimp only
    have h1 : Quiesced (if rs.length > env.REC_NUM_THRESHOLD then bumpOverflow s else s) := by
      split
      · exact h
      · exact h
    generalize (if rs.length > env.REC_NUM_THRESHOLD then bumpOverflow s else s) = s1
      at h1 ⊢
    rw [if_pos h1.1]
    by_cases he : (!rs.isEmpty) = true
    · rw [if_pos he]
      have h2 := Quiesced.upgradeHelper_quiesced hk h1
      by_cases hu : (Romp.upgradeHelper env s1).1 = true
      · rw [if_pos hu]; exact h2
      · rw [if_neg hu]
        split
        · exact h2
        · obtain ⟨hf, hr, ha⟩ := h2
          exact ⟨hf, by rw [reportCount_emit]; exact hr, by rw [analysisCount_emit]; exact ha⟩
    · rw [if_neg he]; exact h1

theorem Quiesced.pass_quiesced {env : Env} (hk : env.keepsRaceFlag) (cur : Record)
    (ci : CheckInfo) (fuel : Nat) {s : St} (h : Quiesced s) :
    Quiesced (Romp.pass env cur ci fuel s).2 := by
  unfold Romp.pass
  split
  · exact h
  · cases hrec : s.ah.peekRecords with
    | none =>
      dsimp only
      have h2 := Quiesced.upgradeHelper_quiesced hk h
      by_cases hu : (Romp.upgradeHelper env s).1 = true
      · rw [if_pos hu]; exact h2
      · rw [if_neg hu]
        apply Quiesced.foundStage_quiesced hk
        obtain ⟨hf, hr, ha⟩ := h2
        refine ⟨?_, by unfold getRecords; rw [reportCount_emit]; exact hr,
          by unfold getRecords; rw [analysisCount_emit]; exact ha⟩
        unfold getRecords AccessHistory.getRecords
        show AccessHistory.dataRaceFound (match (Romp.upgradeHelper env s).2.ah.records with
          | none => _
          | some _ => _) = true
        split
        · exact hf
        · exact hf
    | some rs => exact Quiesced.foundStage_quiesced hk cur ci fuel h

theorem Quiesced.rollback_quiesced {env : Env} (hk : env.keepsRaceFlag) (cur : Record)
    (ci : CheckInfo) : ∀ (fuel : Nat) (s : St), Quiesced s →
      Quiesced (Romp.rollback env cur ci fuel s).2
  | 0, s, h => by simpa [Romp.rollback] using h
  | fuel + 1, s, h => by
    rw [Romp.rollback]
    have hp := Quiesced.pass_quiesced hk cur ci fuel h
    split
    · rename_i s1 he
      rw [he] at hp
      exact Quiesced.rollback_quiesced hk cur ci fuel s1 hp
    · exact hp

/-- A call on a slot already marked `DataRaceFound` consults neither `analyzeRaceCondition`
nor a report sink and leaves the mark in place. -/
theorem checkDataRace_quiesced (env : Env) (hk : env.keepsRaceFlag) (fuel : Nat)
    (g : Globals) (ah : AccessHistory) (l : Label) (ls : LockSet) (ci : CheckInfo)
    (hflag : ah.dataRaceFound = true) :
    reportCount (checkDataRace env fuel g ah l ls ci).2.trace = 0 ∧
    analysisCount (checkDataRace env fuel g ah l ls ci).2.trace = 0 ∧
    (checkDataRace env fuel g ah l ls ci).2.ah.dataRaceFound = true := by
  have h := Quiesced.rollback_quiesced hk (mkRecord l ls ci) ci fuel (enter env g ah)
    ⟨hflag, rfl, rfl⟩
  unfold checkDataRace
  generalize rollback env (mkRecord l ls ci) ci fuel (enter env g ah) = r at h
  obtain ⟨c, s⟩ := r
  obtain ⟨hf, hr, ha⟩ := h
  cases c with
  | finish =>
    have hfr := check_finish_frame s
    dsimp only at hf hr ha ⊢
    refine ⟨by rw [hfr.1]; exact hr, by rw [hfr.2.1]; exact ha, ?_⟩
    unfold AccessHistory.dataRaceFound at hf ⊢
    rw [hfr.2.2.1]; exact hf
  | restart => exact ⟨hr, ha, hf⟩
  | stuck w => exact ⟨hr, ha, hf⟩

theorem slotBefore_flag (c : Call) (ah : AccessHistory) :
    (c.slotBefore ah).dataRaceFound = ah.dataRaceFound := by
  unfold Call.slotBefore
  split <;> rfl

theorem runCalls_quiesced : ∀ (calls : List Call) (g : Globals) (ah : AccessHistory),
    (∀ c ∈ calls, c.env.keepsRaceFlag) → ah.dataRaceFound = true →
    ∀ r ∈ runCalls calls g ah, reportCount r.log = 0 ∧ analysisCount r.log = 0
  | [], _, _, _, _ => by simp [runCalls]
  | c :: cs, g, ah, hk, hf => by
    have hq := checkDataRace_quiesced c.env (hk c (List.mem_cons_self _ _)) c.fuel g
      (c.slotBefore ah) c.curLabel c.curLockSet c.checkInfo
      (by rw [slotBefore_flag]; exact hf)
    have ih := runCalls_quiesced cs
      (checkDataRace c.env c.fuel g (c.slotBefore ah) c.curLabel c.curLockSet
        c.checkInfo).2.g
      (checkDataRace c.env c.fuel g (c.slotBefore ah) c.curLabel c.curLockSet
        c.checkInfo).2.ah
      (fun x hx => hk x (List.mem_cons_of_mem _ hx)) hq.2.2
    rw [runCalls]
    intro r hr
    rw [List.mem_cons] at hr
    rcases hr with hr | hr
    · subst hr; exact ⟨hq.1, hq.2.1⟩
    · split at hr
      · exact ih r hr
      · cases hr

theorem runCalls_reports : ∀ (calls : List Call) (g : Globals) (ah : AccessHistory),
    (∀ c ∈ calls, c.env.keepsRaceFlag) →
    ((runCalls calls g ah).map (fun r => reportCount r.log)).sum ≤ 1
  | [], _, _, _ => by simp [runCalls]
  | c :: cs, g, ah, hk => by
    have hr := checkDataRace_reports c.env c.fuel g (c.slotBefore ah) c.curLabel
      c.curLockSet c.checkInfo
    have hk1 : ∀ x ∈ cs, x.env.keepsRaceFlag := fun x hx => hk x (List.mem_cons_of_mem _ hx)
    have ih := runCalls_reports cs
      (checkDataRace c.env c.fuel g (c.slotBefore ah) c.curLabel c.curLockSet
        c.checkInfo).2.g
      (checkDataRace c.env c.fuel g (c.slotBefore ah) c.curLabel c.curLockSet
        c.checkInfo).2.ah hk1
    rw [runCalls]
    rw [List.map_cons, List.sum_cons]
    split
    · by_cases h0 : reportCount (checkDataRace c.env c.fuel g (c.slotBefore ah) c.curLabel
          c.curLockSet c.checkInfo).2.trace = 0
      · rw [h0]; simpa using ih
      · have h1 : 1 ≤ reportCount (checkDataRace c.env c.fuel g (c.slotBefore ah)
            c.curLabel c.curLockSet c.checkInfo).2.trace := Nat.one_le_iff_ne_zero.mpr h0
        have hq := runCalls_quiesced cs
          (checkDataRace c.env c.fuel g (c.slotBefore ah) c.curLabel c.curLockSet
            c.checkInfo).2.g
          (checkDataRace c.env c.fuel g (c.slotBefore ah) c.curLabel c.curLockSet
            c.checkInfo).2.ah hk1 (hr.2 h1)
        have hz : ((runCalls cs
            (checkDataRace c.env c.fuel g (c.slotBefore ah) c.curLabel c.curLockSet
              c.checkInfo).2.g
            (checkDataRace c.env c.fuel g (c.slotBefore ah) c.curLabel c.curLockSet
              c.checkInfo).2.ah).map (fun r => reportCount r.log)).sum = 0 := by
          apply List.sum_eq_zero
          intro x hx
          rw [List.mem_map] at hx
          obtain ⟨t, ht, rfl⟩ := hx
          exact (hq t ht).1
        rw [hz]
        exact hr.1
    · simpa using hr.1

theorem runCalls_later : ∀ (calls : List Call) (g : Globals) (ah : AccessHistory),
    (∀ c ∈ calls, c.env.keepsRaceFlag) →
    ∀ pre x post, runCalls calls g ah = pre ++ x :: post → x.slot.dataRaceFound = true →
      ∀ y ∈ post, reportCount y.log = 0 ∧ analysisCount y.log = 0
  | [], _, _, _ => by
    intro pre x post h
    simp [runCalls] at h
  | c :: cs, g, ah, hk => by
    intro pre x post h hx
    have hk1 : ∀ x ∈ cs, x.env.keepsRaceFlag := fun x hx => hk x (List.mem_cons_of_mem _ hx)
    rw [runCalls] at h
    cases pre with
    | nil =>
      simp only [List.nil_append, List.cons.injEq] at h
      obtain ⟨h1, h2⟩ := h
      subst h1
      dsimp only at hx
      intro y hy
      rw [← h2] at hy
      split at hy
      · exact runCalls_quiesced cs _ _ hk1 hx y hy
      · cases hy
    | cons p pre1 =>
      simp only [List.cons_append, List.cons.injEq] at h
      obtain ⟨_, h2⟩ := h
      split at h2
      · exact runCalls_later cs _ _ hk1 pre1 x post h2 hx
      · cases pre1 <;> cases h2

/-- C3: for calls run one after another on the same slot (`MemoryRecycled` possibly set from
outside before any of them; no thread clearing `DataRaceFound` behind an upgrade), the
number of races delivered to a report sink, summed over all calls, is at most one; and once
`DataRaceFound` is set - at the start, or when some call of the sequence ends - no later call
consults `analyzeRaceCondition` or a report sink. -/
theorem one_race_report_per_slot (calls : List Call) (g : Globals)
    (accessHistory : AccessHistory) (hseq : ∀ c ∈ calls, c.env.keepsRaceFlag) :
    ((runCalls calls g accessHistory).map (fun r => reportCount r.log)).sum ≤ 1 ∧
    (accessHistory.dataRaceFound = true →
      ∀ r ∈ runCalls calls g accessHistory, reportCount r.log = 0 ∧ analysisCount r.log = 0) ∧
    (∀ pre x post, runCalls calls g accessHistory = pre ++ x :: post →
      x.slot.dataRaceFound = true →
      ∀ y ∈ post, reportCount y.log = 0 ∧ analysisCount y.log = 0) :=
  ⟨runCalls_reports calls g accessHistory hseq,
    runCalls_quiesced calls g accessHistory hseq,
    runCalls_later calls g accessHistory hseq⟩

theorem demoEnv_quiet : demoEnv.quiet := fun _ _ _ => rfl

theorem Env.quiet.keepsRaceFlag {env : Env} (h : env.quiet) : env.keepsRaceFlag := by
  intro ah ticket rr hf
  rw [h ah ticket rr]
  exact hf

theorem demoCalls_keepsRaceFlag : ∀ c ∈ demoCalls, c.env.keepsRaceFlag := by
  intro c hc
  simp only [demoCalls, List.mem_cons, List.mem_singleton, List.not_mem_nil, or_false] at hc
  rcases hc with h | h | h <;> subst h <;> exact demoEnv_quiet.keepsRaceFlag

theorem one_race_report_per_slot_witness :
    (∀ c ∈ demoCalls, c.env.keepsRaceFlag) ∧
    ((runCalls demoCalls demoGlobals demoSlot).map (fun r => reportCount r.log)).sum ≤ 1 ∧
    (demoSlot.dataRaceFound = true →
      ∀ r ∈ runCalls demoCalls demoGlobals demoSlot,
        reportCount r.log = 0 ∧ analysisCount r.log = 0) ∧
    (∀ pre x post, runCalls demoCalls demoGlobals demoSlot = pre ++ x :: post →
      x.slot.dataRaceFound = true →
      ∀ y ∈ post, reportCount y.log = 0 ∧ analysisCount y.log = 0) :=
  ⟨demoCalls_keepsRaceFlag,
    one_race_report_per_slot demoCalls demoGlobals demoSlot demoCalls_keepsRaceFlag⟩

/-- On the demo sequence the bound is attained: the second call reports the race, the third
(on the marked and recycled slot) reports nothing. -/
theorem demoCalls_reports :
    (runCalls demoCalls demoGlobals demoSlot).map (fun r => reportCount r.log) = [0, 1, 0] := by
  decide

/-! ## Fresh histories: first access and recycled memory -/

theorem getCounterType_defined (rw rr us mi : Bool) :
    getCounterType rw rr us mi ≠ CounterType.eUndefCounter := by
  cases rw <;> cases rr <;> cases us <;> cases mi <;> decide

theorem Counters.bump_defined (c : CounterType) (k : Counters)
    (h : c ≠ CounterType.eUndefCounter) : ∃ k1, Counters.bump c k = some k1 := by
  cases c <;> first | exact ⟨_, rfl⟩ | exact absurd rfl h

/-- The switch of `check_finish` never reaches its fatal default. -/
theorem check_finish_returned (s : St) : (check_finish s).1 = Exit.returned := by
  unfold check_finish
  dsimp only
  split
  · rfl
  · rename_i hno
    exfalso
    obtain ⟨gc, hg⟩ := Counters.bump_defined _ _ (getCounterType_defined _ _ _ _)
    obtain ⟨ac, ha⟩ := Counters.bump_defined _ _ (getCounterType_defined _ _ _ _)
    exact hno gc ac hg ha

theorem Silent.emit_silent {s : St} (h : Silent s.trace) (e : Event) (hc : e.isConsult = false)
    (hr : e.isReport = false) : Silent (Romp.emit e s).trace := by
  intro x hx
  simp only [Romp.emit, List.mem_append, List.mem_singleton] at hx
  rcases hx with hx | hx
  · exact h x hx
  · subst hx; exact ⟨hc, hr⟩

/-- Under a quiet environment `upgradeHelper` leaves the slot as it was, ends with the writer
lock held, adds nothing but its own `pfqUpgrade` call to the log, and asks for a restart only
if the writer lock was not held. -/
theorem upgradeHelper_quiet (env : Env) (hq : env.quiet) (s : St) :
    (upgradeHelper env s).2.ah = s.ah ∧
    (upgradeHelper env s).2.writeLockHeld = true ∧
    (Silent s.trace → Silent (upgradeHelper env s).2.trace) ∧
    ((upgradeHelper env s).1 = true → s.writeLockHeld = false) := by
  cases hw : s.writeLockHeld
  · rw [upgradeHelper_of_free env s hw]
    refine ⟨?_, rfl, ?_, fun _ => rfl⟩
    · show (if (env.pfqUpgrade s.ah s.ticketNum s.readReadContend).res =
          PfqUpgradeResult.eAtomicUpgraded then s.ah
        else (env.pfqUpgrade s.ah s.ticketNum s.readReadContend).ah) = s.ah
      split
      · rfl
      · exact hq _ _ _
    · intro h x hx
      have hx1 : x ∈ s.trace ++ [⟨Event.pfqUpgrade s.ticketNum
          (env.pfqUpgrade s.ah s.ticketNum s.readReadContend).res, false⟩] := hx
      simp only [List.mem_append, List.mem_singleton] at hx1
      rcases hx1 with hx1 | hx1
      · exact h x hx1
      · subst hx1; exact ⟨rfl, rfl⟩
  · rw [upgradeHelper_of_held env s hw]
    exact ⟨rfl, hw, fun h => h, fun h => by cases h⟩

theorem Silent.setState_silent {s : St} (h : Silent s.trace) (st : AccessHistoryState) :
    Silent (Romp.setState st s).trace :=
  Silent.emit_silent (s := { s with ah := s.ah.setState st }) h (Event.setState st) rfl rfl

theorem Silent.clearFlags_silent {s : St} (h : Silent s.trace) :
    Silent (Romp.clearFlags s).trace :=
  Silent.emit_silent (s := { s with ah := s.ah.clearFlags }) h Event.clearFlags rfl rfl

theorem Silent.getRecords_silent {s : St} (h : Silent s.trace) :
    Silent (Romp.getRecords s).trace :=
  Silent.emit_silent (s := { s with ah := s.ah.getRecords }) h Event.getRecords rfl rfl

theorem Silent.store_silent {s : St} (h : Silent s.trace) (rs : List Record) (e : Event)
    (hc : e.isConsult = false) (hr : e.isReport = false) :
    Silent (Romp.emit e (storeRecords rs s)).trace :=
  Silent.emit_silent (s := storeRecords rs s) h e hc hr

theorem historyStage_fresh (env : Env) (hq : env.quiet) (cur : Record) (ci : CheckInfo)
    (fuel : Nat) (s : St) (hsil : Silent s.trace) (hrec : s.ah.records = some [])
    (hd : s.ah.state.dataRaceFound = false) (hm : s.ah.state.memoryRecycled = false) :
    FreshOutcome cur ci s (historyStage env cur ci fuel s) := by
  unfold historyStage
  rw [hrec]
  dsimp only
  rw [if_pos (by rfl)]
  obtain ⟨hah, hw, hs, hre⟩ := upgradeHelper_quiet env hq s
  by_cases hu : (upgradeHelper env s).1 = true
  · rw [if_pos hu]
    exact Or.inr ⟨rfl, hre hu, hw, hah, hs hsil⟩
  · rw [if_neg hu]
    left
    generalize (upgradeHelper env s).2 = u at hah hw hs
    have hrec1 : (setState (if ci.isWrite = true then AccessHistoryState.eSingleWrite
        else AccessHistoryState.eSingleRead) u).ah.records = some [] := by
      show u.ah.records = some []
      rw [hah]; exact hrec
    rw [hrec1]
    refine ⟨rfl, rfl, ?_, ?_⟩
    · show ({ u.ah.state with label := _ } : StateWord) = firstState ci
      rw [hah]
      unfold firstState
      simp [hd, hm]
    · exact Silent.store_silent (Silent.setState_silent (hs hsil) _) _ (Event.push_back cur) rfl rfl

end Romp
namespace Romp

theorem FreshOutcome.of_held {cur : Record} {ci : CheckInfo} {s1 : St} {r : Ctl × St}
    (h : FreshOutcome cur ci s1 r) (hw : s1.writeLockHeld = true) :
    r.1 = Ctl.finish ∧ Fresh cur ci r.2 := by
  rcases h with h | ⟨_, hf, _⟩
  · exact h
  · rw [hw] at hf; cases hf

theorem recycledStage_fresh (env : Env) (hq : env.quiet) (cur : Record) (ci : CheckInfo)
    (fuel : Nat) (s : St) (rs : List Record) (hsil : Silent s.trace)
    (hrec : s.ah.records = some rs) (hd : s.ah.state.dataRaceFound = false)
    (hc : s.ah.state.memoryRecycled = true ∨ rs = []) :
    FreshOutcome cur ci s (recycledStage env cur ci fuel s) := by
  unfold recycledStage
  by_cases hm : s.ah.memIsRecycled = true
  · rw [if_pos hm]
    dsimp only
    obtain ⟨hah, hw, hs, hre⟩ := upgradeHelper_quiet env hq s
    by_cases hu : (upgradeHelper env s).1 = true
    · rw [if_pos hu]
      exact Or.inr ⟨rfl, hre hu, hw, hah, hs hsil⟩
    · rw [if_neg hu]
      generalize (upgradeHelper env s).2 = u at hah hw hs
      have hrec1 : (clearFlags u).ah.records = some rs := by
        show u.ah.records = some rs
        rw [hah]; exact hrec
      rw [hrec1]
      dsimp only
      exact Or.inl ((historyStage_fresh env hq cur ci fuel
        (emit Event.clear (storeRecords [] (clearFlags u)))
        (Silent.store_silent (Silent.clearFlags_silent (hs hsil)) _ Event.clear rfl rfl)
        rfl rfl rfl).of_held hw)
  · rw [if_neg hm]
    have hm1 : s.ah.state.memoryRecycled = false := by
      simpa [AccessHistory.memIsRecycled] using hm
    rcases hc with hc | hc
    · rw [hc] at hm1; cases hm1
    · subst hc
      exact historyStage_fresh env hq cur ci fuel s hsil hrec hd hm1

theorem foundStage_fresh (env : Env) (hq : env.quiet) (cur : Record) (ci : CheckInfo)
    (fuel : Nat) (s : St) (rs : List Record) (hsil : Silent s.trace)
    (hrec : s.ah.records = some rs) (hd : s.ah.state.dataRaceFound = false)
    (hc : s.ah.state.memoryRecycled = true ∨ rs = []) :
    FreshOutcome cur ci s (foundStage env cur ci fuel s) := by
  unfold foundStage
  rw [hrec]
  dsimp only
  have h1 : ∀ s1 : St, s1 = bumpOverflow s ∨ s1 = s →
      FreshOutcome cur ci s
        (if s1.ah.dataRaceFound = true then
          if (!rs.isEmpty) = true then
            if (upgradeHelper env s1).1 = true then (Ctl.restart, (upgradeHelper env s1).2)
            else
              match (upgradeHelper env s1).2.ah.records with
              | none => (Ctl.stuck Stuck.nullDeref, (upgradeHelper env s1).2)
              | some _ => (Ctl.finish, emit Event.clear
                  (storeRecords [] (upgradeHelper env s1).2))
          else (Ctl.finish, s1)
        else recycledStage env cur ci fuel s1) := by
    intro s1 hs1
    have hah : s1.ah = s.ah := by rcases hs1 with h | h <;> subst h <;> rfl
    have htr : s1.trace = s.trace := by rcases hs1 with h | h <;> subst h <;> rfl
    have hwl : s1.writeLockHeld = s.writeLockHeld := by
      rcases hs1 with h | h <;> subst h <;> rfl
    have hd1 : ¬ s1.ah.dataRaceFound = true := by
      rw [hah]; simp [AccessHistory.dataRaceFound, hd]
    rw [if_neg hd1]
    have := recycledStage_fresh env hq cur ci fuel s1 rs (by rw [htr]; exact hsil)
      (by rw [hah]; exact hrec) (by rw [hah]; exact hd) (by rw [hah]; exact hc)
    rcases this with h | ⟨h1, h2, h3, h4, h5⟩
    · exact Or.inl h
    · exact Or.inr ⟨h1, by rw [← hwl]; exact h2, h3, by rw [h4, hah], h5⟩
  split
  · exact h1 _ (Or.inl rfl)
  · exact h1 _ (Or.inr rfl)

theorem pass_fresh (env : Env) (hq : env.quiet) (cur : Record) (ci : CheckInfo)
    (fuel : Nat) (s : St) (hsh : ci.shared) (hsil : Silent s.trace)
    (hd : s.ah.state.dataRaceFound = false)
    (hc : s.ah.state.memoryRecycled = true ∨ s.ah.records = none ∨ s.ah.records = some []) :
    FreshOutcome cur ci s (pass env cur ci fuel s) := by
  unfold pass
  rw [if_neg (by
    intro h
    rcases h with h | h
    · exact hsh.1 h
    · exact hsh.2 h)]
  cases hrec : s.ah.peekRecords with
  | none =>
    dsimp only
    obtain ⟨hah, hw, hs, hre⟩ := upgradeHelper_quiet env hq s
    by_cases hu : (upgradeHelper env s).1 = true
    · rw [if_pos hu]
      exact Or.inr ⟨rfl, hre hu, hw, hah, hs hsil⟩
    · rw [if_neg hu]
      generalize (upgradeHelper env s).2 = u at hah hw hs
      have hrec0 : u.ah.records = none := by rw [hah]; exact hrec
      have hrec1 : (getRecords u).ah.records = some [] := by
        show (AccessHistory.getRecords u.ah).records = some []
        unfold AccessHistory.getRecords
        rw [hrec0]
      have hst : (getRecords u).ah.state = s.ah.state := by
        show (AccessHistory.getRecords u.ah).state = s.ah.state
        unfold AccessHistory.getRecords
        rw [hrec0, hah]
      exact Or.inl ((foundStage_fresh env hq cur ci fuel (getRecords u) []
        (Silent.getRecords_silent (hs hsil)) hrec1 (by rw [hst]; exact hd)
        (Or.inr rfl)).of_held hw)
  | some rs =>
    have hrec1 : s.ah.records = some rs := hrec
    refine foundStage_fresh env hq cur ci fuel s rs hsil hrec1 hd ?_
    rcases hc with hc | hc | hc
    · exact Or.inl hc
    · rw [hc] at hrec1; cases hrec1
    · rw [hc] at hrec1
      right
      injection hrec1 with h
      exact h.symm

theorem rollback_fresh (env : Env) (hq : env.quiet) (cur : Record) (ci : CheckInfo)
    (fuel : Nat) (s : St) (hsh : ci.shared) (hsil : Silent s.trace)
    (hd : s.ah.state.dataRaceFound = false)
    (hc : s.ah.state.memoryRecycled = true ∨ s.ah.records = none ∨ s.ah.records = some []) :
    (rollback env cur ci (fuel + 2) s).1 = Ctl.finish ∧
      Fresh cur ci (rollback env cur ci (fuel + 2) s).2 := by
  rw [rollback]
  have h1 := pass_fresh env hq cur ci (fuel + 1) s hsh hsil hd hc
  generalize pass env cur ci (fuel + 1) s = r at h1
  obtain ⟨c, s1⟩ := r
  rcases h1 with ⟨hfin, hfresh⟩ | ⟨hres, _, hw1, hah1, hsil1⟩
  · dsimp only at hfin
    subst hfin
    exact ⟨rfl, hfresh⟩
  · dsimp only at hres hw1 hah1 hsil1
    subst hres
    dsimp only
    rw [rollback]
    have h2 := (pass_fresh env hq cur ci fuel s1 hsh hsil1 (by rw [hah1]; exact hd)
      (by rw [hah1]; exact hc)).of_held hw1
    generalize pass env cur ci fuel s1 = r2 at h2
    obtain ⟨c2, s2⟩ := r2
    dsimp only at h2
    obtain ⟨hfin, hfresh⟩ := h2
    subst hfin
    exact ⟨rfl, hfresh⟩

theorem check_finish_silent (s : St) (h : Silent s.trace) :
    Silent (check_finish s).2.trace := by
  unfold check_finish
  dsimp only
  have h1 : Silent (if s.writeLockHeld = true then emit Event.pfqRWLockWriteUnlock s
        else if s.readLockHeld = true then emit (Event.pfqRWLockReadUnlock s.ticketNum) s
        else s).trace := by
    split
    · exact Silent.emit_silent h _ rfl rfl
    · split
      · exact Silent.emit_silent h _ rfl rfl
      · exact h
  generalize (if s.writeLockHeld = true then emit Event.pfqRWLockWriteUnlock s
    else if s.readLockHeld = true then emit (Event.pfqRWLockReadUnlock s.ticketNum) s
    else s) = s1 at h1 ⊢
  split
  · exact Silent.emit_silent (s := { s1 with g := _, ah := _ }) h1 Event.recordHistoryMap rfl rfl
  · exact Silent.emit_silent h1 Event.fatal rfl rfl

/-- A call for shared data on a slot without `DataRaceFound` that is recycled, or whose
records are absent or empty, returns (two units of fuel suffice) with exactly the current
record in the slot, both flags clear, the label set by the kind of access, and a silent log. -/
theorem checkDataRace_fresh (env : Env) (hq : env.quiet) (fuel : Nat) (g : Globals)
    (ah : AccessHistory) (l : Label) (ls : LockSet) (ci : CheckInfo) (hsh : ci.shared)
    (hd : ah.dataRaceFound = false)
    (hc : ah.memIsRecycled = true ∨ ah.records = none ∨ ah.records = some []) :
    (checkDataRace env (fuel + 2) g ah l ls ci).1 = Exit.returned ∧
    (checkDataRace env (fuel + 2) g ah l ls ci).2.ah.records = some [mkRecord l ls ci] ∧
    (checkDataRace env (fuel + 2) g ah l ls ci).2.ah.state = firstState ci ∧
    Silent (checkDataRace env (fuel + 2) g ah l ls ci).2.trace := by
  have hsil : Silent (enter env g ah).trace := by
    intro x hx
    simp only [enter, List.mem_singleton] at hx
    subst hx
    exact ⟨rfl, rfl⟩
  have h := rollback_fresh env hq (mkRecord l ls ci) ci fuel (enter env g ah) hsh hsil hd hc
  unfold checkDataRace
  generalize rollback env (mkRecord l ls ci) ci (fuel + 2) (enter env g ah) = r at h
  obtain ⟨c, s⟩ := r
  obtain ⟨hfin, hrec, hst, hs⟩ := h
  dsimp only at hfin hrec hst hs
  subst hfin
  dsimp only
  have hf := check_finish_frame s
  exact ⟨check_finish_returned s, by rw [hf.2.2.2.1]; exact hrec, by rw [hf.2.2.1]; exact hst,
    check_finish_silent s hs⟩

/-- C8: on a slot with neither flag set whose records are absent or empty, a call for shared
data in a quiet environment returns (fuel two or more) with records exactly `[curRecord]`,
the state word changed only in its label, which is `SingleWrite` for a write and `SingleRead`
otherwise, and with no `happensBefore`, `analyzeRaceCondition` or `manageAccessRecord`
consultation and no race report in its log. -/
theorem first_access_inserts_record (env : Env) (fuel : Nat) (g : Globals)
    (accessHistory : AccessHistory) (curLabel : Label) (curLockSet : LockSet)
    (checkInfo : CheckInfo) (hq : env.quiet) (hsh : checkInfo.shared)
    (hd : accessHistory.dataRaceFound = false) (hm : accessHistory.memIsRecycled = false)
    (hrec : accessHistory.records = none ∨ accessHistory.records = some []) :
    (checkDataRace env (fuel + 2) g accessHistory curLabel curLockSet checkInfo).1 =
      Exit.returned ∧
    (checkDataRace env (fuel + 2) g accessHistory curLabel curLockSet checkInfo).2.ah.records =
      some [mkRecord curLabel curLockSet checkInfo] ∧
    (checkDataRace env (fuel + 2) g accessHistory curLabel curLockSet checkInfo).2.ah.state =
      { accessHistory.state with
        label := if checkInfo.isWrite then AccessHistoryState.eSingleWrite
          else AccessHistoryState.eSingleRead } ∧
    (∀ e ∈ (checkDataRace env (fuel + 2) g accessHistory curLabel curLockSet
        checkInfo).2.trace, e.ev.isConsult = false ∧ e.ev.isReport = false) := by
  obtain ⟨h1, h2, h3, h4⟩ := checkDataRace_fresh env hq fuel g accessHistory curLabel
    curLockSet checkInfo hsh hd (Or.inr hrec)
  refine ⟨h1, h2, ?_, h4⟩
  rw [h3]
  unfold firstState
  unfold AccessHistory.dataRaceFound at hd
  unfold AccessHistory.memIsRecycled at hm
  simp [hd, hm]

theorem first_access_inserts_record_witness :
    demoEnv.quiet ∧ demoCheck.shared ∧ demoSlot.dataRaceFound = false ∧
    demoSlot.memIsRecycled = false ∧
    (demoSlot.records = none ∨ demoSlot.records = some []) ∧
    (checkDataRace demoEnv (0 + 2) demoGlobals demoSlot 1 0 demoCheck).1 = Exit.returned ∧
    (checkDataRace demoEnv (0 + 2) demoGlobals demoSlot 1 0 demoCheck).2.ah.records =
      some [mkRecord 1 0 demoCheck] ∧
    (checkDataRace demoEnv (0 + 2) demoGlobals demoSlot 1 0 demoCheck).2.ah.state =
      { demoSlot.state with
        label := if demoCheck.isWrite then AccessHistoryState.eSingleWrite
          else AccessHistoryState.eSingleRead } ∧
    (∀ e ∈ (checkDataRace demoEnv (0 + 2) demoGlobals demoSlot 1 0 demoCheck).2.trace,
      e.ev.isConsult = false ∧ e.ev.isReport = false) :=
  ⟨demoEnv_quiet, by decide, rfl, rfl, Or.inl rfl,
    first_access_inserts_record demoEnv 0 demoGlobals demoSlot 1 0 demoCheck demoEnv_quiet
      (by decide) rfl rfl (Or.inl rfl)⟩

/-- C9: on a slot with `MemoryRecycled` set and `DataRaceFound` clear, whatever its records,
a call for shared data in a quiet environment returns (fuel two or more) with both flags
clear and the records replaced by the single record of the current access; its log holds no
oracle consultation and no race report, so the old records are never compared. -/
theorem recycled_slot_starts_over (env : Env) (fuel : Nat) (g : Globals)
    (accessHistory : AccessHistory) (curLabel : Label) (curLockSet : LockSet)
    (checkInfo : CheckInfo) (hq : env.quiet) (hsh : checkInfo.shared)
    (hd : accessHistory.dataRaceFound = false) (hm : accessHistory.memIsRecycled = true) :
    (checkDataRace env (fuel + 2) g accessHistory curLabel curLockSet checkInfo).1 =
      Exit.returned ∧
    (checkDataRace env (fuel + 2) g accessHistory curLabel curLockSet
      checkInfo).2.ah.dataRaceFound = false ∧
    (checkDataRace env (fuel + 2) g accessHistory curLabel curLockSet
      checkInfo).2.ah.memIsRecycled = false ∧
    (checkDataRace env (fuel + 2) g accessHistory curLabel curLockSet checkInfo).2.ah.records =
      some [mkRecord curLabel curLockSet checkInfo] ∧
    (∀ e ∈ (checkDataRace env (fuel + 2) g accessHistory curLabel curLockSet
        checkInfo).2.trace, e.ev.isConsult = false ∧ e.ev.isReport = false) := by
  obtain ⟨h1, h2, h3, h4⟩ := checkDataRace_fresh env hq fuel g accessHistory curLabel
    curLockSet checkInfo hsh hd (Or.inl hm)
  refine ⟨h1, ?_, ?_, h2, h4⟩
  · unfold AccessHistory.dataRaceFound; rw [h3]; rfl
  · unfold AccessHistory.memIsRecycled; rw [h3]; rfl

theorem demoEnvNonAtomic_quiet : demoEnvNonAtomic.quiet := fun _ _ _ => rfl

theorem recycled_slot_starts_over_witness :
    demoEnvNonAtomic.quiet ∧ demoCheckTwo.shared ∧ demoSlotRecycled.dataRaceFound = false ∧
    demoSlotRecycled.memIsRecycled = true ∧
    (checkDataRace demoEnvNonAtomic (0 + 2) demoGlobals demoSlotRecycled 0 0
      demoCheckTwo).1 = Exit.returned ∧
    (checkDataRace demoEnvNonAtomic (0 + 2) demoGlobals demoSlotRecycled 0 0
      demoCheckTwo).2.ah.dataRaceFound = false ∧
    (checkDataRace demoEnvNonAtomic (0 + 2) demoGlobals demoSlotRecycled 0 0
      demoCheckTwo).2.ah.memIsRecycled = false ∧
    (checkDataRace demoEnvNonAtomic (0 + 2) demoGlobals demoSlotRecycled 0 0
      demoCheckTwo).2.ah.records = some [mkRecord 0 0 demoCheckTwo] ∧
    (∀ e ∈ (checkDataRace demoEnvNonAtomic (0 + 2) demoGlobals demoSlotRecycled 0 0
        demoCheckTwo).2.trace, e.ev.isConsult = false ∧ e.ev.isReport = false) :=
  ⟨demoEnvNonAtomic_quiet, by decide, rfl, rfl,
    recycled_slot_starts_over demoEnvNonAtomic 0 demoGlobals demoSlotRecycled 0 0
      demoCheckTwo demoEnvNonAtomic_quiet (by decide) rfl rfl⟩

/-- C10, as stated, fails: on a slot with both `DataRaceFound` and `MemoryRecycled` set, a call
for shared data in a quiet environment returns with both flags still set. -/
theorem marked_slot_ignores_recycling :
    demoEnv.quiet ∧ demoCheckTwo.shared ∧ demoSlotMarked.memIsRecycled = true ∧
    (checkDataRace demoEnv 5 demoGlobals demoSlotMarked 0 0 demoCheckTwo).1 = Exit.returned ∧
    (checkDataRace demoEnv 5 demoGlobals demoSlotMarked 0 0
      demoCheckTwo).2.ah.dataRaceFound = true ∧
    (checkDataRace demoEnv 5 demoGlobals demoSlotMarked 0 0
      demoCheckTwo).2.ah.memIsRecycled = true :=
  ⟨demoEnv_quiet, by decide, rfl, by decide, by decide, by decide⟩

/-! ## The log only grows -/

theorem Keeps.refl (s : St) : Keeps s s := fun _ h => h

theorem Keeps.trans {s s1 s2 : St} (h1 : Keeps s s1) (h2 : Keeps s1 s2) : Keeps s s2 :=
  fun e h => h2 e (h1 e h)

theorem Keeps.emit_keeps (s : St) (e : Event) : Keeps s (Romp.emit e s) := by
  intro x hx
  simp only [Romp.emit, List.mem_append, List.mem_singleton]
  exact Or.inl hx

theorem Keeps.same (s s1 : St) (h : s1.trace = s.trace) : Keeps s s1 := by
  intro x hx
  rw [h]; exact hx

theorem Keeps.setState_keeps (s : St) (st : AccessHistoryState) : Keeps s (Romp.setState st s) :=
  (Keeps.same _ ({ s with ah := s.ah.setState st }) rfl).trans (Keeps.emit_keeps _ _)

theorem Keeps.setFlag_keeps (s : St) (f : AccessHistoryFlag) : Keeps s (Romp.setFlag f s) :=
  (Keeps.same _ ({ s with ah := s.ah.setFlag f }) rfl).trans (Keeps.emit_keeps _ _)

theorem Keeps.clearFlags_keeps (s : St) : Keeps s (Romp.clearFlags s) :=
  (Keeps.same _ ({ s with ah := s.ah.clearFlags }) rfl).trans (Keeps.emit_keeps _ _)

theorem Keeps.getRecords_keeps (s : St) : Keeps s (Romp.getRecords s) :=
  (Keeps.same _ ({ s with ah := s.ah.getRecords }) rfl).trans (Keeps.emit_keeps _ _)

theorem Keeps.store_keeps (s : St) (rs : List Record) (e : Event) :
    Keeps s (Romp.emit e (storeRecords rs s)) :=
  (Keeps.same _ (storeRecords rs s) rfl).trans (Keeps.emit_keeps _ _)

theorem Keeps.upgradeHelper_keeps (env : Env) (s : St) : Keeps s (Romp.upgradeHelper env s).2 := by
  cases hw : s.writeLockHeld
  · rw [upgradeHelper_of_free env s hw]
    intro x hx
    show x ∈ s.trace ++ [_]
    exact List.mem_append_left _ hx
  · rw [upgradeHelper_of_held env s hw]
    exact Keeps.same _ _ rfl

theorem Keeps.raceFound_keeps (env : Env) (ci : CheckInfo) (hist cur : Record) (s : St) :
    Keeps s (Romp.raceFound env ci hist cur s) := by
  unfold Romp.raceFound
  refine Keeps.trans ?_ (Keeps.setFlag_keeps _ _)
  split
  · refine Keeps.trans ?_ (Keeps.emit_keeps _ _)
    refine Keeps.trans ?_ (Keeps.emit_keeps _ _)
    refine Keeps.trans ?_ (Keeps.same _ _ rfl)
    exact (Keeps.same _ ({ s with g := _ }) rfl).trans (Keeps.emit_keeps _ _)
  · split
    · exact (Keeps.same _ ({ s with g := _ }) rfl).trans (Keeps.emit_keeps _ _)
    · exact Keeps.same _ _ rfl

theorem Keeps.applyDecision_keeps (env : Env) (cur : Record) (st : AccessHistoryState)
    (a : RecordManagement) (it it1 : Nat) (s s1 : St)
    (he : Romp.applyDecision env cur st a it s = some (it1, s1)) : Keeps s s1 := by
  unfold Romp.applyDecision at he
  dsimp only at he
  split at he
  · cases he
  · simp only [Option.some.injEq, Prod.mk.injEq] at he
    rw [← he.2]
    exact (Keeps.setState_keeps s st).trans (Keeps.store_keeps _ _ _)

theorem Keeps.recordLoop_keeps (env : Env) (cur : Record) (ci : CheckInfo) :
    ∀ (fuel it : Nat) (d : Int) (s : St),
      Keeps s (Romp.recordLoop env cur ci fuel it d s).2
  | 0, _, _, s => by rw [Romp.recordLoop]; exact Keeps.refl s
  | fuel + 1, it, d, s => by
    rw [Romp.recordLoop]
    split
    · exact Keeps.refl s
    · split
      · exact Keeps.refl s
      · split
        · exact Keeps.refl s
        · rename_i rs _ hist _
          dsimp only
          have h2 : Keeps s (Romp.emit (Event.analyzeRaceCondition hist
              (env.analyzeRaceCondition hist cur (env.happensBefore hist.label cur.label d).1
                (env.happensBefore hist.label cur.label d).2))
              (Romp.emit (Event.happensBefore hist.label cur.label) s)) :=
            (Keeps.emit_keeps _ _).trans (Keeps.emit_keeps _ _)
          split
          · exact h2.trans (Keeps.raceFound_keeps _ _ _ _ _)
          · have h3 := h2.trans (Keeps.emit_keeps _ (Event.manageAccessRecord hist))
            split
            · split
              · exact h3
              · rename_i it1 s4 he
                exact (h3.trans (Keeps.applyDecision_keeps _ _ _ _ _ _ _ _ he)).trans
                  (Keeps.recordLoop_keeps env cur ci fuel it1 _ s4)
            · split
              · exact h3.trans (Keeps.upgradeHelper_keeps env _)
              · split
                · exact h3.trans (Keeps.upgradeHelper_keeps env _)
                · rename_i it1 s4 he
                  exact ((h3.trans (Keeps.upgradeHelper_keeps env _)).trans
                    (Keeps.applyDecision_keeps _ _ _ _ _ _ _ _ he)).trans
                    (Keeps.recordLoop_keeps env cur ci fuel it1 _ s4)

theorem Keeps.historyStage_keeps (env : Env) (cur : Record) (ci : CheckInfo) (fuel : Nat)
    (s : St) : Keeps s (Romp.historyStage env cur ci fuel s).2 := by
  unfold Romp.historyStage
  cases hrec : s.ah.records with
  | none => exact Keeps.refl s
  | some rs =>
    dsimp only
    by_cases he : rs.isEmpty = true
    · rw [if_pos he]
      by_cases hu : (Romp.upgradeHelper env s).1 = true
      · rw [if_pos hu]; exact Keeps.upgradeHelper_keeps env s
      · rw [if_neg hu]
        generalize (if ci.isWrite = true then AccessHistoryState.eSingleWrite
          else AccessHistoryState.eSingleRead) = st
        have h1 := (Keeps.upgradeHelper_keeps env s).trans (Keeps.setState_keeps _ st)
        split
        · exact h1
        · exact h1.trans (Keeps.store_keeps _ _ _)
    · rw [if_neg he]
      exact Keeps.recordLoop_keeps env cur ci fuel 0 _ s

theorem Keeps.recycledStage_keeps (env : Env) (cur : Record) (ci : CheckInfo) (fuel : Nat)
    (s : St) : Keeps s (Romp.recycledStage env cur ci fuel s).2 := by
  unfold Romp.recycledStage
  by_cases hm : s.ah.memIsRecycled = true
  · rw [if_pos hm]
    dsimp only
    by_cases hu : (Romp.upgradeHelper env s).1 = true
    · rw [if_pos hu]; exact Keeps.upgradeHelper_keeps env s
    · rw [if_neg hu]
      have h1 := (Keeps.upgradeHelper_keeps env s).trans (Keeps.clearFlags_keeps _)
      split
      · exact h1
      · exact (h1.trans (Keeps.store_keeps _ _ _)).trans (Keeps.historyStage_keeps env cur ci fuel _)
  · rw [if_neg hm]
    exact Keeps.historyStage_keeps env cur ci fuel s

theorem Keeps.foundStage_keeps (env : Env) (cur : Record) (ci : CheckInfo) (fuel : Nat)
    (s : St) : Keeps s (Romp.foundStage env cur ci fuel s).2 := by
  unfold Romp.foundStage
  cases hrec : s.ah.records with
  | none => exact Keeps.refl s
  | some rs =>
    dsimp only
    have h1 : Keeps s (if rs.length > env.REC_NUM_THRESHOLD then bumpOverflow s else s) := by
      split
      · exact Keeps.same _ _ rfl
      · exact Keeps.refl s
    generalize (if rs.length > env.REC_NUM_THRESHOLD then bumpOverflow s else s) = s1
      at h1 ⊢
    by_cases hf : s1.ah.dataRaceFound = true
    · rw [if_pos hf]
      by_cases he : (!rs.isEmpty) = true
      · rw [if_pos he]
        by_cases hu : (Romp.upgradeHelper env s1).1 = true
        · rw [if_pos hu]; exact h1.trans (Keeps.upgradeHelper_keeps env s1)
        · rw [if_neg hu]
          split
          · exact h1.trans (Keeps.upgradeHelper_keeps env s1)
          · exact (h1.trans (Keeps.upgradeHelper_keeps env s1)).trans (Keeps.store_keeps _ _ _)
      · rw [if_neg he]; exact h1
    · rw [if_neg hf]
      exact h1.trans (Keeps.recycledStage_keeps env cur ci fuel s1)

theorem Keeps.pass_keeps (env : Env) (cur : Record) (ci : CheckInfo) (fuel : Nat)
    (s : St) : Keeps s (Romp.pass env cur ci fuel s).2 := by
  unfold Romp.pass
  split
  · exact Keeps.refl s
  · cases hrec : s.ah.peekRecords with
    | none =>
      dsimp only
      by_cases hu : (Romp.upgradeHelper env s).1 = true
      · rw [if_pos hu]; exact Keeps.upgradeHelper_keeps env s
      · rw [if_neg hu]
        exact ((Keeps.upgradeHelper_keeps env s).trans (Keeps.getRecords_keeps _)).trans
          (Keeps.foundStage_keeps env cur ci fuel _)
    | some rs => exact Keeps.foundStage_keeps env cur ci fuel s

theorem Keeps.rollback_keeps (env : Env) (cur : Record) (ci : CheckInfo) :
    ∀ (fuel : Nat) (s : St), Keeps s (Romp.rollback env cur ci fuel s).2
  | 0, s => by rw [Romp.rollback]; exact Keeps.refl s
  | fuel + 1, s => by
    rw [Romp.rollback]
    have hp := Keeps.pass_keeps env cur ci fuel s
    split
    · rename_i s1 he
      rw [he] at hp
      exact hp.trans (Keeps.rollback_keeps env cur ci fuel s1)
    · exact hp

theorem Keeps.check_finish_keeps (s : St) : Keeps s (Romp.check_finish s).2 := by
  unfold Romp.check_finish
  dsimp only
  have h1 : Keeps s (if s.writeLockHeld = true then Romp.emit Event.pfqRWLockWriteUnlock s
        else if s.readLockHeld = true then
          Romp.emit (Event.pfqRWLockReadUnlock s.ticketNum) s
        else s) := by
    split
    · exact Keeps.emit_keeps _ _
    · split
      · exact Keeps.emit_keeps _ _
      · exact Keeps.refl s
  generalize (if s.writeLockHeld = true then Romp.emit Event.pfqRWLockWriteUnlock s
    else if s.readLockHeld = true then Romp.emit (Event.pfqRWLockReadUnlock s.ticketNum) s
    else s) = s1 at h1 ⊢
  split
  · exact h1.trans ((Keeps.same _ ({ s1 with g := _, ah := _ }) rfl).trans
      ((Keeps.same _ ({ s1 with g := _, ah := _ }) rfl).trans (Keeps.emit_keeps _ _)))
  · exact h1.trans (Keeps.emit_keeps _ _)

/-! ## A recycled slot takes part in race analysis again -/

theorem recordLoop_analyses_first (env : Env) (cur : Record) (ci : CheckInfo) (fuel : Nat)
    (d : Int) (s : St) (r : Record) (rest : List Record)
    (hrec : s.ah.records = some (r :: rest)) :
    (⟨Event.analyzeRaceCondition r (env.analyzeRaceCondition r cur
        (env.happensBefore r.label cur.label d).1 (env.happensBefore r.label cur.label d).2),
      s.writeLockHeld⟩ : LogEntry) ∈ (recordLoop env cur ci (fuel + 1) 0 d s).2.trace := by
  rw [recordLoop, hrec]
  dsimp only
  rw [if_neg (by simp)]
  simp only [List.get?_cons_zero]
  have hmem : (⟨Event.analyzeRaceCondition r (env.analyzeRaceCondition r cur
        (env.happensBefore r.label cur.label d).1 (env.happensBefore r.label cur.label d).2),
      s.writeLockHeld⟩ : LogEntry) ∈ (emit (Event.analyzeRaceCondition r
        (env.analyzeRaceCondition r cur (env.happensBefore r.label cur.label d).1
          (env.happensBefore r.label cur.label d).2))
        (emit (Event.happensBefore r.label cur.label) s)).trace := by
    simp [emit]
  split
  · exact Keeps.raceFound_keeps _ _ _ _ _ _ hmem
  · have h3 := Keeps.emit_keeps _ (Event.manageAccessRecord r) _ hmem
    split
    · split
      · exact h3
      · rename_i it1 s4 he
        exact Keeps.recordLoop_keeps env cur ci fuel it1 _ s4 _
          (Keeps.applyDecision_keeps _ _ _ _ _ _ _ _ he _ h3)
    · split
      · exact Keeps.upgradeHelper_keeps env _ _ h3
      · split
        · exact Keeps.upgradeHelper_keeps env _ _ h3
        · rename_i it1 s4 he
          exact Keeps.recordLoop_keeps env cur ci fuel it1 _ s4 _
            (Keeps.applyDecision_keeps _ _ _ _ _ _ _ _ he _ (Keeps.upgradeHelper_keeps env _ _ h3))

theorem pass_analyses_first (env : Env) (cur : Record) (ci : CheckInfo) (fuel : Nat)
    (s : St) (r : Record) (rest : List Record) (hsh : ci.shared)
    (hrec : s.ah.records = some (r :: rest)) (hd : s.ah.dataRaceFound = false)
    (hm : s.ah.memIsRecycled = false) :
    (⟨Event.analyzeRaceCondition r (env.analyzeRaceCondition r cur
        (env.happensBefore r.label cur.label env.diffIndexInit).1
        (env.happensBefore r.label cur.label env.diffIndexInit).2),
      s.writeLockHeld⟩ : LogEntry) ∈ (pass env cur ci (fuel + 1) s).2.trace := by
  unfold pass
  rw [if_neg (by
    intro h
    rcases h with h | h
    · exact hsh.1 h
    · exact hsh.2 h)]
  have hpeek : s.ah.peekRecords = some (r :: rest) := hrec
  rw [hpeek]
  dsimp only
  unfold foundStage
  rw [hrec]
  dsimp only
  have key : ∀ s1 : St, s1.ah = s.ah → s1.writeLockHeld = s.writeLockHeld →
      (⟨Event.analyzeRaceCondition r (env.analyzeRaceCondition r cur
        (env.happensBefore r.label cur.label env.diffIndexInit).1
        (env.happensBefore r.label cur.label env.diffIndexInit).2),
      s.writeLockHeld⟩ : LogEntry) ∈ (recycledStage env cur ci (fuel + 1) s1).2.trace := by
    intro s1 hah hw
    unfold recycledStage
    rw [hah, if_neg (by rw [hm]; simp)]
    unfold historyStage
    rw [hah, hrec]
    dsimp only
    rw [if_neg (by simp)]
    rw [← hw]
    exact recordLoop_analyses_first env cur ci fuel _ s1 r rest (by rw [hah]; exact hrec)
  split
  · rw [if_neg (by show ¬ s.ah.dataRaceFound = true; rw [hd]; simp)]
    exact key _ rfl rfl
  · rw [if_neg (by rw [hd]; simp)]
    exact key _ rfl rfl

/-- A call for shared data on an unmarked, unrecycled slot with a non-empty history compares
the first history record with the current access. -/
theorem checkDataRace_analyses_first (env : Env) (fuel : Nat) (g : Globals)
    (ah : AccessHistory) (l : Label) (ls : LockSet) (ci : CheckInfo) (r : Record)
    (rest : List Record) (hsh : ci.shared) (hrec : ah.records = some (r :: rest))
    (hd : ah.dataRaceFound = false) (hm : ah.memIsRecycled = false) :
    (⟨Event.analyzeRaceCondition r (env.analyzeRaceCondition r (mkRecord l ls ci)
        (env.happensBefore r.label l env.diffIndexInit).1
        (env.happensBefore r.label l env.diffIndexInit).2), false⟩ : LogEntry) ∈
      (checkDataRace env (fuel + 2) g ah l ls ci).2.trace := by
  have h1 := pass_analyses_first env (mkRecord l ls ci) ci fuel (enter env g ah) r rest hsh
    hrec hd hm
  have h2 : (⟨Event.analyzeRaceCondition r (env.analyzeRaceCondition r (mkRecord l ls ci)
        (env.happensBefore r.label l env.diffIndexInit).1
        (env.happensBefore r.label l env.diffIndexInit).2), false⟩ : LogEntry) ∈
      (rollback env (mkRecord l ls ci) ci (fuel + 2) (enter env g ah)).2.trace := by
    rw [rollback]
    split
    · rename_i s1 he
      rw [he] at h1
      exact Keeps.rollback_keeps env _ ci (fuel + 1) s1 _ h1
    · exact h1
  unfold checkDataRace
  generalize rollback env (mkRecord l ls ci) ci (fuel + 2) (enter env g ah) = x at h2
  obtain ⟨c, s⟩ := x
  cases c with
  | finish => exact Keeps.check_finish_keeps s _ h2
  | restart => exact h2
  | stuck w => exact h2

/-- C10, amended: on a slot with `MemoryRecycled` set and `DataRaceFound` clear, the next call
for shared data (quiet environment, fuel two or more) returns with neither flag set and the
records holding exactly its own record; and the slot takes part in race analysis again: a
following call for shared data compares that record with its own access. -/
theorem recycled_slot_resumes_checking (env1 env2 : Env) (fuel1 fuel2 : Nat) (g : Globals)
    (accessHistory : AccessHistory) (l1 l2 : Label) (ls1 ls2 : LockSet)
    (ci1 ci2 : CheckInfo) (hq : env1.quiet) (hsh1 : ci1.shared) (hsh2 : ci2.shared)
    (hm : accessHistory.memIsRecycled = true) (hd : accessHistory.dataRaceFound = false) :
    (checkDataRace env1 (fuel1 + 2) g accessHistory l1 ls1 ci1).1 = Exit.returned ∧
    (checkDataRace env1 (fuel1 + 2) g accessHistory l1 ls1 ci1).2.ah.dataRaceFound = false ∧
    (checkDataRace env1 (fuel1 + 2) g accessHistory l1 ls1 ci1).2.ah.memIsRecycled = false ∧
    (checkDataRace env1 (fuel1 + 2) g accessHistory l1 ls1 ci1).2.ah.records =
      some [mkRecord l1 ls1 ci1] ∧
    (⟨Event.analyzeRaceCondition (mkRecord l1 ls1 ci1)
        (env2.analyzeRaceCondition (mkRecord l1 ls1 ci1) (mkRecord l2 ls2 ci2)
          (env2.happensBefore l1 l2 env2.diffIndexInit).1
          (env2.happensBefore l1 l2 env2.diffIndexInit).2), false⟩ : LogEntry) ∈
      (checkDataRace env2 (fuel2 + 2)
        (checkDataRace env1 (fuel1 + 2) g accessHistory l1 ls1 ci1).2.g
        (checkDataRace env1 (fuel1 + 2) g accessHistory l1 ls1 ci1).2.ah
        l2 ls2 ci2).2.trace := by
  obtain ⟨h1, h2, h3, _⟩ := checkDataRace_fresh env1 hq fuel1 g accessHistory l1 ls1
    ci1 hsh1 hd (Or.inl hm)
  have hd1 : (checkDataRace env1 (fuel1 + 2) g accessHistory l1 ls1
      ci1).2.ah.dataRaceFound = false := by
    unfold AccessHistory.dataRaceFound; rw [h3]; rfl
  have hm1 : (checkDataRace env1 (fuel1 + 2) g accessHistory l1 ls1
      ci1).2.ah.memIsRecycled = false := by
    unfold AccessHistory.memIsRecycled; rw [h3]; rfl
  exact ⟨h1, hd1, hm1, h2, checkDataRace_analyses_first env2 fuel2 _ _ l2 ls2 ci2
    (mkRecord l1 ls1 ci1) [] hsh2 h2 hd1 hm1⟩

theorem recycled_slot_resumes_checking_witness :
    demoEnv.quiet ∧ demoCheck.shared ∧ demoCheckTwo.shared ∧
    demoSlotRecycled.memIsRecycled = true ∧ demoSlotRecycled.dataRaceFound = false ∧
    (checkDataRace demoEnv (0 + 2) demoGlobals demoSlotRecycled 1 0 demoCheck).1 =
      Exit.returned ∧
    (checkDataRace demoEnv (0 + 2) demoGlobals demoSlotRecycled 1 0
      demoCheck).2.ah.dataRaceFound = false ∧
    (checkDataRace demoEnv (0 + 2) demoGlobals demoSlotRecycled 1 0
      demoCheck).2.ah.memIsRecycled = false ∧
    (checkDataRace demoEnv (0 + 2) demoGlobals demoSlotRecycled 1 0 demoCheck).2.ah.records =
      some [mkRecord 1 0 demoCheck] ∧
    (⟨Event.analyzeRaceCondition (mkRecord 1 0 demoCheck)
        (demoEnv.analyzeRaceCondition (mkRecord 1 0 demoCheck) (mkRecord 0 0 demoCheckTwo)
          (demoEnv.happensBefore 1 0 demoEnv.diffIndexInit).1
          (demoEnv.happensBefore 1 0 demoEnv.diffIndexInit).2), false⟩ : LogEntry) ∈
      (checkDataRace demoEnv (0 + 2)
        (checkDataRace demoEnv (0 + 2) demoGlobals demoSlotRecycled 1 0 demoCheck).2.g
        (checkDataRace demoEnv (0 + 2) demoGlobals demoSlotRecycled 1 0 demoCheck).2.ah
        0 0 demoCheckTwo).2.trace :=
  ⟨demoEnv_quiet, by decide, by decide, rfl, rfl,
    recycled_slot_resumes_checking demoEnv demoEnv 0 0 demoGlobals demoSlotRecycled 1 0 0 0
      demoCheck demoCheckTwo demoEnv_quiet (by decide) (by decide) rfl rfl⟩

/-! ## The `DataRaceFound` mark and the records -/

theorem detectCount_upgradeHelper (env : Env) (s : St) :
    detectCount (upgradeHelper env s).2.trace = detectCount s.trace := by
  cases hw : s.writeLockHeld
  · rw [upgradeHelper_of_free env s hw]
    simp [upgraded, detectCount, List.countP_append, List.countP_cons, Event.isDetection]
  · rw [upgradeHelper_of_held env s hw]

/-- When `upgradeHelper` lets the caller proceed the slot is as it was before the call. -/
theorem upgradeHelper_proceed_ah (env : Env) (s : St)
    (h : ¬ (upgradeHelper env s).1 = true) : (upgradeHelper env s).2.ah = s.ah := by
  cases hw : s.writeLockHeld
  · rw [upgradeHelper_of_free env s hw] at h ⊢
    show (if (env.pfqUpgrade s.ah s.ticketNum s.readReadContend).res =
        PfqUpgradeResult.eAtomicUpgraded then s.ah
      else (env.pfqUpgrade s.ah s.ticketNum s.readReadContend).ah) = s.ah
    split
    · rfl
    · rename_i hr
      exact absurd (by simpa using hr) h
  · rw [upgradeHelper_of_held env s hw]

theorem applyDecision_frame (env : Env) (cur : Record) (st : AccessHistoryState)
    (a : RecordManagement) (it it1 : Nat) (s s1 : St)
    (he : applyDecision env cur st a it s = some (it1, s1)) :
    detectCount s1.trace = detectCount s.trace ∧
      s1.ah.dataRaceFound = s.ah.dataRaceFound := by
  unfold applyDecision at he
  dsimp only at he
  split at he
  · cases he
  · simp only [Option.some.injEq, Prod.mk.injEq] at he
    rw [← he.2]
    refine ⟨?_, rfl⟩
    rw [detectCount_emit]
    show detectCount (setState st s).trace + 0 = _
    unfold setState
    rw [detectCount_emit]
    rfl

theorem raceFound_frame (env : Env) (ci : CheckInfo) (hist cur : Record) (s : St) :
    detectCount (raceFound env ci hist cur s).trace = detectCount s.trace ∧
      (raceFound env ci hist cur s).ah.records = s.ah.records := by
  unfold raceFound setFlag
  dsimp only
  refine ⟨?_, ?_⟩
  · rw [detectCount_emit]
    by_cases h1 : env.gReportLineInfo = true
    · simp [h1, detectCount_emit, Event.isDetection]
    · by_cases h2 : env.gReportAtRuntime = true
      · simp [h1, h2, detectCount_emit, Event.isDetection]
      · simp [h1, h2, Event.isDetection]
  · by_cases h1 : env.gReportLineInfo = true
    · simp [h1, emit, AccessHistory.setFlag]
    · by_cases h2 : env.gReportAtRuntime = true
      · simp [h1, h2, emit, AccessHistory.setFlag]
      · simp [h1, h2, emit, AccessHistory.setFlag]

theorem Settled.calm {r : Ctl × St} (hc : detectCount r.2.trace = 0)
    (hf : r.2.ah.dataRaceFound = false) : Settled r :=
  Or.inr ⟨hc, fun _ h => by rw [hf] at h; cases h⟩

theorem Settled.halt {r : Ctl × St} (hc : detectCount r.2.trace = 0)
    (hf : r.1 ≠ Ctl.finish) : Settled r :=
  Or.inr ⟨hc, fun h => absurd h hf⟩

theorem recordLoop_settled (env : Env) (cur : Record) (ci : CheckInfo) :
    ∀ (fuel it : Nat) (d : Int) (s : St), detectCount s.trace = 0 →
      s.ah.dataRaceFound = false → Settled (recordLoop env cur ci fuel it d s)
  | 0, _, _, s, hc, hf => by rw [recordLoop]; exact Settled.calm hc hf
  | fuel + 1, it, d, s, hc, hf => by
    rw [recordLoop]
    split
    · exact Settled.calm hc hf
    · rename_i rs hrs
      split
      · exact Settled.calm hc hf
      · split
        · exact Settled.calm hc hf
        · rename_i _ hist hget
          dsimp only
          split
          · rename_i hrace
            left
            obtain ⟨h1, h2⟩ := raceFound_frame env ci hist cur
              (emit (Event.analyzeRaceCondition hist
                (env.analyzeRaceCondition hist cur (env.happensBefore hist.label cur.label d).1
                  (env.happensBefore hist.label cur.label d).2))
                (emit (Event.happensBefore hist.label cur.label) s))
            refine ⟨rfl, ?_, raceFound_flag _ _ _ _ _, rs, ?_, ?_⟩
            · dsimp only
              rw [h1, detectCount_emit, detectCount_emit, hc]
              simp [Event.isDetection, hrace]
            · dsimp only
              rw [h2]
              exact hrs
            · intro hnil
              subst hnil
              simp at hget
          · rename_i hrace
            have h3 : detectCount (emit (Event.manageAccessRecord hist)
                (emit (Event.analyzeRaceCondition hist
                  (env.analyzeRaceCondition hist cur
                    (env.happensBefore hist.label cur.label d).1
                    (env.happensBefore hist.label cur.label d).2))
                  (emit (Event.happensBefore hist.label cur.label) s))).trace = 0 := by
              rw [detectCount_emit, detectCount_emit, detectCount_emit, hc]
              simp [Event.isDetection, hrace]
            have hf3 : (emit (Event.manageAccessRecord hist)
                (emit (Event.analyzeRaceCondition hist
                  (env.analyzeRaceCondition hist cur
                    (env.happensBefore hist.label cur.label d).1
                    (env.happensBefore hist.label cur.label d).2))
                  (emit (Event.happensBefore hist.label cur.label) s))).ah.dataRaceFound =
                false := hf
            split
            · split
              · exact Settled.calm h3 hf3
              · rename_i it1 s4 he
                obtain ⟨e1, e2⟩ := applyDecision_frame _ _ _ _ _ _ _ _ he
                exact recordLoop_settled env cur ci fuel it1 _ s4 (by rw [e1]; exact h3)
                  (by rw [e2]; exact hf3)
            · split
              · exact Settled.halt (by dsimp only; rw [detectCount_upgradeHelper]; exact h3)
                  (by intro h; cases h)
              · rename_i hu
                have hah := upgradeHelper_proceed_ah env _ hu
                split
                · exact Settled.calm
                    (by dsimp only; rw [detectCount_upgradeHelper]; exact h3)
                    (by dsimp only; rw [hah]; exact hf3)
                · rename_i it1 s4 he
                  obtain ⟨e1, e2⟩ := applyDecision_frame _ _ _ _ _ _ _ _ he
                  exact recordLoop_settled env cur ci fuel it1 _ s4
                    (by rw [e1, detectCount_upgradeHelper]; exact h3)
                    (by rw [e2, hah]; exact hf3)

theorem historyStage_settled (env : Env) (cur : Record) (ci : CheckInfo) (fuel : Nat)
    (s : St) (hc : detectCount s.trace = 0) (hf : s.ah.dataRaceFound = false) :
    Settled (historyStage env cur ci fuel s) := by
  unfold historyStage
  cases hrec : s.ah.records with
  | none => exact Settled.calm hc hf
  | some rs =>
    dsimp only
    by_cases he : rs.isEmpty = true
    · rw [if_pos he]
      by_cases hu : (upgradeHelper env s).1 = true
      · rw [if_pos hu]
        exact Settled.halt (by dsimp only; rw [detectCount_upgradeHelper]; exact hc)
          (by intro h; cases h)
      · rw [if_neg hu]
        have hah := upgradeHelper_proceed_ah env s hu
        generalize (if ci.isWrite = true then AccessHistoryState.eSingleWrite
          else AccessHistoryState.eSingleRead) = st
        have hc1 : detectCount (setState st (upgradeHelper env s).2).trace = 0 := by
          unfold setState
          rw [detectCount_emit]
          show detectCount (upgradeHelper env s).2.trace + 0 = 0
          rw [detectCount_upgradeHelper]; exact hc
        have hf1 : (setState st (upgradeHelper env s).2).ah.dataRaceFound = false := by
          show (upgradeHelper env s).2.ah.dataRaceFound = false
          rw [hah]; exact hf
        split
        · exact Settled.calm hc1 hf1
        · exact Settled.calm (by dsimp only; rw [detectCount_emit]; exact hc1) hf1
    · rw [if_neg he]
      exact recordLoop_settled env cur ci fuel 0 _ s hc hf

theorem recycledStage_settled (env : Env) (cur : Record) (ci : CheckInfo) (fuel : Nat)
    (s : St) (hc : detectCount s.trace = 0) (hf : s.ah.dataRaceFound = false) :
    Settled (recycledStage env cur ci fuel s) := by
  unfold recycledStage
  by_cases hm : s.ah.memIsRecycled = true
  · rw [if_pos hm]
    dsimp only
    by_cases hu : (upgradeHelper env s).1 = true
    · rw [if_pos hu]
      exact Settled.halt (by dsimp only; rw [detectCount_upgradeHelper]; exact hc)
        (by intro h; cases h)
    · rw [if_neg hu]
      have hc1 : detectCount (clearFlags (upgradeHelper env s).2).trace = 0 := by
        unfold clearFlags
        rw [detectCount_emit]
        show detectCount (upgradeHelper env s).2.trace + 0 = 0
        rw [detectCount_upgradeHelper]; exact hc
      split
      · exact Settled.calm hc1 rfl
      · exact historyStage_settled env cur ci fuel _
          (by rw [detectCount_emit]; exact hc1) rfl
  · rw [if_neg hm]
    exact historyStage_settled env cur ci fuel s hc hf

theorem foundStage_settled (env : Env) (cur : Record) (ci : CheckInfo) (fuel : Nat)
    (s : St) (hc : detectCount s.trace = 0) :
    Settled (foundStage env cur ci fuel s) := by
  unfold foundStage
  cases hrec : s.ah.records with
  | none => exact Settled.halt hc (by intro h; cases h)
  | some rs =>
    dsimp only
    have h1 : detectCount (if rs.length > env.REC_NUM_THRESHOLD then bumpOverflow s
        else s).trace = 0 ∧
        (if rs.length > env.REC_NUM_THRESHOLD then bumpOverflow s else s).ah = s.ah := by
      split
      · exact ⟨hc, rfl⟩
      · exact ⟨hc, rfl⟩
    generalize (if rs.length > env.REC_NUM_THRESHOLD then bumpOverflow s else s) = s1
      at h1 ⊢
    obtain ⟨hc1, hah1⟩ := h1
    by_cases hf : s1.ah.dataRaceFound = true
    · rw [if_pos hf]
      by_cases he : (!rs.isEmpty) = true
      · rw [if_pos he]
        have hcu : detectCount (upgradeHelper env s1).2.trace = 0 := by
          rw [detectCount_upgradeHelper]; exact hc1
        by_cases hu : (upgradeHelper env s1).1 = true
        · rw [if_pos hu]
          exact Settled.halt hcu (by intro h; cases h)
        · rw [if_neg hu]
          split
          · exact Settled.halt hcu (by intro h; cases h)
          · exact Or.inr ⟨by dsimp only; rw [detectCount_emit]; exact hcu, fun _ _ => rfl⟩
      · rw [if_neg he]
        refine Or.inr ⟨hc1, fun _ _ => ?_⟩
        dsimp only
        rw [hah1, hrec]
        have : rs = [] := by
          cases rs with
          | nil => rfl
          | cons a t => simp at he
        rw [this]
    · rw [if_neg hf]
      exact recycledStage_settled env cur ci fuel s1 hc1 (by simpa using hf)

theorem pass_settled (env : Env) (cur : Record) (ci : CheckInfo) (fuel : Nat)
    (s : St) (hsh : ci.shared) (hc : detectCount s.trace = 0) :
    Settled (pass env cur ci fuel s) := by
  unfold pass
  rw [if_neg (by
    intro h
    rcases h with h | h
    · exact hsh.1 h
    · exact hsh.2 h)]
  cases hrec : s.ah.peekRecords with
  | none =>
    dsimp only
    have hcu : detectCount (upgradeHelper env s).2.trace = 0 := by
      rw [detectCount_upgradeHelper]; exact hc
    by_cases hu : (upgradeHelper env s).1 = true
    · rw [if_pos hu]
      exact Settled.halt hcu (by intro h; cases h)
    · rw [if_neg hu]
      apply foundStage_settled
      unfold getRecords
      rw [detectCount_emit]
      exact hcu
  | some rs => exact foundStage_settled env cur ci fuel s hc

theorem rollback_settled (env : Env) (cur : Record) (ci : CheckInfo) (hsh : ci.shared) :
    ∀ (fuel : Nat) (s : St), detectCount s.trace = 0 →
      Settled (rollback env cur ci fuel s)
  | 0, s, hc => by rw [rollback]; exact Settled.halt hc (by intro h; cases h)
  | fuel + 1, s, hc => by
    rw [rollback]
    have hp := pass_settled env cur ci fuel s hsh hc
    split
    · rename_i s1 he
      rw [he] at hp
      rcases hp with ⟨h, _⟩ | ⟨h, _⟩
      · cases h
      · exact rollback_settled env cur ci hsh fuel s1 h
    · exact hp

theorem detectCount_le_analysisCount (t : List LogEntry) :
    detectCount t ≤ analysisCount t := by
  unfold detectCount analysisCount
  apply List.countP_mono_left
  intro e _ h
  cases hev : e.ev <;> simp_all [Event.isDetection, Event.isAnalysis]

/-- C4, amended: after a returning call for shared data, either the call detected no race and
then a set `DataRaceFound` flag implies that the record sequence is empty, or it detected
exactly one race and leaves the slot with `DataRaceFound` set and its records in place; the
records of a marked slot are emptied by the next call for shared data (no thread clearing the
mark behind an upgrade), which returns with the mark set and the record sequence empty. -/
theorem race_mark_and_records (env : Env) (fuel : Nat) (g : Globals)
    (accessHistory : AccessHistory) (curLabel : Label) (curLockSet : LockSet)
    (checkInfo : CheckInfo) (hsh : checkInfo.shared)
    (hret : (checkDataRace env fuel g accessHistory curLabel curLockSet checkInfo).1 =
      Exit.returned) :
    ((detectCount
        (checkDataRace env fuel g accessHistory curLabel curLockSet checkInfo).2.trace = 0 ∧
      ((checkDataRace env fuel g accessHistory curLabel curLockSet
          checkInfo).2.ah.dataRaceFound = true →
        (checkDataRace env fuel g accessHistory curLabel curLockSet
          checkInfo).2.ah.records = some [])) ∨
     (detectCount
        (checkDataRace env fuel g accessHistory curLabel curLockSet checkInfo).2.trace = 1 ∧
      (checkDataRace env fuel g accessHistory curLabel curLockSet
        checkInfo).2.ah.dataRaceFound = true ∧
      ∃ rs, (checkDataRace env fuel g accessHistory curLabel curLockSet
        checkInfo).2.ah.records = some rs ∧ rs ≠ [])) ∧
    (env.keepsRaceFlag → accessHistory.dataRaceFound = true →
      (checkDataRace env fuel g accessHistory curLabel curLockSet
        checkInfo).2.ah.dataRaceFound = true ∧
      (checkDataRace env fuel g accessHistory curLabel curLockSet
        checkInfo).2.ah.records = some []) := by
  have key : (detectCount
        (checkDataRace env fuel g accessHistory curLabel curLockSet checkInfo).2.trace = 0 ∧
      ((checkDataRace env fuel g accessHistory curLabel curLockSet
          checkInfo).2.ah.dataRaceFound = true →
        (checkDataRace env fuel g accessHistory curLabel curLockSet
          checkInfo).2.ah.records = some [])) ∨
     (detectCount
        (checkDataRace env fuel g accessHistory curLabel curLockSet checkInfo).2.trace = 1 ∧
      (checkDataRace env fuel g accessHistory curLabel curLockSet
        checkInfo).2.ah.dataRaceFound = true ∧
      ∃ rs, (checkDataRace env fuel g accessHistory curLabel curLockSet
        checkInfo).2.ah.records = some rs ∧ rs ≠ []) := by
    have h := rollback_settled env (mkRecord curLabel curLockSet checkInfo) checkInfo hsh fuel
      (enter env g accessHistory) rfl
    unfold checkDataRace at hret ⊢
    generalize rollback env (mkRecord curLabel curLockSet checkInfo) checkInfo fuel
      (enter env g accessHistory) = r at h hret
    obtain ⟨c, s⟩ := r
    cases c with
    | finish =>
      obtain ⟨_, _, hst, hrec, hdt⟩ := check_finish_frame s
      dsimp only
      unfold AccessHistory.dataRaceFound
      rw [hst, hrec, hdt]
      rcases h with ⟨_, h1, h2, h3⟩ | ⟨h1, h2⟩
      · exact Or.inr ⟨h1, h2, h3⟩
      · exact Or.inl ⟨h1, h2 rfl⟩
    | restart => cases hret
    | stuck w => cases hret
  refine ⟨key, fun hk hflag => ?_⟩
  obtain ⟨_, ha, hf⟩ := checkDataRace_quiesced env hk fuel g accessHistory curLabel
    curLockSet checkInfo hflag
  refine ⟨hf, ?_⟩
  rcases key with ⟨_, h2⟩ | ⟨h1, _⟩
  · exact h2 hf
  · have := detectCount_le_analysisCount
      (checkDataRace env fuel g accessHistory curLabel curLockSet checkInfo).2.trace
    rw [h1, ha] at this
    cases this

/-- C4, as stated, fails: the call that detects the race returns with `DataRaceFound` set and
the history record still in the slot. -/
theorem detecting_call_keeps_records :
    demoCheckTwo.shared ∧
    (checkDataRace demoEnv 5 demoGlobals demoSlotOne 0 0 demoCheckTwo).1 = Exit.returned ∧
    detectCount (checkDataRace demoEnv 5 demoGlobals demoSlotOne 0 0 demoCheckTwo).2.trace =
      1 ∧
    (checkDataRace demoEnv 5 demoGlobals demoSlotOne 0 0 demoCheckTwo).2.ah.dataRaceFound =
      true ∧
    (checkDataRace demoEnv 5 demoGlobals demoSlotOne 0 0 demoCheckTwo).2.ah.records =
      some [demoRecord] :=
  ⟨by decide, by decide, by decide, by decide, by decide⟩

theorem race_mark_and_records_witness :
    demoCheckTwo.shared ∧
    (checkDataRace demoEnv 5 demoGlobals demoSlotOne 0 0 demoCheckTwo).1 = Exit.returned ∧
    (((detectCount
        (checkDataRace demoEnv 5 demoGlobals demoSlotOne 0 0 demoCheckTwo).2.trace = 0 ∧
      ((checkDataRace demoEnv 5 demoGlobals demoSlotOne 0 0
          demoCheckTwo).2.ah.dataRaceFound = true →
        (checkDataRace demoEnv 5 demoGlobals demoSlotOne 0 0
          demoCheckTwo).2.ah.records = some [])) ∨
     (detectCount
        (checkDataRace demoEnv 5 demoGlobals demoSlotOne 0 0 demoCheckTwo).2.trace = 1 ∧
      (checkDataRace demoEnv 5 demoGlobals demoSlotOne 0 0
        demoCheckTwo).2.ah.dataRaceFound = true ∧
      ∃ rs, (checkDataRace demoEnv 5 demoGlobals demoSlotOne 0 0
        demoCheckTwo).2.ah.records = some rs ∧ rs ≠ [])) ∧
    (demoEnv.keepsRaceFlag → demoSlotOne.dataRaceFound = true →
      (checkDataRace demoEnv 5 demoGlobals demoSlotOne 0 0
        demoCheckTwo).2.ah.dataRaceFound = true ∧
      (checkDataRace demoEnv 5 demoGlobals demoSlotOne 0 0
        demoCheckTwo).2.ah.records = some [])) :=
  ⟨by decide, by decide,
    race_mark_and_records demoEnv 5 demoGlobals demoSlotOne 0 0 demoCheckTwo (by decide)
      (by decide)⟩

/-! ## The log prefix and the overflow counter do not steer the driver -/

theorem emit_reframe (p : List LogEntry) (k : Nat) (e : Event) (s : St) :
    emit e (reframe p k s) = reframe p k (emit e s) := by
  simp [emit, reframe, List.append_assoc]

theorem setState_reframe (p : List LogEntry) (k : Nat) (st : AccessHistoryState) (s : St) :
    setState st (reframe p k s) = reframe p k (setState st s) := by
  simp [setState, emit, reframe, List.append_assoc]

theorem setFlag_reframe (p : List LogEntry) (k : Nat) (f : AccessHistoryFlag) (s : St) :
    setFlag f (reframe p k s) = reframe p k (setFlag f s) := by
  simp [setFlag, emit, reframe, List.append_assoc]

theorem clearFlags_reframe (p : List LogEntry) (k : Nat) (s : St) :
    clearFlags (reframe p k s) = reframe p k (clearFlags s) := by
  simp [clearFlags, emit, reframe, List.append_assoc]

theorem getRecords_reframe (p : List LogEntry) (k : Nat) (s : St) :
    getRecords (reframe p k s) = reframe p k (getRecords s) := by
  simp [getRecords, emit, reframe, List.append_assoc]

theorem storeRecords_reframe (p : List LogEntry) (k : Nat) (rs : List Record) (s : St) :
    storeRecords rs (reframe p k s) = reframe p k (storeRecords rs s) := by
  simp [storeRecords, reframe]

theorem bumpOverflow_reframe (p : List LogEntry) (k : Nat) (s : St) :
    bumpOverflow (reframe p k s) = reframe p k (bumpOverflow s) := by
  simp [bumpOverflow, reframe, Nat.add_right_comm]

theorem upgradeHelper_reframe (env : Env) (p : List LogEntry) (k : Nat) (s : St) :
    upgradeHelper env (reframe p k s) =
      ((upgradeHelper env s).1, reframe p k (upgradeHelper env s).2) := by
  cases hw : s.writeLockHeld
  · rw [upgradeHelper_of_free env s hw, upgradeHelper_of_free env (reframe p k s) hw]
    simp [upgraded, reframe, List.append_assoc]
  · rw [upgradeHelper_of_held env s hw, upgradeHelper_of_held env (reframe p k s) hw]
    simp [reframe]

theorem raceFound_reframe (env : Env) (ci : CheckInfo) (hist cur : Record)
    (p : List LogEntry) (k : Nat) (s : St) :
    raceFound env ci hist cur (reframe p k s) = reframe p k (raceFound env ci hist cur s) := by
  unfold raceFound
  by_cases h1 : env.gReportLineInfo = true
  · simp [h1, setFlag, emit, reframe, List.append_assoc]
  · by_cases h2 : env.gReportAtRuntime = true
    · simp [h1, h2, setFlag, emit, reframe, List.append_assoc]
    · simp [h1, h2, setFlag, emit, reframe, List.append_assoc]

theorem applyDecision_reframe (env : Env) (cur : Record) (st : AccessHistoryState)
    (a : RecordManagement) (it : Nat) (p : List LogEntry) (k : Nat) (s : St) :
    applyDecision env cur st a it (reframe p k s) =
      (applyDecision env cur st a it s).map (fun x => (x.1, reframe p k x.2)) := by
  unfold applyDecision
  dsimp only
  rw [setState_reframe]
  have : (reframe p k (setState st s)).ah = (setState st s).ah := rfl
  rw [this]
  cases (setState st s).ah.records with
  | none => rfl
  | some rs =>
    dsimp only
    rw [storeRecords_reframe, emit_reframe]
    rfl

theorem reframe_ah (p : List LogEntry) (k : Nat) (s : St) : (reframe p k s).ah = s.ah := rfl

theorem reframe_writeLockHeld (p : List LogEntry) (k : Nat) (s : St) :
    (reframe p k s).writeLockHeld = s.writeLockHeld := rfl

theorem recordLoop_reframe (env : Env) (cur : Record) (ci : CheckInfo) (p : List LogEntry)
    (k : Nat) : ∀ (fuel it : Nat) (d : Int) (s : St),
      recordLoop env cur ci fuel it d (reframe p k s) =
        ((recordLoop env cur ci fuel it d s).1, reframe p k (recordLoop env cur ci fuel it d s).2)
  | 0, _, _, s => by simp [recordLoop]
  | fuel + 1, it, d, s => by
    have ih := recordLoop_reframe env cur ci p k fuel
    simp only [recordLoop, reframe_ah]
    cases s.ah.records with
    | none => rfl
    | some rs =>
      dsimp only
      by_cases hit : it = rs.length
      · simp only [if_pos hit]
      · simp only [if_neg hit]
        cases rs.get? it with
        | none => rfl
        | some hist =>
          dsimp only
          simp only [emit_reframe, reframe_ah, reframe_writeLockHeld]
          by_cases hrace : env.analyzeRaceCondition hist cur
              (env.happensBefore hist.label cur.label d).1
              (env.happensBefore hist.label cur.label d).2 = true
          · simp only [if_pos hrace, raceFound_reframe]
          · simp only [if_neg hrace]
            by_cases hw : s.writeLockHeld = true
            · have hw3 : (emit (Event.manageAccessRecord hist)
                  (emit (Event.analyzeRaceCondition hist
                    (env.analyzeRaceCondition hist cur
                      (env.happensBefore hist.label cur.label d).1
                      (env.happensBefore hist.label cur.label d).2))
                    (emit (Event.happensBefore hist.label cur.label) s))).writeLockHeld =
                  true := hw
              simp only [if_pos hw3, applyDecision_reframe]
              cases applyDecision env cur _ _ it _ with
              | none => rfl
              | some x => exact ih x.1 _ x.2
            · have hw3 : ¬ (emit (Event.manageAccessRecord hist)
                  (emit (Event.analyzeRaceCondition hist
                    (env.analyzeRaceCondition hist cur
                      (env.happensBefore hist.label cur.label d).1
                      (env.happensBefore hist.label cur.label d).2))
                    (emit (Event.happensBefore hist.label cur.label) s))).writeLockHeld =
                  true := hw
              simp only [if_neg hw3, upgradeHelper_reframe]
              by_cases hu : (upgradeHelper env (emit (Event.manageAccessRecord hist)
                  (emit (Event.analyzeRaceCondition hist
                    (env.analyzeRaceCondition hist cur
                      (env.happensBefore hist.label cur.label d).1
                      (env.happensBefore hist.label cur.label d).2))
                    (emit (Event.happensBefore hist.label cur.label) s)))).1 = true
              · simp only [if_pos hu]
              · simp only [if_neg hu, applyDecision_reframe]
                cases applyDecision env cur _ _ it _ with
                | none => rfl
                | some x => exact ih x.1 _ x.2

end Romp
namespace Romp

theorem historyStage_reframe (env : Env) (cur : Record) (ci : CheckInfo) (fuel : Nat)
    (p : List LogEntry) (k : Nat) (s : St) :
    historyStage env cur ci fuel (reframe p k s) =
      ((historyStage env cur ci fuel s).1, reframe p k (historyStage env cur ci fuel s).2) := by
  simp only [historyStage, reframe_ah]
  cases hrec : s.ah.records with
  | none => rfl
  | some rs =>
    dsimp only
    by_cases he : rs.isEmpty = true
    · simp only [if_pos he, upgradeHelper_reframe]
      by_cases hu : (upgradeHelper env s).1 = true
      · simp only [if_pos hu]
      · simp only [if_neg hu, setState_reframe, reframe_ah]
        cases (setState (if ci.isWrite = true then AccessHistoryState.eSingleWrite
          else AccessHistoryState.eSingleRead) (upgradeHelper env s).2).ah.records with
        | none => rfl
        | some rs1 =>
          dsimp only
          rw [storeRecords_reframe, emit_reframe]
    · simp only [if_neg he]
      exact recordLoop_reframe env cur ci p k fuel 0 _ s

theorem recycledStage_reframe (env : Env) (cur : Record) (ci : CheckInfo) (fuel : Nat)
    (p : List LogEntry) (k : Nat) (s : St) :
    recycledStage env cur ci fuel (reframe p k s) =
      ((recycledStage env cur ci fuel s).1,
        reframe p k (recycledStage env cur ci fuel s).2) := by
  simp only [recycledStage, reframe_ah]
  by_cases hm : s.ah.memIsRecycled = true
  · simp only [if_pos hm, upgradeHelper_reframe]
    by_cases hu : (upgradeHelper env s).1 = true
    · simp only [if_pos hu]
    · simp only [if_neg hu, clearFlags_reframe, reframe_ah]
      cases (clearFlags (upgradeHelper env s).2).ah.records with
      | none => rfl
      | some rs1 =>
        dsimp only
        rw [storeRecords_reframe, emit_reframe]
        exact historyStage_reframe env cur ci fuel p k _
  · simp only [if_neg hm]
    exact historyStage_reframe env cur ci fuel p k s

theorem foundStage_reframe (env : Env) (cur : Record) (ci : CheckInfo) (fuel : Nat)
    (p : List LogEntry) (k : Nat) (s : St) :
    foundStage env cur ci fuel (reframe p k s) =
      ((foundStage env cur ci fuel s).1, reframe p k (foundStage env cur ci fuel s).2) := by
  simp only [foundStage, reframe_ah]
  cases hrec : s.ah.records with
  | none => rfl
  | some rs =>
    dsimp only
    have hb : (if rs.length > env.REC_NUM_THRESHOLD then bumpOverflow (reframe p k s)
        else reframe p k s) =
        reframe p k (if rs.length > env.REC_NUM_THRESHOLD then bumpOverflow s else s) := by
      split
      · exact bumpOverflow_reframe p k s
      · rfl
    rw [hb]
    generalize (if rs.length > env.REC_NUM_THRESHOLD then bumpOverflow s else s) = s1
    simp only [reframe_ah]
    by_cases hf : s1.ah.dataRaceFound = true
    · simp only [if_pos hf]
      by_cases he : (!rs.isEmpty) = true
      · simp only [if_pos he, upgradeHelper_reframe]
        by_cases hu : (upgradeHelper env s1).1 = true
        · simp only [if_pos hu]
        · simp only [if_neg hu, reframe_ah]
          cases (upgradeHelper env s1).2.ah.records with
          | none => rfl
          | some rs1 =>
            dsimp only
            rw [storeRecords_reframe, emit_reframe]
      · simp only [if_neg he]
    · simp only [if_neg hf]
      exact recycledStage_reframe env cur ci fuel p k s1

theorem pass_reframe (env : Env) (cur : Record) (ci : CheckInfo) (fuel : Nat)
    (p : List LogEntry) (k : Nat) (s : St) :
    pass env cur ci fuel (reframe p k s) =
      ((pass env cur ci fuel s).1, reframe p k (pass env cur ci fuel s).2) := by
  simp only [pass, reframe_ah]
  split
  · rfl
  · cases hrec : s.ah.peekRecords with
    | none =>
      dsimp only
      simp only [upgradeHelper_reframe]
      by_cases hu : (upgradeHelper env s).1 = true
      · simp only [if_pos hu]
      · simp only [if_neg hu, getRecords_reframe]
        exact foundStage_reframe env cur ci fuel p k _
    | some rs =>
      dsimp only
      exact foundStage_reframe env cur ci fuel p k s

theorem rollback_reframe (env : Env) (cur : Record) (ci : CheckInfo) (p : List LogEntry)
    (k : Nat) : ∀ (fuel : Nat) (s : St),
      rollback env cur ci fuel (reframe p k s) =
        ((rollback env cur ci fuel s).1, reframe p k (rollback env cur ci fuel s).2)
  | 0, s => by simp [rollback]
  | fuel + 1, s => by
    rw [rollback, rollback, pass_reframe]
    generalize pass env cur ci fuel s = r
    obtain ⟨c, s1⟩ := r
    cases c with
    | finish => rfl
    | restart => exact rollback_reframe env cur ci p k fuel s1
    | stuck w => rfl

theorem check_finish_reframe (p : List LogEntry) (k : Nat) (s : St) :
    check_finish (reframe p k s) = ((check_finish s).1, reframe p k (check_finish s).2) := by
  unfold check_finish
  dsimp only
  have h1 : (if (reframe p k s).writeLockHeld = true then
        emit Event.pfqRWLockWriteUnlock (reframe p k s)
      else if (reframe p k s).readLockHeld = true then
        emit (Event.pfqRWLockReadUnlock (reframe p k s).ticketNum) (reframe p k s)
      else reframe p k s) =
      reframe p k (if s.writeLockHeld = true then emit Event.pfqRWLockWriteUnlock s
        else if s.readLockHeld = true then emit (Event.pfqRWLockReadUnlock s.ticketNum) s
        else s) := by
    show (if s.writeLockHeld = true then emit Event.pfqRWLockWriteUnlock (reframe p k s)
      else if s.readLockHeld = true then
        emit (Event.pfqRWLockReadUnlock s.ticketNum) (reframe p k s)
      else reframe p k s) = _
    split
    · exact emit_reframe _ _ _ _
    · split
      · exact emit_reframe _ _ _ _
      · rfl
  rw [h1]
  generalize (if s.writeLockHeld = true then emit Event.pfqRWLockWriteUnlock s
    else if s.readLockHeld = true then emit (Event.pfqRWLockReadUnlock s.ticketNum) s
    else s) = s1
  show (match Counters.bump (getCounterType s1.readWriteContend s1.readReadContend
        s1.upgradeSuccess s1.modIntent) s1.g.counters,
      Counters.bump (getCounterType s1.readWriteContend s1.readReadContend
        s1.upgradeSuccess s1.modIntent) s1.ah.counters with
    | some gc, some ac => (Exit.returned, recordHistoryMap
        { reframe p k s1 with g := { (reframe p k s1).g with counters := gc },
                              ah := { (reframe p k s1).ah with counters := ac } })
    | _, _ => (Exit.fatal, emit Event.fatal (reframe p k s1))) = _
  cases Counters.bump (getCounterType s1.readWriteContend s1.readReadContend
      s1.upgradeSuccess s1.modIntent) s1.g.counters with
  | none =>
    dsimp only
    rw [emit_reframe]
  | some gc =>
    cases Counters.bump (getCounterType s1.readWriteContend s1.readReadContend
        s1.upgradeSuccess s1.modIntent) s1.ah.counters with
    | none =>
      dsimp only
      rw [emit_reframe]
    | some ac =>
      dsimp only
      simp [recordHistoryMap, emit, reframe, List.append_assoc]

theorem conclude_reframe (p : List LogEntry) (k : Nat) (r : Ctl × St) :
    conclude (r.1, reframe p k r.2) = ((conclude r).1, reframe p k (conclude r).2) := by
  obtain ⟨c, s⟩ := r
  cases c with
  | finish => exact check_finish_reframe p k s
  | restart => rfl
  | stuck w => rfl

theorem checkDataRace_eq_conclude (env : Env) (fuel : Nat) (g : Globals)
    (ah : AccessHistory) (l : Label) (ls : LockSet) (ci : CheckInfo) :
    checkDataRace env fuel g ah l ls ci =
      conclude (rollback env (mkRecord l ls ci) ci fuel (enter env g ah)) := by
  unfold checkDataRace conclude
  rfl

/-! ## The traversal before a non-atomic upgrade -/

theorem upgradeCount_consults (t n : List LogEntry) (h : ∀ e ∈ n, e.ev.isConsult = true) :
    upgradeCount (t ++ n) = upgradeCount t := by
  unfold upgradeCount
  rw [List.countP_append]
  have : List.countP (fun e => e.ev.isUpgrade) n = 0 := by
    rw [List.countP_eq_zero]
    intro e he
    have hc := h e he
    cases hev : e.ev <;> simp_all [Event.isConsult, Event.isUpgrade]
  rw [this]
  rfl

theorem emit_ahead (e : Event) (n : List LogEntry) (k : Nat) (s : St) :
    emit e (ahead n k s) = ahead (n ++ [⟨e, s.writeLockHeld⟩]) k s := by
  simp [emit, ahead, List.append_assoc]

theorem upgradeHelper_ahead (env : Env) (n : List LogEntry) (k : Nat) (s : St)
    (hw : s.writeLockHeld = false)
    (hna : (env.pfqUpgrade s.ah s.ticketNum s.readReadContend).res ≠
      PfqUpgradeResult.eAtomicUpgraded) :
    upgradeHelper env (ahead n k s) =
      (true, reframe (s.trace ++ n ++ [upgradeEntry env s]) k (restartState env s)) := by
  rw [upgradeHelper_of_free env (ahead n k s) hw]
  simp [upgraded, ahead, reframe, restartState, upgradeEntry, hna]

theorem Diverted.restart (env : Env) (s : St) (n : List LogEntry) (k : Nat)
    (hn : ∀ e ∈ n, e.ev.isConsult = true) (hw : s.writeLockHeld = false)
    (hna : (env.pfqUpgrade s.ah s.ticketNum s.readReadContend).res ≠
      PfqUpgradeResult.eAtomicUpgraded) :
    Diverted env s (Ctl.restart, (upgradeHelper env (ahead n k s)).2) := by
  rw [upgradeHelper_ahead env n k s hw hna]
  exact Or.inl ⟨rfl, n, k, hn, rfl⟩

theorem Diverted.stop (env : Env) (s : St) (c : Ctl) (n : List LogEntry) (k : Nat)
    (hn : ∀ e ∈ n, e.ev.isConsult = true) (hc : c ≠ Ctl.restart) :
    Diverted env s (c, ahead n k s) :=
  Or.inr ⟨hc, upgradeCount_consults s.trace n hn⟩

theorem upgradeCount_raceFound (env : Env) (ci : CheckInfo) (hist cur : Record) (s : St) :
    upgradeCount (raceFound env ci hist cur s).trace = upgradeCount s.trace := by
  unfold raceFound
  by_cases h1 : env.gReportLineInfo = true
  · simp [h1, setFlag, emit, upgradeCount, List.countP_append, List.countP_cons,
      Event.isUpgrade]
  · by_cases h2 : env.gReportAtRuntime = true
    · simp [h1, h2, setFlag, emit, upgradeCount, List.countP_append, List.countP_cons,
        Event.isUpgrade]
    · simp [h1, h2, setFlag, emit, upgradeCount, List.countP_append, List.countP_cons,
        Event.isUpgrade]

theorem recordLoop_diverted (env : Env) (cur : Record) (ci : CheckInfo) (fuel it : Nat)
    (d : Int) (s : St) (n : List LogEntry) (k : Nat)
    (hn : ∀ e ∈ n, e.ev.isConsult = true) (hw : s.writeLockHeld = false)
    (hna : (env.pfqUpgrade s.ah s.ticketNum s.readReadContend).res ≠
      PfqUpgradeResult.eAtomicUpgraded) :
    Diverted env s (recordLoop env cur ci fuel it d (ahead n k s)) := by
  cases fuel with
  | zero => rw [recordLoop]; exact Diverted.stop env s _ n k hn (by intro h; cases h)
  | succ fuel =>
    rw [recordLoop]
    show Diverted env s (match s.ah.records with
      | none => _
      | some rs => _)
    cases s.ah.records with
    | none => exact Diverted.stop env s _ n k hn (by intro h; cases h)
    | some rs =>
      dsimp only
      by_cases hit : it = rs.length
      · rw [if_pos hit]; exact Diverted.stop env s _ n k hn (by intro h; cases h)
      · rw [if_neg hit]
        cases rs.get? it with
        | none => exact Diverted.stop env s _ n k hn (by intro h; cases h)
        | some hist =>
          dsimp only
          simp only [emit_ahead]
          have hn2 : ∀ e ∈ (n ++ [⟨Event.happensBefore hist.label cur.label,
              s.writeLockHeld⟩]) ++ [⟨Event.analyzeRaceCondition hist
                (env.analyzeRaceCondition hist cur
                  (env.happensBefore hist.label cur.label d).1
                  (env.happensBefore hist.label cur.label d).2), s.writeLockHeld⟩],
              e.ev.isConsult = true := by
            intro e he
            simp only [List.mem_append, List.mem_singleton] at he
            rcases he with (he | he) | he
            · exact hn e he
            · subst he; rfl
            · subst he; rfl
          split
          · refine Or.inr ⟨(by intro h; cases h), ?_⟩
            dsimp only
            rw [upgradeCount_raceFound]
            exact upgradeCount_consults s.trace _ hn2
          · have hn3 : ∀ e ∈ ((n ++ [⟨Event.happensBefore hist.label cur.label,
                s.writeLockHeld⟩]) ++ [⟨Event.analyzeRaceCondition hist
                  (env.analyzeRaceCondition hist cur
                    (env.happensBefore hist.label cur.label d).1
                    (env.happensBefore hist.label cur.label d).2), s.writeLockHeld⟩]) ++
                [⟨Event.manageAccessRecord hist, s.writeLockHeld⟩],
                e.ev.isConsult = true := by
              intro e he
              rw [List.mem_append, List.mem_singleton] at he
              rcases he with he | he
              · exact hn2 e he
              · subst he; rfl
            have hwa : ∀ m, ¬ (ahead m k s).writeLockHeld = true := by
              intro m
              show ¬ s.writeLockHeld = true
              rw [hw]; simp
            rw [if_neg (hwa _)]
            rw [upgradeHelper_ahead env _ k s hw hna]
            dsimp only
            rw [if_pos rfl]
            exact Or.inl ⟨rfl, _, k, hn3, rfl⟩

end Romp
namespace Romp

theorem historyStage_diverted (env : Env) (cur : Record) (ci : CheckInfo) (fuel : Nat)
    (s : St) (n : List LogEntry) (k : Nat)
    (hn : ∀ e ∈ n, e.ev.isConsult = true) (hw : s.writeLockHeld = false)
    (hna : (env.pfqUpgrade s.ah s.ticketNum s.readReadContend).res ≠
      PfqUpgradeResult.eAtomicUpgraded) :
    Diverted env s (historyStage env cur ci fuel (ahead n k s)) := by
  unfold historyStage
  show Diverted env s (match s.ah.records with
    | none => _
    | some rs => _)
  cases s.ah.records with
  | none => exact Diverted.stop env s _ n k hn (by intro h; cases h)
  | some rs =>
    dsimp only
    by_cases he : rs.isEmpty = true
    · rw [if_pos he, upgradeHelper_ahead env n k s hw hna]
      dsimp only
      rw [if_pos rfl]
      exact Or.inl ⟨rfl, n, k, hn, rfl⟩
    · rw [if_neg he]
      exact recordLoop_diverted env cur ci fuel 0 _ s n k hn hw hna

theorem recycledStage_diverted (env : Env) (cur : Record) (ci : CheckInfo) (fuel : Nat)
    (s : St) (n : List LogEntry) (k : Nat)
    (hn : ∀ e ∈ n, e.ev.isConsult = true) (hw : s.writeLockHeld = false)
    (hna : (env.pfqUpgrade s.ah s.ticketNum s.readReadContend).res ≠
      PfqUpgradeResult.eAtomicUpgraded) :
    Diverted env s (recycledStage env cur ci fuel (ahead n k s)) := by
  unfold recycledStage
  show Diverted env s (if s.ah.memIsRecycled = true then _ else _)
  by_cases hm : s.ah.memIsRecycled = true
  · rw [if_pos hm, upgradeHelper_ahead env n k s hw hna]
    dsimp only
    rw [if_pos rfl]
    exact Or.inl ⟨rfl, n, k, hn, rfl⟩
  · rw [if_neg hm]
    exact historyStage_diverted env cur ci fuel s n k hn hw hna

theorem foundStage_diverted (env : Env) (cur : Record) (ci : CheckInfo) (fuel : Nat)
    (s : St) (n : List LogEntry) (k : Nat)
    (hn : ∀ e ∈ n, e.ev.isConsult = true) (hw : s.writeLockHeld = false)
    (hna : (env.pfqUpgrade s.ah s.ticketNum s.readReadContend).res ≠
      PfqUpgradeResult.eAtomicUpgraded) :
    Diverted env s (foundStage env cur ci fuel (ahead n k s)) := by
  unfold foundStage
  show Diverted env s (match s.ah.records with
    | none => _
    | some rs => _)
  cases s.ah.records with
  | none => exact Diverted.stop env s _ n k hn (by intro h; cases h)
  | some rs =>
    dsimp only
    have hb : ∃ k1, (if rs.length > env.REC_NUM_THRESHOLD then bumpOverflow (ahead n k s)
        else ahead n k s) = ahead n k1 s := by
      split
      · exact ⟨k + 1, rfl⟩
      · exact ⟨k, rfl⟩
    obtain ⟨k1, hk1⟩ := hb
    rw [hk1]
    show Diverted env s (if s.ah.dataRaceFound = true then _ else _)
    by_cases hf : s.ah.dataRaceFound = true
    · rw [if_pos hf]
      by_cases he : (!rs.isEmpty) = true
      · rw [if_pos he, upgradeHelper_ahead env n k1 s hw hna]
        dsimp only
        rw [if_pos rfl]
        exact Or.inl ⟨rfl, n, k1, hn, rfl⟩
      · rw [if_neg he]
        exact Diverted.stop env s _ n k1 hn (by intro h; cases h)
    · rw [if_neg hf]
      exact recycledStage_diverted env cur ci fuel s n k1 hn hw hna

theorem pass_diverted (env : Env) (cur : Record) (ci : CheckInfo) (fuel : Nat) (s : St)
    (hw : s.writeLockHeld = false)
    (hna : (env.pfqUpgrade s.ah s.ticketNum s.readReadContend).res ≠
      PfqUpgradeResult.eAtomicUpgraded) :
    Diverted env s (pass env cur ci fuel s) := by
  have hs : s = ahead [] 0 s := by simp [ahead]
  have hnil : ∀ e ∈ ([] : List LogEntry), e.ev.isConsult = true := by
    intro e he; cases he
  unfold pass
  split
  · exact Or.inr ⟨(by intro h; cases h), rfl⟩
  · cases hrec : s.ah.peekRecords with
    | none =>
      dsimp only
      have := Diverted.restart env s [] 0 hnil hw hna
      rw [← hs] at this
      rw [upgradeHelper_of_free env s hw]
      rw [upgradeHelper_of_free env s hw] at this
      dsimp only at this ⊢
      rw [if_pos (by simpa using hna)]
      exact this
    | some rs =>
      dsimp only
      have := foundStage_diverted env cur ci fuel s [] 0 hnil hw hna
      rw [← hs] at this
      exact this

theorem upgradeCount_check_finish (s : St) :
    upgradeCount (check_finish s).2.trace = upgradeCount s.trace := by
  unfold check_finish
  dsimp only
  have h1 : upgradeCount (if s.writeLockHeld = true then emit Event.pfqRWLockWriteUnlock s
        else if s.readLockHeld = true then emit (Event.pfqRWLockReadUnlock s.ticketNum) s
        else s).trace = upgradeCount s.trace := by
    split
    · simp [emit, upgradeCount, List.countP_append, List.countP_cons, Event.isUpgrade]
    · split
      · simp [emit, upgradeCount, List.countP_append, List.countP_cons, Event.isUpgrade]
      · rfl
  generalize (if s.writeLockHeld = true then emit Event.pfqRWLockWriteUnlock s
    else if s.readLockHeld = true then emit (Event.pfqRWLockReadUnlock s.ticketNum) s
    else s) = s1 at h1 ⊢
  rw [← h1]
  split
  · simp [recordHistoryMap, emit, upgradeCount, List.countP_append, List.countP_cons,
      Event.isUpgrade]
  · simp [emit, upgradeCount, List.countP_append, List.countP_cons, Event.isUpgrade]

theorem restartState_enter (env : Env) (g : Globals) (ah : AccessHistory)
    (hna : (env.pfqUpgrade (enter env g ah).ah env.pfqRWLockReadLock.2 false).res ≠
      PfqUpgradeResult.eAtomicUpgraded) :
    restartState env (enter env g ah) = resumeAfterUpgrade env g ah := by
  have h1 : (enter env g ah).ticketNum = env.pfqRWLockReadLock.2 := rfl
  have h2 : (enter env g ah).readReadContend = false := rfl
  unfold restartState upgraded resumeAfterUpgrade
  rw [h1, h2, if_neg hna, if_neg hna]
  rfl

/-- C5: when the call invokes `pfqUpgrade` and the lock answers non-atomically on the slot as
entered, the call ends exactly as the driver body run from the label `rollback` with the
writer lock held on the slot that `pfqUpgrade` left: same exit, same final slot, same race
verdict (global flag, race count, deferred report list); the final state differs from that
run only in the log prefix (the read lock, consultations made before the upgrade, the
upgrade) and in the overflow counter. -/
theorem nonatomic_upgrade_restarts_on_new_slot (env : Env) (fuel : Nat) (g : Globals)
    (accessHistory : AccessHistory) (curLabel : Label) (curLockSet : LockSet)
    (checkInfo : CheckInfo)
    (hup : 1 ≤ upgradeCount
      (checkDataRace env (fuel + 1) g accessHistory curLabel curLockSet checkInfo).2.trace)
    (hna : (env.pfqUpgrade (enter env g accessHistory).ah env.pfqRWLockReadLock.2 false).res ≠
      PfqUpgradeResult.eAtomicUpgraded) :
    (checkDataRace env (fuel + 1) g accessHistory curLabel curLockSet checkInfo).1 =
      (conclude (rollback env (mkRecord curLabel curLockSet checkInfo) checkInfo fuel
        (resumeAfterUpgrade env g accessHistory))).1 ∧
    (checkDataRace env (fuel + 1) g accessHistory curLabel curLockSet checkInfo).2.ah =
      (conclude (rollback env (mkRecord curLabel curLockSet checkInfo) checkInfo fuel
        (resumeAfterUpgrade env g accessHistory))).2.ah ∧
    (checkDataRace env (fuel + 1) g accessHistory curLabel curLockSet
        checkInfo).2.g.gDataRaceFound =
      (conclude (rollback env (mkRecord curLabel curLockSet checkInfo) checkInfo fuel
        (resumeAfterUpgrade env g accessHistory))).2.g.gDataRaceFound ∧
    (checkDataRace env (fuel + 1) g accessHistory curLabel curLockSet
        checkInfo).2.g.gNumDataRace =
      (conclude (rollback env (mkRecord curLabel curLockSet checkInfo) checkInfo fuel
        (resumeAfterUpgrade env g accessHistory))).2.g.gNumDataRace ∧
    (checkDataRace env (fuel + 1) g accessHistory curLabel curLockSet
        checkInfo).2.g.gDataRaceRecords =
      (conclude (rollback env (mkRecord curLabel curLockSet checkInfo) checkInfo fuel
        (resumeAfterUpgrade env g accessHistory))).2.g.gDataRaceRecords ∧
    ∃ n k, (∀ e ∈ n, e.ev.isConsult = true) ∧
      (checkDataRace env (fuel + 1) g accessHistory curLabel curLockSet checkInfo).2 =
        reframe ((enter env g accessHistory).trace ++ n ++
            [upgradeEntry env (enter env g accessHistory)]) k
          (conclude (rollback env (mkRecord curLabel curLockSet checkInfo) checkInfo fuel
            (resumeAfterUpgrade env g accessHistory))).2 := by
  have hd := pass_diverted env (mkRecord curLabel curLockSet checkInfo) checkInfo fuel
    (enter env g accessHistory) rfl hna
  rw [checkDataRace_eq_conclude] at hup ⊢
  rw [rollback] at hup ⊢
  generalize pass env (mkRecord curLabel curLockSet checkInfo) checkInfo fuel
    (enter env g accessHistory) = r at hd hup ⊢
  obtain ⟨c, s1⟩ := r
  rcases hd with ⟨hc, n, k, hn, hs1⟩ | ⟨hc, hcount⟩
  · dsimp only at hc hs1
    subst hc
    dsimp only
    rw [hs1, restartState_enter env g accessHistory hna, rollback_reframe, conclude_reframe]
    exact ⟨rfl, rfl, rfl, rfl, rfl, n, k, hn, rfl⟩
  · exfalso
    dsimp only at hc hcount
    have h0 : upgradeCount (enter env g accessHistory).trace = 0 := rfl
    rw [h0] at hcount
    cases c with
    | finish =>
      dsimp only at hup
      unfold conclude at hup
      dsimp only at hup
      rw [upgradeCount_check_finish, hcount] at hup
      cases hup
    | restart => exact hc rfl
    | stuck w =>
      dsimp only at hup
      unfold conclude at hup
      dsimp only at hup
      rw [hcount] at hup
      cases hup

theorem nonatomic_upgrade_restarts_on_new_slot_witness :
    1 ≤ upgradeCount (checkDataRace demoEnvContended (3 + 1) demoGlobals demoSlot 0 0 demoCheckTwo).2.trace ∧
    (demoEnvContended.pfqUpgrade (enter demoEnvContended demoGlobals demoSlot).ah
      demoEnvContended.pfqRWLockReadLock.2 false).res ≠ PfqUpgradeResult.eAtomicUpgraded ∧
    (checkDataRace demoEnvContended (3 + 1) demoGlobals demoSlot 0 0 demoCheckTwo).1 =
      (conclude (rollback demoEnvContended (mkRecord 0 0 demoCheckTwo) demoCheckTwo 3
        (resumeAfterUpgrade demoEnvContended demoGlobals demoSlot))).1 ∧
    (checkDataRace demoEnvContended (3 + 1) demoGlobals demoSlot 0 0 demoCheckTwo).2.ah =
      (conclude (rollback demoEnvContended (mkRecord 0 0 demoCheckTwo) demoCheckTwo 3
        (resumeAfterUpgrade demoEnvContended demoGlobals demoSlot))).2.ah ∧
    (checkDataRace demoEnvContended (3 + 1) demoGlobals demoSlot 0 0 demoCheckTwo).2.g.gDataRaceFound =
      (conclude (rollback demoEnvContended (mkRecord 0 0 demoCheckTwo) demoCheckTwo 3
        (resumeAfterUpgrade demoEnvContended demoGlobals demoSlot))).2.g.gDataRaceFound ∧
    (checkDataRace demoEnvContended (3 + 1) demoGlobals demoSlot 0 0 demoCheckTwo).2.g.gNumDataRace =
      (conclude (rollback demoEnvContended (mkRecord 0 0 demoCheckTwo) demoCheckTwo 3
        (resumeAfterUpgrade demoEnvContended demoGlobals demoSlot))).2.g.gNumDataRace ∧
    (checkDataRace demoEnvContended (3 + 1) demoGlobals demoSlot 0 0 demoCheckTwo).2.g.gDataRaceRecords =
      (conclude (rollback demoEnvContended (mkRecord 0 0 demoCheckTwo) demoCheckTwo 3
        (resumeAfterUpgrade demoEnvContended demoGlobals demoSlot))).2.g.gDataRaceRecords ∧
    ∃ n k, (∀ e ∈ n, e.ev.isConsult = true) ∧
      (checkDataRace demoEnvContended (3 + 1) demoGlobals demoSlot 0 0 demoCheckTwo).2 =
        reframe ((enter demoEnvContended demoGlobals demoSlot).trace ++ n ++
            [upgradeEntry demoEnvContended (enter demoEnvContended demoGlobals demoSlot)]) k
          (conclude (rollback demoEnvContended (mkRecord 0 0 demoCheckTwo) demoCheckTwo 3
        (resumeAfterUpgrade demoEnvContended demoGlobals demoSlot))).2 :=
  ⟨by decide, by decide,
    nonatomic_upgrade_restarts_on_new_slot demoEnvContended 3 demoGlobals demoSlot 0 0
      demoCheckTwo (by decide) (by decide)⟩

/-- On the contended demo the restarted traversal sees the other thread's write, finds the
race, and leaves the slot marked with that record in place. -/
theorem demo_contended_outcome :
    (checkDataRace demoEnvContended (3 + 1) demoGlobals demoSlot 0 0 demoCheckTwo).1 = Exit.returned ∧
    (checkDataRace demoEnvContended (3 + 1) demoGlobals demoSlot 0 0 demoCheckTwo).2.ah.dataRaceFound = true ∧
    (checkDataRace demoEnvContended (3 + 1) demoGlobals demoSlot 0 0 demoCheckTwo).2.ah.records = some [demoRecord] ∧
    reportCount (checkDataRace demoEnvContended (3 + 1) demoGlobals demoSlot 0 0 demoCheckTwo).2.trace = 1 := by
  decide

/-! ## Carrying a predicate through the driver body -/

theorem DriverRule.applyDecision_rule {env : Env} {cur : Record} {ci : CheckInfo}
    {P Q : St → Prop} (R : DriverRule env cur ci P Q) (st : AccessHistoryState)
    (a : RecordManagement) (it it1 : Nat) (s s1 : St) (h : P s)
    (hw : s.writeLockHeld = true)
    (he : Romp.applyDecision env cur st a it s = some (it1, s1)) :
    P s1 ∧ s1.writeLockHeld = true := by
  unfold Romp.applyDecision at he
  dsimp only at he
  split at he
  · cases he
  · simp only [Option.some.injEq, Prod.mk.injEq] at he
    rw [← he.2]
    exact ⟨R.rewrite _ _ _ (R.relabel s st h hw) hw (Or.inr (Or.inr ⟨a, rfl⟩)), hw⟩

theorem DriverRule.recordLoop_rule {env : Env} {cur : Record} {ci : CheckInfo}
    {P Q : St → Prop} (R : DriverRule env cur ci P Q) :
    ∀ (fuel it : Nat) (d : Int) (s : St), P s →
      P (Romp.recordLoop env cur ci fuel it d s).2 ∨
        ((Romp.recordLoop env cur ci fuel it d s).1 = Ctl.finish ∧
          Q (Romp.recordLoop env cur ci fuel it d s).2)
  | 0, _, _, s, h => by rw [Romp.recordLoop]; exact Or.inl h
  | fuel + 1, it, d, s, h => by
    rw [Romp.recordLoop]
    split
    · exact Or.inl h
    · rename_i rs hrs
      split
      · exact Or.inl h
      · split
        · exact Or.inl h
        · rename_i _ hist hget
          dsimp only
          split
          · rename_i hrace
            exact Or.inr ⟨rfl, R.race s rs it hist d h hrs hget hrace⟩
          · rename_i hrace
            have h3 : P (Romp.emit (Event.manageAccessRecord hist)
                (Romp.emit (Event.analyzeRaceCondition hist
                  (env.analyzeRaceCondition hist cur
                    (env.happensBefore hist.label cur.label d).1
                    (env.happensBefore hist.label cur.label d).2))
                  (Romp.emit (Event.happensBefore hist.label cur.label) s))) := by
              refine R.consult _ (Event.manageAccessRecord hist) ?_ rfl rfl
              refine R.consult _ (Event.analyzeRaceCondition hist _) ?_ rfl
                (by simpa [Event.isDetection] using hrace)
              exact R.consult _ (Event.happensBefore hist.label cur.label) h rfl rfl
            split
            · rename_i hw
              split
              · exact Or.inl h3
              · rename_i it1 s4 he
                exact DriverRule.recordLoop_rule R fuel it1 _ s4
                  (R.applyDecision_rule _ _ _ _ _ _ h3 hw he).1
            · split
              · exact Or.inl (R.upgrade _ h3)
              · split
                · exact Or.inl (R.upgrade _ h3)
                · rename_i it1 s4 he
                  exact DriverRule.recordLoop_rule R fuel it1 _ s4
                    (R.applyDecision_rule _ _ _ _ _ _ (R.upgrade _ h3)
                      (upgradeHelper_held env _) he).1

theorem DriverRule.historyStage_rule {env : Env} {cur : Record} {ci : CheckInfo}
    {P Q : St → Prop} (R : DriverRule env cur ci P Q) (fuel : Nat) (s : St) (h : P s) :
    P (Romp.historyStage env cur ci fuel s).2 ∨
      ((Romp.historyStage env cur ci fuel s).1 = Ctl.finish ∧
        Q (Romp.historyStage env cur ci fuel s).2) := by
  unfold Romp.historyStage
  cases hrec : s.ah.records with
  | none => exact Or.inl h
  | some rs =>
    dsimp only
    by_cases he : rs.isEmpty = true
    · rw [if_pos he]
      left
      by_cases hu : (Romp.upgradeHelper env s).1 = true
      · rw [if_pos hu]; exact R.upgrade s h
      · rw [if_neg hu]
        generalize (if ci.isWrite = true then AccessHistoryState.eSingleWrite
          else AccessHistoryState.eSingleRead) = st
        have h1 := R.relabel _ st (R.upgrade s h) (upgradeHelper_held env s)
        split
        · exact h1
        · exact R.rewrite _ _ _ h1 (upgradeHelper_held env s) (Or.inr (Or.inl ⟨cur, rfl⟩))
    · rw [if_neg he]
      exact DriverRule.recordLoop_rule R fuel 0 _ s h

theorem DriverRule.recycledStage_rule {env : Env} {cur : Record} {ci : CheckInfo}
    {P Q : St → Prop} (R : DriverRule env cur ci P Q) (fuel : Nat) (s : St) (h : P s) :
    P (Romp.recycledStage env cur ci fuel s).2 ∨
      ((Romp.recycledStage env cur ci fuel s).1 = Ctl.finish ∧
        Q (Romp.recycledStage env cur ci fuel s).2) := by
  unfold Romp.recycledStage
  by_cases hm : s.ah.memIsRecycled = true
  · rw [if_pos hm]
    dsimp only
    by_cases hu : (Romp.upgradeHelper env s).1 = true
    · rw [if_pos hu]; exact Or.inl (R.upgrade s h)
    · rw [if_neg hu]
      have h1 := R.reset _ (R.upgrade s h) (upgradeHelper_held env s)
      split
      · exact Or.inl h1
      · exact DriverRule.historyStage_rule R fuel _
          (R.rewrite _ _ _ h1 (upgradeHelper_held env s) (Or.inl rfl))
  · rw [if_neg hm]
    exact DriverRule.historyStage_rule R fuel s h

theorem DriverRule.foundStage_rule {env : Env} {cur : Record} {ci : CheckInfo}
    {P Q : St → Prop} (R : DriverRule env cur ci P Q) (fuel : Nat) (s : St) (h : P s) :
    P (Romp.foundStage env cur ci fuel s).2 ∨
      ((Romp.foundStage env cur ci fuel s).1 = Ctl.finish ∧
        Q (Romp.foundStage env cur ci fuel s).2) := by
  unfold Romp.foundStage
  cases hrec : s.ah.records with
  | none => exact Or.inl h
  | some rs =>
    dsimp only
    have h1 : P (if rs.length > env.REC_NUM_THRESHOLD then Romp.bumpOverflow s else s) := by
      split
      · exact R.overflow s h
      · exact h
    generalize (if rs.length > env.REC_NUM_THRESHOLD then Romp.bumpOverflow s else s) = s1
      at h1 ⊢
    by_cases hf : s1.ah.dataRaceFound = true
    · rw [if_pos hf]
      left
      by_cases he : (!rs.isEmpty) = true
      · rw [if_pos he]
        by_cases hu : (Romp.upgradeHelper env s1).1 = true
        · rw [if_pos hu]; exact R.upgrade s1 h1
        · rw [if_neg hu]
          split
          · exact R.upgrade s1 h1
          · exact R.rewrite _ _ _ (R.upgrade s1 h1) (upgradeHelper_held env s1) (Or.inl rfl)
      · rw [if_neg he]; exact h1
    · rw [if_neg hf]
      exact DriverRule.recycledStage_rule R fuel s1 h1

theorem DriverRule.pass_rule {env : Env} {cur : Record} {ci : CheckInfo}
    {P Q : St → Prop} (R : DriverRule env cur ci P Q) (fuel : Nat) (s : St) (h : P s) :
    P (Romp.pass env cur ci fuel s).2 ∨
      ((Romp.pass env cur ci fuel s).1 = Ctl.finish ∧ Q (Romp.pass env cur ci fuel s).2) := by
  unfold Romp.pass
  split
  · exact Or.inl h
  · cases hrec : s.ah.peekRecords with
    | none =>
      dsimp only
      by_cases hu : (Romp.upgradeHelper env s).1 = true
      · rw [if_pos hu]; exact Or.inl (R.upgrade s h)
      · rw [if_neg hu]
        exact DriverRule.foundStage_rule R fuel _
          (R.alloc _ (R.upgrade s h) (upgradeHelper_held env s))
    | some rs => exact DriverRule.foundStage_rule R fuel s h

/-- The rule: a predicate kept by every step of the body holds where the body stops, unless
the race branch was taken, and then the second predicate holds at `check_finish`. -/
theorem DriverRule.rollback_rule {env : Env} {cur : Record} {ci : CheckInfo}
    {P Q : St → Prop} (R : DriverRule env cur ci P Q) :
    ∀ (fuel : Nat) (s : St), P s →
      P (Romp.rollback env cur ci fuel s).2 ∨
        ((Romp.rollback env cur ci fuel s).1 = Ctl.finish ∧
          Q (Romp.rollback env cur ci fuel s).2)
  | 0, s, h => by rw [Romp.rollback]; exact Or.inl h
  | fuel + 1, s, h => by
    rw [Romp.rollback]
    have hp := DriverRule.pass_rule R fuel s h
    split
    · rename_i s1 he
      rw [he] at hp
      rcases hp with hp | ⟨hc, _⟩
      · exact DriverRule.rollback_rule R fuel s1 hp
      · cases hc
    · exact hp

/-! ## At most one upgrade and one restart -/

theorem NoLoopBack.ended (s s1 : St) (c : Ctl) (h : c ≠ Ctl.restart) :
    NoLoopBack s (c, s1) :=
  ⟨fun x => absurd x h, fun _ => h⟩

theorem NoLoopBack.jump (env : Env) (s s1 : St) (hw : s1.writeLockHeld = s.writeLockHeld)
    (hu : (upgradeHelper env s1).1 = true) :
    NoLoopBack s (Ctl.restart, (upgradeHelper env s1).2) := by
  refine ⟨fun _ => upgradeHelper_held env s1, fun h => ?_⟩
  rw [upgradeHelper_of_held env s1 (by rw [hw]; exact h)] at hu
  cases hu

theorem NoLoopBack.from_later {s s1 : St} {r : Ctl × St} (h : NoLoopBack s1 r)
    (hw : s.writeLockHeld = true → s1.writeLockHeld = true) : NoLoopBack s r :=
  ⟨h.1, fun x => h.2 (hw x)⟩

theorem applyDecision_writeLockHeld (env : Env) (cur : Record) (st : AccessHistoryState)
    (a : RecordManagement) (it it1 : Nat) (s s1 : St)
    (he : applyDecision env cur st a it s = some (it1, s1)) :
    s1.writeLockHeld = s.writeLockHeld := by
  unfold applyDecision at he
  dsimp only at he
  split at he
  · cases he
  · simp only [Option.some.injEq, Prod.mk.injEq] at he
    rw [← he.2]
    rfl

theorem recordLoop_noLoopBack (env : Env) (cur : Record) (ci : CheckInfo) :
    ∀ (fuel it : Nat) (d : Int) (s : St), NoLoopBack s (recordLoop env cur ci fuel it d s)
  | 0, _, _, s => by rw [recordLoop]; exact NoLoopBack.ended s s _ (by intro h; cases h)
  | fuel + 1, it, d, s => by
    rw [recordLoop]
    split
    · exact NoLoopBack.ended s s _ (by intro h; cases h)
    · split
      · exact NoLoopBack.ended s s _ (by intro h; cases h)
      · split
        · exact NoLoopBack.ended s s _ (by intro h; cases h)
        · rename_i hist _
          dsimp only
          split
          · exact NoLoopBack.ended s _ _ (by intro h; cases h)
          · split
            · split
              · exact NoLoopBack.ended s _ _ (by intro h; cases h)
              · rename_i it1 s4 he
                refine (recordLoop_noLoopBack env cur ci fuel it1 _ s4).from_later ?_
                intro hw
                rw [applyDecision_writeLockHeld _ _ _ _ _ _ _ _ he]
                exact hw
            · split
              · rename_i hu
                exact NoLoopBack.jump env s _ rfl hu
              · split
                · exact NoLoopBack.ended s _ _ (by intro h; cases h)
                · rename_i it1 s4 he
                  refine (recordLoop_noLoopBack env cur ci fuel it1 _ s4).from_later ?_
                  intro _
                  rw [applyDecision_writeLockHeld _ _ _ _ _ _ _ _ he]
                  exact upgradeHelper_held env _

theorem historyStage_noLoopBack (env : Env) (cur : Record) (ci : CheckInfo) (fuel : Nat)
    (s : St) : NoLoopBack s (historyStage env cur ci fuel s) := by
  unfold historyStage
  cases hrec : s.ah.records with
  | none => exact NoLoopBack.ended s s _ (by intro h; cases h)
  | some rs =>
    dsimp only
    by_cases he : rs.isEmpty = true
    · rw [if_pos he]
      by_cases hu : (upgradeHelper env s).1 = true
      · rw [if_pos hu]; exact NoLoopBack.jump env s s rfl hu
      · rw [if_neg hu]
        generalize (if ci.isWrite = true then AccessHistoryState.eSingleWrite
          else AccessHistoryState.eSingleRead) = st
        split
        · exact NoLoopBack.ended s _ _ (by intro h; cases h)
        · exact NoLoopBack.ended s _ _ (by intro h; cases h)
    · rw [if_neg he]
      exact recordLoop_noLoopBack env cur ci fuel 0 _ s

theorem recycledStage_noLoopBack (env : Env) (cur : Record) (ci : CheckInfo) (fuel : Nat)
    (s : St) : NoLoopBack s (recycledStage env cur ci fuel s) := by
  unfold recycledStage
  by_cases hm : s.ah.memIsRecycled = true
  · rw [if_pos hm]
    dsimp only
    by_cases hu : (upgradeHelper env s).1 = true
    · rw [if_pos hu]; exact NoLoopBack.jump env s s rfl hu
    · rw [if_neg hu]
      split
      · exact NoLoopBack.ended s _ _ (by intro h; cases h)
      · refine (historyStage_noLoopBack env cur ci fuel _).from_later ?_
        intro _
        exact upgradeHelper_held env s
  · rw [if_neg hm]
    exact historyStage_noLoopBack env cur ci fuel s

theorem foundStage_noLoopBack (env : Env) (cur : Record) (ci : CheckInfo) (fuel : Nat)
    (s : St) : NoLoopBack s (foundStage env cur ci fuel s) := by
  unfold foundStage
  cases hrec : s.ah.records with
  | none => exact NoLoopBack.ended s s _ (by intro h; cases h)
  | some rs =>
    dsimp only
    have h1 : (if rs.length > env.REC_NUM_THRESHOLD then bumpOverflow s
        else s).writeLockHeld = s.writeLockHeld := by
      split <;> rfl
    generalize (if rs.length > env.REC_NUM_THRESHOLD then bumpOverflow s else s) = s1
      at h1 ⊢
    by_cases hf : s1.ah.dataRaceFound = true
    · rw [if_pos hf]
      by_cases he : (!rs.isEmpty) = true
      · rw [if_pos he]
        by_cases hu : (upgradeHelper env s1).1 = true
        · rw [if_pos hu]; exact NoLoopBack.jump env s s1 h1 hu
        · rw [if_neg hu]
          split
          · exact NoLoopBack.ended s _ _ (by intro h; cases h)
          · exact NoLoopBack.ended s _ _ (by intro h; cases h)
      · rw [if_neg he]; exact NoLoopBack.ended s _ _ (by intro h; cases h)
    · rw [if_neg hf]
      exact (recycledStage_noLoopBack env cur ci fuel s1).from_later
        (fun h => by rw [h1]; exact h)

theorem pass_noLoopBack (env : Env) (cur : Record) (ci : CheckInfo) (fuel : Nat)
    (s : St) : NoLoopBack s (pass env cur ci fuel s) := by
  unfold pass
  split
  · exact NoLoopBack.ended s s _ (by intro h; cases h)
  · cases hrec : s.ah.peekRecords with
    | none =>
      dsimp only
      by_cases hu : (upgradeHelper env s).1 = true
      · rw [if_pos hu]; exact NoLoopBack.jump env s s rfl hu
      · rw [if_neg hu]
        refine (foundStage_noLoopBack env cur ci fuel _).from_later ?_
        intro _
        exact upgradeHelper_held env s
    | some rs => exact foundStage_noLoopBack env cur ci fuel s

theorem restartCount_of_held (env : Env) (cur : Record) (ci : CheckInfo) (fuel : Nat)
    (s : St) (hw : s.writeLockHeld = true) : restartCount env cur ci fuel s = 0 := by
  cases fuel with
  | zero => rfl
  | succ fuel =>
    rw [restartCount]
    have h := (pass_noLoopBack env cur ci fuel s).2 hw
    split
    · rename_i s1 he
      rw [he] at h
      exact absurd rfl h
    · rfl

theorem restartCount_le_one (env : Env) (cur : Record) (ci : CheckInfo) (fuel : Nat)
    (s : St) : restartCount env cur ci fuel s ≤ 1 := by
  cases fuel with
  | zero => exact Nat.zero_le _
  | succ fuel =>
    rw [restartCount]
    have h := (pass_noLoopBack env cur ci fuel s).1
    split
    · rename_i s1 he
      rw [he] at h
      rw [restartCount_of_held env cur ci fuel s1 (h rfl)]
    · exact Nat.zero_le _

theorem upgradeCount_checkDataRace (env : Env) (fuel : Nat) (g : Globals)
    (ah : AccessHistory) (l : Label) (ls : LockSet) (ci : CheckInfo) :
    upgradeCount (checkDataRace env fuel g ah l ls ci).2.trace ≤ 1 := by
  obtain ⟨s, hinv, hfin | ⟨w, hst⟩⟩ := checkDataRace_cases env fuel g ah l ls ci
  · rw [hfin, upgradeCount_check_finish, hinv.upgrades]
    split <;> simp
  · rw [hst]
    show upgradeCount s.trace ≤ 1
    rw [hinv.upgrades]
    split <;> simp

/-- C18: in every `checkDataRace` call `pfqUpgrade` is logged at most once and the jump back
to `rollback` is taken at most once; `upgradeHelper` always ends with the writer lock held,
with the writer lock held it returns `false` without calling `pfqUpgrade`, and no traversal
entered with the writer lock held ends in a restart. -/
theorem at_most_one_upgrade_and_restart (env : Env) (fuel : Nat) (g : Globals)
    (accessHistory : AccessHistory) (curLabel : Label) (curLockSet : LockSet)
    (checkInfo : CheckInfo) :
    upgradeCount
      (checkDataRace env fuel g accessHistory curLabel curLockSet checkInfo).2.trace ≤ 1 ∧
    restartCount env (mkRecord curLabel curLockSet checkInfo) checkInfo fuel
      (enter env g accessHistory) ≤ 1 ∧
    (∀ s : St, (upgradeHelper env s).2.writeLockHeld = true) ∧
    (∀ s : St, s.writeLockHeld = true →
      (upgradeHelper env s).1 = false ∧ (upgradeHelper env s).2.trace = s.trace) ∧
    (∀ (n : Nat) (s : St), s.writeLockHeld = true →
      (pass env (mkRecord curLabel curLockSet checkInfo) checkInfo n s).1 ≠ Ctl.restart ∧
      restartCount env (mkRecord curLabel curLockSet checkInfo) checkInfo n s = 0) := by
  refine ⟨upgradeCount_checkDataRace env fuel g accessHistory curLabel curLockSet checkInfo,
    restartCount_le_one _ _ _ _ _, upgradeHelper_held env, ?_, ?_⟩
  · intro s hw
    rw [upgradeHelper_of_held env s hw]
    exact ⟨rfl, rfl⟩
  · intro n s hw
    exact ⟨(pass_noLoopBack env _ checkInfo n s).2 hw, restartCount_of_held env _ _ n s hw⟩

/-- With a non-atomic upgrade the bound is attained: one upgrade, one jump back. -/
theorem demo_restart_once :
    restartCount demoEnvNonAtomic (mkRecord 1 0 demoCheck) demoCheck 5
      (enter demoEnvNonAtomic demoGlobals demoSlot) = 1 ∧
    upgradeCount (checkDataRace demoEnvNonAtomic 5 demoGlobals demoSlot 1 0 demoCheck).2.trace =
      1 := by
  decide

/-! ## Which steps are taken under the writer lock -/

theorem GuardedBy.congr_guarded {c : Event → Bool} {s : St} (h : GuardedBy c s) (s1 : St)
    (ht : s1.trace = s.trace) (hw : s1.writeLockHeld = s.writeLockHeld) :
    GuardedBy c s1 := by
  constructor
  · rw [ht]; exact h.stamped
  · rw [ht]; exact h.placed
  · rw [ht, hw]; exact h.held

theorem GuardedBy.emit_guarded {c : Event → Bool} {s : St} (h : GuardedBy c s) (e : Event)
    (hc : c e = true → s.writeLockHeld = true) (hu : e.isUnlock = false)
    (hg : e.isUpgrade = false) : GuardedBy c (Romp.emit e s) := by
  constructor
  · intro x hx hcx
    simp only [Romp.emit, List.mem_append, List.mem_singleton] at hx
    rcases hx with hx | hx
    · exact h.stamped x hx hcx
    · subst hx; exact hc hcx
  · intro pre x post hsplit hcx
    simp only [Romp.emit] at hsplit
    rcases snoc_eq_split _ _ _ _ _ hsplit with ⟨_, hpre, hx⟩ | ⟨post1, _, ht⟩
    · subst hpre; subst hx
      rw [h.held]; exact hc hcx
    · exact h.placed pre x post1 ht hcx
  · show writerHeldAfter (s.trace ++ [LogEntry.mk e s.writeLockHeld]) = s.writeLockHeld
    rw [writerHeldAfter_snoc]
    cases e <;> simp_all [Event.isUnlock, Event.isUpgrade, h.held]

theorem GuardedBy.upgradeHelper_guarded {c : Event → Bool} {s : St} (h : GuardedBy c s)
    (env : Env) (hc : ∀ e, c e = true → e.isWriterOnly = true) :
    GuardedBy c (Romp.upgradeHelper env s).2 := by
  cases hw : s.writeLockHeld
  · rw [upgradeHelper_of_free env s hw]
    have ht : (upgraded env s).trace = s.trace ++ [⟨Event.pfqUpgrade s.ticketNum
          (env.pfqUpgrade s.ah s.ticketNum s.readReadContend).res, false⟩] := rfl
    have hnc : c (Event.pfqUpgrade s.ticketNum
        (env.pfqUpgrade s.ah s.ticketNum s.readReadContend).res) = true → False := by
      intro hx
      have := hc _ hx
      simp [Event.isWriterOnly] at this
    constructor
    · intro x hx hcx
      rw [ht] at hx
      simp only [List.mem_append, List.mem_singleton] at hx
      rcases hx with hx | hx
      · exact h.stamped x hx hcx
      · subst hx; exact absurd hcx (fun y => hnc y)
    · intro pre x post hsplit hcx
      rw [ht] at hsplit
      rcases snoc_eq_split _ _ _ _ _ hsplit with ⟨_, _, hx⟩ | ⟨post1, _, ht1⟩
      · subst hx; exact absurd hcx (fun y => hnc y)
      · exact h.placed pre x post1 ht1 hcx
    · rw [ht, writerHeldAfter_snoc]
      rfl
  · rw [upgradeHelper_of_held env s hw]
    exact h.congr_guarded _ rfl rfl

theorem GuardedBy.withGlobals_guarded {c : Event → Bool} {s : St} (h : GuardedBy c s) (g : Globals) :
    GuardedBy c { s with g := g } :=
  h.congr_guarded _ rfl rfl

theorem GuardedBy.raceFound_guarded {c : Event → Bool} {s : St} (h : GuardedBy c s)
    (hc : ∀ e, c e = true → e.isWriterOnly = true) (env : Env) (ci : CheckInfo)
    (hist cur : Record) : GuardedBy c (Romp.raceFound env ci hist cur s) := by
  have hno : ∀ e : Event, e.isWriterOnly = false → (c e = true → ∀ s : St,
      s.writeLockHeld = true) := by
    intro e he hx
    have := hc e hx
    rw [he] at this
    cases this
  have hflag : ∀ s1 : St, GuardedBy c s1 →
      GuardedBy c (Romp.setFlag AccessHistoryFlag.eDataRaceFound s1) := by
    intro s1 h1
    show GuardedBy c (Romp.emit _ _)
    refine GuardedBy.emit_guarded ?_ _ (fun hx => hno _ (by rfl) hx _) rfl rfl
    exact h1.congr_guarded _ rfl rfl
  unfold Romp.raceFound
  apply hflag
  split
  · refine GuardedBy.emit_guarded ?_ _ (fun hx => hno _ (by rfl) hx _) rfl rfl
    refine GuardedBy.emit_guarded (GuardedBy.withGlobals_guarded ?_ _) _
      (fun hx => hno _ (by rfl) hx _) rfl rfl
    refine GuardedBy.emit_guarded ?_ _ (fun hx => hno _ (by rfl) hx _) rfl rfl
    exact h.congr_guarded _ rfl rfl
  · split
    · refine GuardedBy.emit_guarded ?_ _ (fun hx => hno _ (by rfl) hx _) rfl rfl
      exact h.congr_guarded _ rfl rfl
    · exact h.congr_guarded _ rfl rfl

theorem GuardedBy.guarded_rule (c : Event → Bool) (hc : ∀ e, c e = true → e.isWriterOnly = true)
    (env : Env) (cur : Record) (ci : CheckInfo) :
    DriverRule env cur ci (GuardedBy c) (GuardedBy c) := by
  have hno : ∀ e : Event, e.isWriterOnly = false → (c e = true → ∀ s : St,
      s.writeLockHeld = true) := by
    intro e he hx
    have := hc e hx
    rw [he] at this
    cases this
  constructor
  · intro s e h hcons _
    refine h.emit_guarded e (fun hx => hno e ?_ hx s) ?_ ?_
    all_goals cases e <;> simp_all [Event.isConsult, Event.isWriterOnly, Event.isUnlock,
      Event.isUpgrade]
  · intro s h
    exact h.congr_guarded _ rfl rfl
  · intro s h
    exact h.upgradeHelper_guarded env hc
  · intro s h hw
    exact GuardedBy.emit_guarded (h.congr_guarded { s with ah := s.ah.getRecords } rfl rfl)
      Event.getRecords (fun _ => hw) rfl rfl
  · intro s st h hw
    exact GuardedBy.emit_guarded (h.congr_guarded { s with ah := s.ah.setState st } rfl rfl)
      (Event.setState st) (fun _ => hw) rfl rfl
  · intro s h hw
    exact GuardedBy.emit_guarded (h.congr_guarded { s with ah := s.ah.clearFlags } rfl rfl)
      Event.clearFlags (fun _ => hw) rfl rfl
  · intro s rs e h hw he
    refine GuardedBy.emit_guarded (h.congr_guarded (storeRecords rs s) rfl rfl) e
      (fun _ => hw) ?_ ?_
    all_goals rcases he with he | ⟨r, he⟩ | ⟨a, he⟩ <;> subst he <;> rfl
  · intro s rs it hist d h _ _ _
    have h1 := (h.emit_guarded (Event.happensBefore hist.label cur.label)
      (fun hx => hno _ (by rfl) hx s) rfl rfl).emit_guarded
      (Event.analyzeRaceCondition hist (env.analyzeRaceCondition hist cur
        (env.happensBefore hist.label cur.label d).1
        (env.happensBefore hist.label cur.label d).2))
      (fun hx => hno _ (by rfl) hx _) rfl rfl
    exact h1.raceFound_guarded hc env ci hist cur

/-- A rule carried through a whole call: the body is left in a state that satisfies the lock
discipline and the rule, and the call ends with `check_finish` of that state or stuck in it. -/
theorem DriverRule.checkDataRace_rule {env : Env} {l : Label} {ls : LockSet} {ci : CheckInfo}
    {P Q : St → Prop} (R : DriverRule env (mkRecord l ls ci) ci P Q) (fuel : Nat)
    (g : Globals) (ah : AccessHistory) (h0 : P (enter env g ah)) :
    ∃ s, Inv env.pfqRWLockReadLock.2 s ∧
      ((checkDataRace env fuel g ah l ls ci = check_finish s ∧ (P s ∨ Q s)) ∨
       (∃ w, checkDataRace env fuel g ah l ls ci = (Exit.stuck w, s) ∧ P s)) := by
  have h := Inv.rollback_inv env (mkRecord l ls ci) ci fuel (enter env g ah)
    (Inv.enter_inv env g ah)
  have hr := DriverRule.rollback_rule R fuel (enter env g ah) h0
  unfold checkDataRace
  generalize rollback env (mkRecord l ls ci) ci fuel (enter env g ah) = r at h hr
  obtain ⟨c, s⟩ := r
  refine ⟨s, h, ?_⟩
  cases c with
  | finish =>
    refine Or.inl ⟨rfl, ?_⟩
    rcases hr with hp | ⟨_, hq⟩
    · exact Or.inl hp
    · exact Or.inr hq
  | restart =>
    rcases hr with hp | ⟨hc, _⟩
    · exact Or.inr ⟨_, rfl, hp⟩
    · cases hc
  | stuck w =>
    rcases hr with hp | ⟨hc, _⟩
    · exact Or.inr ⟨w, rfl, hp⟩
    · cases hc

theorem GuardedBy.enter_guarded (c : Event → Bool)
    (hc : ∀ e, c e = true → e.isWriterOnly = true) (env : Env) (g : Globals)
    (ah : AccessHistory) : GuardedBy c (enter env g ah) := by
  have hno : c (Event.pfqRWLockReadLock env.pfqRWLockReadLock.2) = true → False := by
    intro hx
    have := hc _ hx
    simp [Event.isWriterOnly] at this
  constructor
  · intro x hx hcx
    simp only [Romp.enter, List.mem_singleton] at hx
    subst hx
    exact absurd hcx (fun y => hno y)
  · intro pre x post hsplit hcx
    simp only [Romp.enter] at hsplit
    rcases snoc_eq_split [] _ _ _ _ hsplit with ⟨_, _, hx⟩ | ⟨post1, _, ht⟩
    · subst hx; exact absurd hcx (fun y => hno y)
    · simp at ht
  · rfl

/-- Every logged step of a class the driver takes only after `upgradeHelper` is stamped with
the writer lock and lies after `pfqUpgrade` and before the write-unlock. -/
theorem checkDataRace_guarded (c : Event → Bool)
    (hc : ∀ e, c e = true → e.isWriterOnly = true) (env : Env) (fuel : Nat) (g : Globals)
    (ah : AccessHistory) (l : Label) (ls : LockSet) (ci : CheckInfo)
    (pre : List LogEntry) (e : LogEntry) (post : List LogEntry)
    (hsplit : (checkDataRace env fuel g ah l ls ci).2.trace = pre ++ e :: post)
    (hmut : c e.ev = true) :
    e.writeLockHeld = true ∧ writerHeldAfter pre = true := by
  have hw := hc e.ev hmut
  obtain ⟨s, hinv, ⟨hfin, hp⟩ | ⟨w, hst, hp⟩⟩ :=
    DriverRule.checkDataRace_rule (GuardedBy.guarded_rule c hc env (mkRecord l ls ci) ci) fuel g ah
      (GuardedBy.enter_guarded c hc env g ah)
  · have hp : GuardedBy c s := by rcases hp with hp | hp <;> exact hp
    rw [hfin] at hsplit
    obtain ⟨last, hlast, ht⟩ := check_finish_trace s hinv.readHeld
    rw [ht] at hsplit
    have h2 : (s.trace ++ [⟨if s.writeLockHeld then Event.pfqRWLockWriteUnlock
          else Event.pfqRWLockReadUnlock s.ticketNum, s.writeLockHeld⟩]) ++
        [⟨last, s.writeLockHeld⟩] = pre ++ e :: post := by simpa using hsplit
    rcases snoc_eq_split _ _ _ _ _ h2 with ⟨_, _, hx⟩ | ⟨post1, _, ht1⟩
    · subst hx
      rcases hlast with hl | hl <;> subst hl <;> simp [Event.isWriterOnly] at hw
    · rcases snoc_eq_split _ _ _ _ _ ht1 with ⟨_, _, hx⟩ | ⟨post2, _, ht2⟩
      · subst hx
        cases hwl : s.writeLockHeld <;> simp [hwl, Event.isWriterOnly] at hw
      · exact ⟨hp.stamped e (by rw [ht2]; simp) hmut, hp.placed pre e post2 ht2 hmut⟩
  · rw [hst] at hsplit
    exact ⟨hp.stamped e (by rw [show s.trace = pre ++ e :: post from hsplit]; simp) hmut,
      hp.placed pre e post hsplit hmut⟩

/-- C20, as stated, fails: a call that detects a race without having upgraded writes the
race flag of the state word while it holds the reader lock only; the `setFlag` entry of its
log is stamped with `writeLockHeld` false and no `pfqUpgrade` precedes it. -/
theorem race_flag_set_under_reader_lock :
    ∃ pre e post,
      (checkDataRace demoEnv 5 demoGlobals demoSlotOne 0 0 demoCheckTwo).2.trace =
        pre ++ e :: post ∧
      e.ev = Event.setFlag AccessHistoryFlag.eDataRaceFound ∧
      e.ev.isWordWrite = true ∧ e.writeLockHeld = false ∧
      writerHeldAfter pre = false ∧ upgradeCount pre = 0 ∧
      (checkDataRace demoEnv 5 demoGlobals demoSlotOne 0 0 demoCheckTwo).2.ah.dataRaceFound =
        true ∧
      demoSlotOne.dataRaceFound = false := by
  refine ⟨[⟨Event.pfqRWLockReadLock 7, false⟩,
      ⟨Event.happensBefore 1 0, false⟩,
      ⟨Event.analyzeRaceCondition demoRecord true, false⟩,
      ⟨Event.reportDataRace 100 200 4096, false⟩],
    ⟨Event.setFlag AccessHistoryFlag.eDataRaceFound, false⟩,
    [⟨Event.pfqRWLockReadUnlock 7, false⟩, ⟨Event.recordHistoryMap, false⟩], ?_⟩
  decide

/-- C20 (amended): every `setState` and every `clearFlags` that `checkDataRace` makes on the
state word is made with `writeLockHeld` true, after `pfqUpgrade` has returned and before
`pfqRWLockWriteUnlock`; `setFlag(eDataRaceFound)` is outside this guarantee. -/
theorem label_writes_under_writer_lock (env : Env) (fuel : Nat) (g : Globals)
    (accessHistory : AccessHistory) (curLabel : Label) (curLockSet : LockSet)
    (checkInfo : CheckInfo) (pre : List LogEntry) (e : LogEntry) (post : List LogEntry)
    (hsplit : (checkDataRace env fuel g accessHistory curLabel curLockSet checkInfo).2.trace =
      pre ++ e :: post)
    (hwrite : e.ev.isLabelWrite = true) :
    e.writeLockHeld = true ∧ writerHeldAfter pre = true :=
  checkDataRace_guarded Event.isLabelWrite
    (fun x hx => by cases x <;> simp_all [Event.isLabelWrite, Event.isWriterOnly])
    env fuel g accessHistory curLabel curLockSet checkInfo pre e post hsplit hwrite

theorem label_writes_under_writer_lock_witness :
    (LogEntry.mk (Event.setState AccessHistoryState.eSingleWrite) true).writeLockHeld = true ∧
      writerHeldAfter [⟨Event.pfqRWLockReadLock 7, false⟩,
        ⟨Event.pfqUpgrade 7 PfqUpgradeResult.eAtomicUpgraded, false⟩,
        ⟨Event.getRecords, true⟩] = true :=
  label_writes_under_writer_lock demoEnv 5 demoGlobals demoSlot 1 0 demoCheck
    [⟨Event.pfqRWLockReadLock 7, false⟩,
      ⟨Event.pfqUpgrade 7 PfqUpgradeResult.eAtomicUpgraded, false⟩,
      ⟨Event.getRecords, true⟩]
    ⟨Event.setState AccessHistoryState.eSingleWrite, true⟩
    [⟨Event.push_back ⟨true, 1, 0, 1, 100, false⟩, true⟩,
      ⟨Event.pfqRWLockWriteUnlock, true⟩,
      ⟨Event.recordHistoryMap, true⟩]
    (by decide) (by decide)

/-! ## The bucket a call is counted in -/

theorem Counters.bump_get (c : CounterType) (k k1 : Counters)
    (h : Counters.bump c k = some k1) (b : CounterType) :
    Counters.get b k1 = Counters.get b k + if b = c then 1 else 0 := by
  cases c <;> simp only [Counters.bump, Option.some.injEq] at h <;>
    first
    | (subst h; cases b <;> simp [Counters.get])
    | cases h

theorem Tally.step_tally {env : Env} {g0 : Globals} {ah0 : AccessHistory} {s : St}
    (h : Tally env g0 ah0 s) (s1 : St) (l : List LogEntry)
    (hg : s1.g.counters = s.g.counters) (hm : s1.modIntent = s.modIntent)
    (hw : s1.writeLockHeld = s.writeLockHeld) (hu : s1.upgradeSuccess = s.upgradeSuccess)
    (hr : s1.readReadContend = s.readReadContend)
    (ha : s1.ah.counters = s.ah.counters) (ht : s1.trace = s.trace ++ l)
    (hl : atomicUpgradeLogged l = false) : Tally env g0 ah0 s1 := by
  constructor
  · rw [hg]; exact h.globals
  · rw [hm, hw]; exact h.intent
  · rw [hu, ht, h.success]
    unfold atomicUpgradeLogged at hl ⊢
    rw [List.any_append, hl, Bool.or_false]
  · rw [hu, hw]; exact h.owner
  · rw [hw, hr]; exact h.contend
  · intro hk; rw [ha]; exact h.slot hk

theorem Tally.emit_tally {env : Env} {g0 : Globals} {ah0 : AccessHistory} {s : St}
    (h : Tally env g0 ah0 s) (e : Event) (he : e.isAtomicUpgrade = false) :
    Tally env g0 ah0 (Romp.emit e s) :=
  h.step_tally (Romp.emit e s) [⟨e, s.writeLockHeld⟩] rfl rfl rfl rfl rfl rfl rfl
    (by simp [atomicUpgradeLogged, he])

theorem Tally.same_tally {env : Env} {g0 : Globals} {ah0 : AccessHistory} {s : St}
    (h : Tally env g0 ah0 s) (s1 : St)
    (hg : s1.g.counters = s.g.counters) (hm : s1.modIntent = s.modIntent)
    (hw : s1.writeLockHeld = s.writeLockHeld) (hu : s1.upgradeSuccess = s.upgradeSuccess)
    (hr : s1.readReadContend = s.readReadContend)
    (ha : s1.ah.counters = s.ah.counters) (ht : s1.trace = s.trace) :
    Tally env g0 ah0 s1 :=
  h.step_tally s1 [] hg hm hw hu hr ha (by rw [ht, List.append_nil]) rfl

theorem Tally.upgradeHelper_tally {env : Env} {g0 : Globals} {ah0 : AccessHistory} {s : St}
    (h : Tally env g0 ah0 s) : Tally env g0 ah0 (Romp.upgradeHelper env s).2 := by
  cases hw : s.writeLockHeld
  · rw [upgradeHelper_of_free env s hw]
    have hus : s.upgradeSuccess = false := by
      cases hu : s.upgradeSuccess
      · rfl
      · have := h.owner hu
        rw [hw] at this
        cases this
    constructor
    · exact h.globals
    · rfl
    · show (if _ then true else s.upgradeSuccess) = atomicUpgradeLogged (s.trace ++ [_])
      unfold atomicUpgradeLogged
      rw [List.any_append]
      have h1 := h.success
      unfold atomicUpgradeLogged at h1
      rw [← h1, hus]
      cases hres : (env.pfqUpgrade s.ah s.ticketNum s.readReadContend).res <;>
        simp [Event.isAtomicUpgrade]
    · intro _; rfl
    · intro hx; cases hx
    · intro hk
      show (if _ then s.ah else _).counters = ah0.counters
      split
      · exact h.slot hk
      · rw [hk]; exact h.slot hk
  · rw [upgradeHelper_of_held env s hw]
    constructor
    · exact h.globals
    · show true = s.writeLockHeld
      rw [hw]
    · exact h.success
    · exact h.owner
    · exact h.contend
    · exact h.slot

theorem Tally.withGlobals_tally {env : Env} {g0 : Globals} {ah0 : AccessHistory} {s : St}
    (h : Tally env g0 ah0 s) (g : Globals) (hg : g.counters = s.g.counters) :
    Tally env g0 ah0 { s with g := g } :=
  h.same_tally _ hg rfl rfl rfl rfl rfl rfl

theorem Tally.push_tally {env : Env} {g0 : Globals} {ah0 : AccessHistory} {s : St}
    (h : Tally env g0 ah0 s) (a b c : Nat) (recs : List DataRaceInfo) :
    Tally env g0 ah0 (Romp.emit (Event.gDataRaceRecordsPush a b c)
      { s with g := { s.g with gDataRaceRecords := recs } }) :=
  Tally.emit_tally
    (h.same_tally { s with g := { s.g with gDataRaceRecords := recs } }
      rfl rfl rfl rfl rfl rfl rfl)
    (Event.gDataRaceRecordsPush a b c) rfl

theorem Tally.tally_rule (env : Env) (g0 : Globals) (ah0 : AccessHistory) (cur : Record)
    (ci : CheckInfo) :
    DriverRule env cur ci (Tally env g0 ah0) (Tally env g0 ah0) := by
  constructor
  · intro s e h hcons _
    exact h.emit_tally e (by cases e <;> simp_all [Event.isConsult, Event.isAtomicUpgrade])
  · intro s h
    exact h.same_tally _ rfl rfl rfl rfl rfl rfl rfl
  · intro s h
    exact h.upgradeHelper_tally
  · intro s h _
    refine Tally.emit_tally (h.same_tally { s with ah := s.ah.getRecords }
      rfl rfl rfl rfl rfl ?_ rfl) Event.getRecords rfl
    show s.ah.getRecords.counters = s.ah.counters
    unfold AccessHistory.getRecords
    split <;> rfl
  · intro s st h _
    exact Tally.emit_tally (h.same_tally { s with ah := s.ah.setState st }
      rfl rfl rfl rfl rfl rfl rfl) (Event.setState st) rfl
  · intro s h _
    exact Tally.emit_tally (h.same_tally { s with ah := s.ah.clearFlags }
      rfl rfl rfl rfl rfl rfl rfl) Event.clearFlags rfl
  · intro s rs e h _ he
    refine Tally.emit_tally (h.same_tally (storeRecords rs s) rfl rfl rfl rfl rfl rfl rfl) e ?_
    rcases he with he | ⟨r, he⟩ | ⟨a, he⟩ <;> subst he <;> rfl
  · intro s rs it hist d h _ _ _
    have h1 := (h.emit_tally (Event.happensBefore hist.label cur.label) rfl).emit_tally
      (Event.analyzeRaceCondition hist (env.analyzeRaceCondition hist cur
        (env.happensBefore hist.label cur.label d).1
        (env.happensBefore hist.label cur.label d).2)) rfl
    generalize Romp.emit (Event.analyzeRaceCondition hist (env.analyzeRaceCondition hist cur
        (env.happensBefore hist.label cur.label d).1
        (env.happensBefore hist.label cur.label d).2))
      (Romp.emit (Event.happensBefore hist.label cur.label) s) = s2 at h1 ⊢
    have hflag : ∀ s1 : St, Tally env g0 ah0 s1 →
        Tally env g0 ah0 (Romp.setFlag AccessHistoryFlag.eDataRaceFound s1) := by
      intro s1 hs1
      show Tally env g0 ah0 (Romp.emit _ _)
      refine Tally.emit_tally ?_ _ (by rfl)
      exact hs1.same_tally _ rfl rfl rfl rfl rfl rfl rfl
    unfold Romp.raceFound
    apply hflag
    split
    · refine Tally.emit_tally ?_ _ (by rfl)
      refine Tally.push_tally ?_ _ _ _ _
      refine Tally.emit_tally ?_ _ (by rfl)
      exact h1.same_tally _ rfl rfl rfl rfl rfl rfl rfl
    · split
      · refine Tally.emit_tally ?_ _ (by rfl)
        exact h1.same_tally _ rfl rfl rfl rfl rfl rfl rfl
      · exact h1.same_tally _ rfl rfl rfl rfl rfl rfl rfl

theorem Tally.enter_tally (env : Env) (g : Globals) (ah : AccessHistory) :
    Tally env g ah (enter env g ah) := by
  constructor
  · rfl
  · rfl
  · rfl
  · intro h; cases h
  · intro _; rfl
  · intro _; rfl

theorem getCounterType_isMod (rw rr us mi : Bool) :
    (getCounterType rw rr us mi).isMod = mi := by
  cases rw <;> cases rr <;> cases us <;> cases mi <;> rfl

theorem getCounterType_isUS (rw rr us mi : Bool) :
    (getCounterType rw rr us mi).isUS = (mi && us) := by
  cases rw <;> cases rr <;> cases us <;> cases mi <;> rfl

/-- The switch of `check_finish` bumps the global and the slot-local counter of the bucket
that `getCounterType` names. -/
theorem check_finish_counters (s : St) :
    Counters.bump (getCounterType s.readWriteContend s.readReadContend s.upgradeSuccess
      s.modIntent) s.g.counters = some (check_finish s).2.g.counters ∧
    Counters.bump (getCounterType s.readWriteContend s.readReadContend s.upgradeSuccess
      s.modIntent) s.ah.counters = some (check_finish s).2.ah.counters := by
  unfold check_finish
  dsimp only
  have h1 : ∀ s1 : St, s1 = (if s.writeLockHeld = true then emit Event.pfqRWLockWriteUnlock s
        else if s.readLockHeld = true then emit (Event.pfqRWLockReadUnlock s.ticketNum) s
        else s) → s1.g = s.g ∧ s1.ah = s.ah ∧ s1.readWriteContend = s.readWriteContend ∧
        s1.readReadContend = s.readReadContend ∧ s1.upgradeSuccess = s.upgradeSuccess ∧
        s1.modIntent = s.modIntent := by
    intro s1 hs1
    subst hs1
    split
    · exact ⟨rfl, rfl, rfl, rfl, rfl, rfl⟩
    · split
      · exact ⟨rfl, rfl, rfl, rfl, rfl, rfl⟩
      · exact ⟨rfl, rfl, rfl, rfl, rfl, rfl⟩
  generalize (if s.writeLockHeld = true then emit Event.pfqRWLockWriteUnlock s
        else if s.readLockHeld = true then emit (Event.pfqRWLockReadUnlock s.ticketNum) s
        else s) = s1 at h1 ⊢
  obtain ⟨hg, ha, h2, h3, h4, h5⟩ := h1 s1 rfl
  rw [h2, h3, h4, h5, hg, ha]
  split
  · rename_i gc ac hgc hac
    exact ⟨hgc, hac⟩
  · rename_i hno
    exfalso
    obtain ⟨gc, hgc⟩ := Counters.bump_defined _ s.g.counters
      (getCounterType_defined s.readWriteContend s.readReadContend s.upgradeSuccess s.modIntent)
    obtain ⟨ac, hac⟩ := Counters.bump_defined _ s.ah.counters
      (getCounterType_defined s.readWriteContend s.readReadContend s.upgradeSuccess s.modIntent)
    exact hno gc ac hgc hac

theorem atomicUpgradeLogged_check_finish (s : St) (hr : s.readLockHeld = !s.writeLockHeld) :
    atomicUpgradeLogged (check_finish s).2.trace = atomicUpgradeLogged s.trace := by
  obtain ⟨last, hlast, ht⟩ := check_finish_trace s hr
  rw [ht]
  unfold atomicUpgradeLogged
  rw [List.any_append]
  rcases hlast with hl | hl <;> subst hl <;> cases s.writeLockHeld <;>
    simp [Event.isAtomicUpgrade]

/-- The state at `check_finish` of a returning call, with what the body kept. -/
theorem checkDataRace_tally (env : Env) (fuel : Nat) (g : Globals) (ah : AccessHistory)
    (l : Label) (ls : LockSet) (ci : CheckInfo)
    (hret : (checkDataRace env fuel g ah l ls ci).1 = Exit.returned) :
    ∃ s, Inv env.pfqRWLockReadLock.2 s ∧ Tally env g ah s ∧
      checkDataRace env fuel g ah l ls ci = check_finish s := by
  obtain ⟨s, hinv, ⟨hfin, hp⟩ | ⟨w, hst, _⟩⟩ :=
    DriverRule.checkDataRace_rule (Tally.tally_rule env g ah (mkRecord l ls ci) ci) fuel g ah
      (Tally.enter_tally env g ah)
  · exact ⟨s, hinv, by rcases hp with hp | hp <;> exact hp, hfin⟩
  · rw [hst] at hret
    cases hret

theorem checkDataRace_not_fatal (env : Env) (fuel : Nat) (g : Globals) (ah : AccessHistory)
    (l : Label) (ls : LockSet) (ci : CheckInfo) :
    (checkDataRace env fuel g ah l ls ci).1 ≠ Exit.fatal := by
  obtain ⟨s, _, hfin | ⟨w, hst⟩⟩ := checkDataRace_cases env fuel g ah l ls ci
  · rw [hfin, check_finish_returned]
    intro h; cases h
  · rw [hst]
    intro h; cases h

/-- C19: no `checkDataRace` call reaches the fatal default of the counter switch, and every
call that returns (that is, reaches `check_finish`) is counted in exactly one bucket `c` of
the nine: every global bucket counter ends at its value on entry plus one for `c` and plus
zero for the others, the slot-local counters are bumped in the same bucket `c` (relative to
the slot as entered when no other thread changes the slot's counters during the upgrade);
`c` is a `Mod*` bucket exactly when the log holds the `pfqUpgrade` that the first
`upgradeHelper` call of a call issues, and a `*US` bucket exactly when that `pfqUpgrade`
returned `eAtomicUpgraded`. -/
theorem one_bucket_per_call (env : Env) (fuel : Nat) (g : Globals)
    (accessHistory : AccessHistory) (curLabel : Label) (curLockSet : LockSet)
    (checkInfo : CheckInfo) :
    (checkDataRace env fuel g accessHistory curLabel curLockSet checkInfo).1 ≠ Exit.fatal ∧
    ((checkDataRace env fuel g accessHistory curLabel curLockSet checkInfo).1 =
        Exit.returned →
      ∃ (c : CounterType) (s : St),
        checkDataRace env fuel g accessHistory curLabel curLockSet checkInfo =
          check_finish s ∧
        c = getCounterType s.readWriteContend s.readReadContend s.upgradeSuccess
          s.modIntent ∧
        c ≠ CounterType.eUndefCounter ∧
        Counters.bump c g.counters = some
          (checkDataRace env fuel g accessHistory curLabel curLockSet checkInfo).2.g.counters ∧
        (∀ b, Counters.get b
            (checkDataRace env fuel g accessHistory curLabel curLockSet
              checkInfo).2.g.counters =
          Counters.get b g.counters + if b = c then 1 else 0) ∧
        Counters.bump c s.ah.counters = some
          (checkDataRace env fuel g accessHistory curLabel curLockSet checkInfo).2.ah.counters ∧
        (env.keepsCounters → ∀ b, Counters.get b
            (checkDataRace env fuel g accessHistory curLabel curLockSet
              checkInfo).2.ah.counters =
          Counters.get b accessHistory.counters + if b = c then 1 else 0) ∧
        (c.isMod = true ↔ upgradeCount
          (checkDataRace env fuel g accessHistory curLabel curLockSet checkInfo).2.trace = 1) ∧
        (c.isMod = true ↔ s.modIntent = true) ∧
        (c.isUS = true ↔ atomicUpgradeLogged
          (checkDataRace env fuel g accessHistory curLabel curLockSet
            checkInfo).2.trace = true)) := by
  refine ⟨checkDataRace_not_fatal env fuel g accessHistory curLabel curLockSet checkInfo, ?_⟩
  intro hret
  obtain ⟨s, hinv, ht, hfin⟩ :=
    checkDataRace_tally env fuel g accessHistory curLabel curLockSet checkInfo hret
  obtain ⟨hg, ha⟩ := check_finish_counters s
  refine ⟨_, s, hfin, rfl, getCounterType_defined _ _ _ _, ?_, ?_, ?_, ?_, ?_, ?_, ?_⟩
  · rw [hfin, ← ht.globals]; exact hg
  · intro b
    rw [hfin, ← ht.globals]
    exact Counters.bump_get _ _ _ hg b
  · rw [hfin]; exact ha
  · intro hk b
    rw [hfin, ← ht.slot hk]
    exact Counters.bump_get _ _ _ ha b
  · rw [hfin, upgradeCount_check_finish, hinv.upgrades, getCounterType_isMod, ht.intent]
    cases s.writeLockHeld <;> simp
  · rw [getCounterType_isMod]
  · rw [hfin, atomicUpgradeLogged_check_finish s hinv.readHeld, ← ht.success,
      getCounterType_isUS, ht.intent]
    constructor
    · intro h
      simp only [Bool.and_eq_true] at h
      exact h.2
    · intro h
      simp only [Bool.and_eq_true]
      exact ⟨ht.owner h, h⟩

/-- The three kinds of bucket on concrete calls: no upgrade, an atomic upgrade, and a
non-atomic one. -/
theorem demo_buckets :
    (checkDataRace demoEnv 5 demoGlobals demoSlotOne 0 0 demoCheckTwo).2.g.counters =
      { demoCounters with noModNoCon := demoCounters.noModNoCon + 1 } ∧
    (checkDataRace demoEnv 5 demoGlobals demoSlot 1 0 demoCheck).2.g.counters =
      { demoCounters with modNoConUS := demoCounters.modNoConUS + 1 } ∧
    (checkDataRace demoEnv 5 demoGlobals demoSlot 1 0 demoCheck).2.ah.counters =
      { demoSlot.counters with modNoConUS := demoSlot.counters.modNoConUS + 1 } ∧
    (checkDataRace demoEnvNonAtomic 5 demoGlobals demoSlot 1 0 demoCheck).1 = Exit.returned ∧
    atomicUpgradeLogged
      (checkDataRace demoEnvNonAtomic 5 demoGlobals demoSlot 1 0 demoCheck).2.trace = false ∧
    upgradeCount
      (checkDataRace demoEnvNonAtomic 5 demoGlobals demoSlot 1 0 demoCheck).2.trace = 1 := by
  decide

/-! ## Where a detected race is delivered -/

theorem split_at_only {α : Type} (p : α → Prop) :
    ∀ (a : List α) (x : α) (b pre : List α) (e : α) (post : List α),
      a ++ x :: b = pre ++ e :: post → (∀ y ∈ a, ¬ p y) → (∀ y ∈ b, ¬ p y) → p e →
      pre = a ∧ e = x ∧ post = b
  | [], x, b, pre, e, post, h, _, hb, he => by
    cases pre with
    | nil =>
      simp only [List.nil_append, List.cons.injEq] at h
      exact ⟨rfl, h.1.symm, h.2.symm⟩
    | cons y pre1 =>
      simp only [List.nil_append, List.cons_append, List.cons.injEq] at h
      exact absurd he (hb e (by rw [h.2]; simp))
  | a0 :: a, x, b, pre, e, post, h, ha, hb, he => by
    cases pre with
    | nil =>
      simp only [List.nil_append, List.cons_append, List.cons.injEq] at h
      exact absurd he (by rw [← h.1]; exact ha a0 (List.mem_cons_self _ _))
    | cons y pre1 =>
      simp only [List.cons_append, List.cons.injEq] at h
      obtain ⟨h1, h2, h3⟩ := split_at_only p a x b pre1 e post h.2
        (fun z hz => ha z (List.mem_cons_of_mem _ hz)) hb he
      exact ⟨by rw [h.1, h1], h2, h3⟩

theorem NoRace.emit_noRace {g0 : Globals} {s : St} (h : NoRace g0 s) (e : Event)
    (he : e.isDetection = false) : NoRace g0 (Romp.emit e s) := by
  constructor
  · intro x hx
    simp only [Romp.emit, List.mem_append, List.mem_singleton] at hx
    rcases hx with hx | hx
    · exact h.none x hx
    · subst hx; exact he
  · exact h.records

theorem NoRace.same_noRace {g0 : Globals} {s : St} (h : NoRace g0 s) (s1 : St)
    (ht : s1.trace = s.trace) (hg : s1.g.gDataRaceRecords = s.g.gDataRaceRecords) :
    NoRace g0 s1 := by
  constructor
  · rw [ht]; exact h.none
  · rw [hg]; exact h.records

theorem NoRace.upgradeHelper_noRace {g0 : Globals} {s : St} (h : NoRace g0 s) (env : Env) :
    NoRace g0 (Romp.upgradeHelper env s).2 := by
  cases hw : s.writeLockHeld
  · rw [upgradeHelper_of_free env s hw]
    constructor
    · intro x hx
      have hx1 : x ∈ s.trace ++ [⟨Event.pfqUpgrade s.ticketNum
          (env.pfqUpgrade s.ah s.ticketNum s.readReadContend).res, false⟩] := hx
      simp only [List.mem_append, List.mem_singleton] at hx1
      rcases hx1 with hx1 | hx1
      · exact h.none x hx1
      · subst hx1; rfl
    · exact h.records
  · rw [upgradeHelper_of_held env s hw]
    exact h.same_noRace _ rfl rfl

theorem raceFound_trace (env : Env) (ci : CheckInfo) (hist cur : Record) (s : St) :
    (raceFound env ci hist cur s).trace =
      s.trace ++ (sinkEntries env ci hist cur s.writeLockHeld ++
        [⟨Event.setFlag AccessHistoryFlag.eDataRaceFound, s.writeLockHeld⟩]) ∧
    (raceFound env ci hist cur s).g.gDataRaceRecords =
      s.g.gDataRaceRecords ++ sinkRecords env ci hist cur := by
  unfold raceFound sinkEntries sinkRecords
  by_cases h1 : env.gReportLineInfo = true
  · simp [h1, setFlag, emit]
  · by_cases h2 : env.gReportAtRuntime = true
    · simp [h1, h2, setFlag, emit]
    · simp [h1, h2, setFlag, emit]

theorem NoRace.noRace_rule (env : Env) (g0 : Globals) (cur : Record) (ci : CheckInfo) :
    DriverRule env cur ci (NoRace g0) (Delivered env ci cur g0) := by
  constructor
  · intro s e h _ hd
    exact h.emit_noRace e hd
  · intro s h
    exact h.same_noRace _ rfl rfl
  · intro s h
    exact h.upgradeHelper_noRace env
  · intro s h _
    exact NoRace.emit_noRace (h.same_noRace { s with ah := s.ah.getRecords } rfl rfl)
      Event.getRecords rfl
  · intro s st h _
    exact NoRace.emit_noRace (h.same_noRace { s with ah := s.ah.setState st } rfl rfl)
      (Event.setState st) rfl
  · intro s h _
    exact NoRace.emit_noRace (h.same_noRace { s with ah := s.ah.clearFlags } rfl rfl)
      Event.clearFlags rfl
  · intro s rs e h _ he
    refine NoRace.emit_noRace (h.same_noRace (storeRecords rs s) rfl rfl) e ?_
    rcases he with he | ⟨r, he⟩ | ⟨a, he⟩ <;> subst he <;> rfl
  · intro s rs it hist d h _ _ hrace
    have h1 := h.emit_noRace (Event.happensBefore hist.label cur.label) rfl
    obtain ⟨ht, hg⟩ := raceFound_trace env ci hist cur
      (Romp.emit (Event.analyzeRaceCondition hist (env.analyzeRaceCondition hist cur
        (env.happensBefore hist.label cur.label d).1
        (env.happensBefore hist.label cur.label d).2))
      (Romp.emit (Event.happensBefore hist.label cur.label) s))
    refine ⟨(Romp.emit (Event.happensBefore hist.label cur.label) s).trace, hist,
      s.writeLockHeld, h1.none, ?_, ?_⟩
    · rw [ht, hrace]
      simp [Romp.emit]
    · rw [hg]
      exact congrArg (fun x => x ++ sinkRecords env ci hist cur) h.records

theorem NoRace.enter_noRace (env : Env) (g : Globals) (ah : AccessHistory) :
    NoRace g (enter env g ah) := by
  constructor
  · intro x hx
    simp only [Romp.enter, List.mem_singleton] at hx
    subst hx
    rfl
  · rfl

theorem check_finish_raceRecords (s : St) :
    (check_finish s).2.g.gDataRaceRecords = s.g.gDataRaceRecords := by
  unfold check_finish
  dsimp only
  have h1 : ∀ s1 : St, s1 = (if s.writeLockHeld = true then emit Event.pfqRWLockWriteUnlock s
        else if s.readLockHeld = true then emit (Event.pfqRWLockReadUnlock s.ticketNum) s
        else s) → s1.g = s.g := by
    intro s1 hs1
    subst hs1
    split
    · rfl
    · split <;> rfl
  generalize (if s.writeLockHeld = true then emit Event.pfqRWLockWriteUnlock s
        else if s.readLockHeld = true then emit (Event.pfqRWLockReadUnlock s.ticketNum) s
        else s) = s1 at h1 ⊢
  have hg := h1 s1 rfl
  split
  · show s1.g.gDataRaceRecords = _
    rw [hg]
  · show s1.g.gDataRaceRecords = _
    rw [hg]

/-- A detection in the log of a call is followed by the entries of the sink and the
`setFlag`, and `gDataRaceRecords` ends as the sink leaves it. -/
theorem checkDataRace_delivery (env : Env) (fuel : Nat) (g : Globals) (ah : AccessHistory)
    (l : Label) (ls : LockSet) (ci : CheckInfo)
    (pre : List LogEntry) (e : LogEntry) (post : List LogEntry) (hist : Record)
    (hsplit : (checkDataRace env fuel g ah l ls ci).2.trace = pre ++ e :: post)
    (hdet : e.ev = Event.analyzeRaceCondition hist true) :
    (∃ rest, post = sinkEntries env ci hist (mkRecord l ls ci) e.writeLockHeld ++
      ⟨Event.setFlag AccessHistoryFlag.eDataRaceFound, e.writeLockHeld⟩ :: rest) ∧
    (checkDataRace env fuel g ah l ls ci).2.g.gDataRaceRecords =
      g.gDataRaceRecords ++ sinkRecords env ci hist (mkRecord l ls ci) := by
  have hde : e.ev.isDetection = true := by rw [hdet]; rfl
  obtain ⟨s, hinv, ⟨hfin, hp⟩ | ⟨w, hst, hp⟩⟩ :=
    DriverRule.checkDataRace_rule (NoRace.noRace_rule env g (mkRecord l ls ci) ci) fuel g ah
      (NoRace.enter_noRace env g ah)
  · obtain ⟨last, hlast, ht⟩ := check_finish_trace s hinv.readHeld
    rw [hfin, ht] at hsplit
    rw [hfin, check_finish_raceRecords]
    have htail : ∀ y ∈ [(⟨if s.writeLockHeld then Event.pfqRWLockWriteUnlock
          else Event.pfqRWLockReadUnlock s.ticketNum, s.writeLockHeld⟩ : LogEntry),
          ⟨last, s.writeLockHeld⟩], y.ev.isDetection = false := by
      intro y hy
      simp only [List.mem_cons, List.mem_singleton, List.not_mem_nil, or_false] at hy
      rcases hy with hy | hy
      · subst hy
        cases s.writeLockHeld <;> rfl
      · subst hy
        rcases hlast with hl | hl <;> subst hl <;> rfl
    rcases hp with hp | ⟨pre0, hist0, held, hpre0, htr, hrec⟩
    · exfalso
      have hmem : e ∈ s.trace ++ [(⟨if s.writeLockHeld then Event.pfqRWLockWriteUnlock
          else Event.pfqRWLockReadUnlock s.ticketNum, s.writeLockHeld⟩ : LogEntry),
          ⟨last, s.writeLockHeld⟩] := by rw [hsplit]; simp
      rw [List.mem_append] at hmem
      rcases hmem with hm | hm
      · rw [hp.none e hm] at hde; cases hde
      · rw [htail e hm] at hde; cases hde
    · rw [htr] at hsplit
      have hsplit1 : pre0 ++ ⟨Event.analyzeRaceCondition hist0 true, held⟩ ::
          ((sinkEntries env ci hist0 (mkRecord l ls ci) held ++
            [⟨Event.setFlag AccessHistoryFlag.eDataRaceFound, held⟩]) ++
          [(⟨if s.writeLockHeld then Event.pfqRWLockWriteUnlock
            else Event.pfqRWLockReadUnlock s.ticketNum, s.writeLockHeld⟩ : LogEntry),
            ⟨last, s.writeLockHeld⟩]) = pre ++ e :: post := by
        rw [← hsplit]; simp
      obtain ⟨_, he, hpost⟩ := split_at_only (fun y : LogEntry => y.ev.isDetection = true)
        pre0 _ _ pre e post hsplit1
        (fun y hy => by simp [hpre0 y hy])
        (fun y hy => by
          rw [List.mem_append, List.mem_append] at hy
          rcases hy with (hy | hy) | hy
          · unfold sinkEntries at hy
            split at hy
            · simp only [List.mem_cons, List.mem_singleton, List.not_mem_nil, or_false] at hy
              rcases hy with hy | hy | hy <;> subst hy <;> simp [Event.isDetection]
            · split at hy
              · simp only [List.mem_singleton] at hy
                subst hy; simp [Event.isDetection]
              · cases hy
          · simp only [List.mem_singleton] at hy
            subst hy; simp [Event.isDetection]
          · simp [htail y hy])
        hde
      subst he
      simp only [Event.analyzeRaceCondition.injEq, and_true] at hdet
      subst hdet
      refine ⟨⟨[(⟨if s.writeLockHeld then Event.pfqRWLockWriteUnlock
          else Event.pfqRWLockReadUnlock s.ticketNum, s.writeLockHeld⟩ : LogEntry),
          ⟨last, s.writeLockHeld⟩], ?_⟩, hrec⟩
      rw [hpost]
      simp
  · rw [hst] at hsplit
    have hmem : e ∈ s.trace := by
      rw [show s.trace = pre ++ e :: post from hsplit]; simp
    rw [hp.none e hmem] at hde
    cases hde

/-- C11, as stated, fails: with neither `gReportLineInfo` nor `gReportAtRuntime` configured,
a call for which `analyzeRaceCondition` returns `true` delivers the racing pair to no sink:
no `reportDataRace` call and no `push_back` on `gDataRaceRecords` is in its log, and
`gDataRaceRecords` stays empty, although the race is counted and the slot is marked. -/
theorem detected_race_not_delivered :
    demoEnvMute.gReportLineInfo = false ∧
    (⟨Event.analyzeRaceCondition demoRecord true, false⟩ : LogEntry) ∈
      (checkDataRace demoEnvMute 5 demoGlobals demoSlotOne 0 0 demoCheckTwo).2.trace ∧
    reportCount (checkDataRace demoEnvMute 5 demoGlobals demoSlotOne 0 0 demoCheckTwo).2.trace =
      0 ∧
    (checkDataRace demoEnvMute 5 demoGlobals demoSlotOne 0 0 demoCheckTwo).2.g.gDataRaceRecords =
      [] ∧
    (checkDataRace demoEnvMute 5 demoGlobals demoSlotOne 0 0 demoCheckTwo).2.g.gNumDataRace =
      1 ∧
    (checkDataRace demoEnvMute 5 demoGlobals demoSlotOne 0 0 demoCheckTwo).2.ah.dataRaceFound =
      true ∧
    (checkDataRace demoEnvMute 5 demoGlobals demoSlotOne 0 0 demoCheckTwo).1 =
      Exit.returned := by
  decide

/-- C11 (amended): whenever `analyzeRaceCondition` returns `true` for a history record during
`checkDataRace`, what follows in the log is the sink for the triple (history instruction
address, current instruction address, `checkInfo.byteAddress`) and then
`setFlag(eDataRaceFound)`: with `gReportLineInfo` the triple is appended to
`gDataRaceRecords` between the acquire and the release of `gDataRaceLock`; without it and
with `gReportAtRuntime` the triple is passed to `reportDataRace`; with neither option nothing
is delivered.  `gDataRaceRecords` ends as on entry plus the triple in the first case and as
on entry otherwise. -/
theorem race_delivered_as_configured (env : Env) (fuel : Nat) (g : Globals)
    (accessHistory : AccessHistory) (curLabel : Label) (curLockSet : LockSet)
    (checkInfo : CheckInfo) (pre : List LogEntry) (e : LogEntry) (post : List LogEntry)
    (histRecord : Record)
    (hsplit : (checkDataRace env fuel g accessHistory curLabel curLockSet checkInfo).2.trace =
      pre ++ e :: post)
    (hrace : e.ev = Event.analyzeRaceCondition histRecord true) :
    (env.gReportLineInfo = true →
      (∃ rest, post =
        [⟨Event.gDataRaceLockAcquire, e.writeLockHeld⟩,
         ⟨Event.gDataRaceRecordsPush histRecord.instnAddr checkInfo.instnAddr
            checkInfo.byteAddress, e.writeLockHeld⟩,
         ⟨Event.gDataRaceLockRelease, e.writeLockHeld⟩,
         ⟨Event.setFlag AccessHistoryFlag.eDataRaceFound, e.writeLockHeld⟩] ++ rest) ∧
      (checkDataRace env fuel g accessHistory curLabel curLockSet
          checkInfo).2.g.gDataRaceRecords =
        g.gDataRaceRecords ++
          [⟨histRecord.instnAddr, checkInfo.instnAddr, checkInfo.byteAddress⟩]) ∧
    (env.gReportLineInfo = false → env.gReportAtRuntime = true →
      (∃ rest, post =
        [⟨Event.reportDataRace histRecord.instnAddr checkInfo.instnAddr
            checkInfo.byteAddress, e.writeLockHeld⟩,
         ⟨Event.setFlag AccessHistoryFlag.eDataRaceFound, e.writeLockHeld⟩] ++ rest) ∧
      (checkDataRace env fuel g accessHistory curLabel curLockSet
          checkInfo).2.g.gDataRaceRecords = g.gDataRaceRecords) ∧
    (env.gReportLineInfo = false → env.gReportAtRuntime = false →
      (∃ rest, post =
        ⟨Event.setFlag AccessHistoryFlag.eDataRaceFound, e.writeLockHeld⟩ :: rest) ∧
      (checkDataRace env fuel g accessHistory curLabel curLockSet
          checkInfo).2.g.gDataRaceRecords = g.gDataRaceRecords) := by
  obtain ⟨⟨rest, hpost⟩, hrec⟩ := checkDataRace_delivery env fuel g accessHistory curLabel
    curLockSet checkInfo pre e post histRecord hsplit hrace
  refine ⟨?_, ?_, ?_⟩
  · intro h1
    refine ⟨⟨rest, ?_⟩, ?_⟩
    · rw [hpost]; simp [sinkEntries, h1, mkRecord]
    · rw [hrec]; simp [sinkRecords, h1, mkRecord]
  · intro h1 h2
    refine ⟨⟨rest, ?_⟩, ?_⟩
    · rw [hpost]; simp [sinkEntries, h1, h2, mkRecord]
    · rw [hrec]; simp [sinkRecords, h1]
  · intro h1 h2
    refine ⟨⟨rest, ?_⟩, ?_⟩
    · rw [hpost]; simp [sinkEntries, h1, h2]
    · rw [hrec]; simp [sinkRecords, h1]

theorem race_delivered_as_configured_witness :
    demoEnvLineInfo.gReportLineInfo = true ∧
      (∃ rest, [(⟨Event.gDataRaceLockAcquire, false⟩ : LogEntry),
          ⟨Event.gDataRaceRecordsPush 100 200 4096, false⟩,
          ⟨Event.gDataRaceLockRelease, false⟩,
          ⟨Event.setFlag AccessHistoryFlag.eDataRaceFound, false⟩,
          ⟨Event.pfqRWLockReadUnlock 7, false⟩, ⟨Event.recordHistoryMap, false⟩] =
        [⟨Event.gDataRaceLockAcquire, (LogEntry.mk
            (Event.analyzeRaceCondition demoRecord true) false).writeLockHeld⟩,
         ⟨Event.gDataRaceRecordsPush demoRecord.instnAddr demoCheckTwo.instnAddr
            demoCheckTwo.byteAddress, (LogEntry.mk
            (Event.analyzeRaceCondition demoRecord true) false).writeLockHeld⟩,
         ⟨Event.gDataRaceLockRelease, (LogEntry.mk
            (Event.analyzeRaceCondition demoRecord true) false).writeLockHeld⟩,
         ⟨Event.setFlag AccessHistoryFlag.eDataRaceFound, (LogEntry.mk
            (Event.analyzeRaceCondition demoRecord true) false).writeLockHeld⟩] ++ rest) ∧
      (checkDataRace demoEnvLineInfo 5 demoGlobals demoSlotOne 0 0
          demoCheckTwo).2.g.gDataRaceRecords =
        demoGlobals.gDataRaceRecords ++
          [⟨demoRecord.instnAddr, demoCheckTwo.instnAddr, demoCheckTwo.byteAddress⟩] :=
  ⟨by decide, (race_delivered_as_configured demoEnvLineInfo 5 demoGlobals demoSlotOne 0 0 demoCheckTwo
    [⟨Event.pfqRWLockReadLock 7, false⟩, ⟨Event.happensBefore 1 0, false⟩]
    ⟨Event.analyzeRaceCondition demoRecord true, false⟩
    [⟨Event.gDataRaceLockAcquire, false⟩,
      ⟨Event.gDataRaceRecordsPush 100 200 4096, false⟩,
      ⟨Event.gDataRaceLockRelease, false⟩,
      ⟨Event.setFlag AccessHistoryFlag.eDataRaceFound, false⟩,
      ⟨Event.pfqRWLockReadUnlock 7, false⟩, ⟨Event.recordHistoryMap, false⟩]
    demoRecord (by decide) rfl).1 (by decide)⟩

/-! ## `mcsTryLock` -/

/-- C14: for every lock state and node, `mcsTryLock(l, me)` (a total function of the memory:
two memory operations, no loop, so the caller never waits) returns `true` if and only if
`l->tail` is nil at the compare-exchange; on success `l->tail` is `me` and `me->next` is nil;
on failure `l->tail`, the `next` of every other node and every `blocked` are unchanged and
`me->next` is nil.  In both cases nothing else than `l->tail` and `me->next` is written. -/
theorem mcsTryLock_contract (me : Nat) (m : McsMem) :
    ((mcsTryLock me m).1 = true ↔ m.tail = none) ∧
    ((mcsTryLock me m).1 = true ↔ (m.setNext me none).tail = none) ∧
    ((mcsTryLock me m).1 = true →
      (mcsTryLock me m).2.tail = some me ∧ (mcsTryLock me m).2.next me = none) ∧
    ((mcsTryLock me m).1 = false →
      (mcsTryLock me m).2.tail = m.tail ∧
      (∀ x, x ≠ me → (mcsTryLock me m).2.next x = m.next x) ∧
      (∀ x, (mcsTryLock me m).2.blocked x = m.blocked x) ∧
      (mcsTryLock me m).2.next me = none) ∧
    ((∀ x, x ≠ me → (mcsTryLock me m).2.next x = m.next x) ∧
      (∀ x, (mcsTryLock me m).2.blocked x = m.blocked x)) := by
  cases ht : m.tail <;>
    simp +contextual [mcsTryLock, McsMem.casTail, McsMem.setNext, ht]

/-- The two outcomes of `mcsTryLock` on concrete memories: a free lock and a held one. -/
theorem demo_mcsTryLock :
    (mcsTryLock 3 ⟨none, fun _ => some 9, fun _ => true⟩).1 = true ∧
    (mcsTryLock 3 ⟨none, fun _ => some 9, fun _ => true⟩).2.tail = some 3 ∧
    (mcsTryLock 3 ⟨none, fun _ => some 9, fun _ => true⟩).2.next 3 = none ∧
    (mcsTryLock 3 ⟨some 5, fun _ => some 9, fun _ => true⟩).1 = false ∧
    (mcsTryLock 3 ⟨some 5, fun _ => some 9, fun _ => true⟩).2.tail = some 5 ∧
    (mcsTryLock 3 ⟨some 5, fun _ => some 9, fun _ => true⟩).2.next 3 = none ∧
    (mcsTryLock 3 ⟨some 5, fun _ => some 9, fun _ => true⟩).2.next 5 = some 9 := by
  decide

/-! ## `checkAccess` -/

/-- The loop asks the duplicate filter about the base address of the access at every byte:
the queries it adds are all `(isWrite, address)`. -/
theorem byteLoop_queries (env : AccessEnv) (td : TaskData) (address : Nat) :
    ∀ (n i : Nat) (ci : CheckInfo) (s : AccessState),
      ∃ l, (byteLoop env td ci address n i s).2.queries = s.queries ++ l ∧
        ∀ q ∈ l, q = (ci.isWrite, address)
  | 0, i, ci, s => ⟨[], by simp [byteLoop], by simp⟩
  | n + 1, i, ci, s => by
    rw [byteLoop]
    dsimp only
    split
    · obtain ⟨l, hl, hq⟩ := byteLoop_queries env td address n (i + 1) ci
        { g := { s.g with gNumBytesChecked := s.g.gNumBytesChecked + 1 }
          slots := s.slots
          log := s.log ++ [AccessEvent.isDupMemAccess ci.isWrite address]
          queries := s.queries ++ [(ci.isWrite, address)] }
      refine ⟨(ci.isWrite, address) :: l, ?_, ?_⟩
      · rw [hl]; simp
      · intro q hq1
        rcases List.mem_cons.1 hq1 with h | h
        · exact h
        · exact hq q h
    · split
      · rename_i hret
        obtain ⟨l, hl, hq⟩ := byteLoop_queries env td address n (i + 1)
          { ci with byteAddress := (address + i) % 2 ^ 64 }
          { g := (checkDataRace (env.driver i) env.fuel
                { s.g with gNumBytesChecked := s.g.gNumBytesChecked + 1 }
                (s.slots (env.getShadowMemorySlot ((address + i) % 2 ^ 64)))
                td.label td.lockSet { ci with byteAddress := (address + i) % 2 ^ 64 }).2.g
            slots := fun x => if x = env.getShadowMemorySlot ((address + i) % 2 ^ 64) then
                (checkDataRace (env.driver i) env.fuel
                  { s.g with gNumBytesChecked := s.g.gNumBytesChecked + 1 }
                  (s.slots (env.getShadowMemorySlot ((address + i) % 2 ^ 64)))
                  td.label td.lockSet { ci with byteAddress := (address + i) % 2 ^ 64 }).2.ah
              else s.slots x
            log := s.log ++ [AccessEvent.isDupMemAccess ci.isWrite address] ++
              [AccessEvent.getShadowMemorySlot ((address + i) % 2 ^ 64)] ++
              [AccessEvent.checkDataRace (env.getShadowMemorySlot ((address + i) % 2 ^ 64))
                { ci with byteAddress := (address + i) % 2 ^ 64 }
                (checkDataRace (env.driver i) env.fuel
                  { s.g with gNumBytesChecked := s.g.gNumBytesChecked + 1 }
                  (s.slots (env.getShadowMemorySlot ((address + i) % 2 ^ 64)))
                  td.label td.lockSet
                  { ci with byteAddress := (address + i) % 2 ^ 64 }).2.trace]
            queries := s.queries ++ [(ci.isWrite, address)] }
        refine ⟨(ci.isWrite, address) :: l, ?_, ?_⟩
        · rw [hl]; simp
        · intro q hq1
          rcases List.mem_cons.1 hq1 with h | h
          · exact h
          · exact hq q h
      · exact ⟨[(ci.isWrite, address)], rfl, by simp⟩

/-- C15 fails on a two-byte access at 4096: the duplicate filter is asked about the base
address 4096 for both bytes, never about byte 4097.  With a filter that holds byte 4096 for a
duplicate and byte 4097 for fresh, no slot is resolved and the driver is not called for byte
4097; with a filter that holds only byte 4097 for a duplicate, the driver is called for byte
4097 all the same. -/
theorem duplicate_filter_asked_for_base_address :
    (checkAccess (demoAccessEnv (fun _ _ a => decide (a = 4096))) 4096 2 100 false true
        demoAccessState).2.log =
      [AccessEvent.analyzeDataSharing 4096, AccessEvent.isDupMemAccess true 4096,
        AccessEvent.isDupMemAccess true 4096] ∧
    filterQueries (checkAccess (demoAccessEnv (fun _ _ a => decide (a = 4096))) 4096 2 100
        false true demoAccessState).2.log = [4096, 4096] ∧
    driverBytes (checkAccess (demoAccessEnv (fun _ _ a => decide (a = 4096))) 4096 2 100
        false true demoAccessState).2.log = [] ∧
    filterQueries (checkAccess (demoAccessEnv (fun _ _ a => decide (a = 4097))) 4096 2 100
        false true demoAccessState).2.log = [4096, 4096] ∧
    driverBytes (checkAccess (demoAccessEnv (fun _ _ a => decide (a = 4097))) 4096 2 100
        false true demoAccessState).2.log = [4096, 4097] := by
  decide

/-- C16: `checkAccess` returns at once, with the globals, the shadow memory and the filter as
they were and with neither a slot resolution nor a driver call in its log, whenever
`gOmptInitialized` is false, `prepareAllInfo` returns false, the task type is
`ompt_task_initial`, or the task-data pointer is null; a slot resolution or driver call in the
log implies that none of these holds, and when none holds the call is the byte loop over the
access. -/
theorem checkAccess_skip_checks (env : AccessEnv) (address bytesAccessed instnAddr : Nat)
    (hwLock isWrite : Bool) (s : AccessState) :
    (env.skips →
      (checkAccess env address bytesAccessed instnAddr hwLock isWrite s).1 = Exit.returned ∧
      (checkAccess env address bytesAccessed instnAddr hwLock isWrite s).2.g = s.g ∧
      (checkAccess env address bytesAccessed instnAddr hwLock isWrite s).2.slots = s.slots ∧
      (checkAccess env address bytesAccessed instnAddr hwLock isWrite s).2.queries =
        s.queries ∧
      ∃ l, (checkAccess env address bytesAccessed instnAddr hwLock isWrite s).2.log =
          s.log ++ l ∧ ∀ e ∈ l, e.touchesSlot = false) ∧
    (∀ l, (checkAccess env address bytesAccessed instnAddr hwLock isWrite s).2.log =
        s.log ++ l → (∃ e ∈ l, e.touchesSlot = true) → ¬ env.skips) ∧
    (¬ env.skips → ∃ info curTaskData,
      env.gOmptInitialized = true ∧ env.prepareAllInfo = some info ∧
      info.taskType ≠ env.ompt_task_initial ∧ info.taskData = some curTaskData ∧
      checkAccess env address bytesAccessed instnAddr hwLock isWrite s =
        byteLoop env curTaskData
          ⟨isWrite, curTaskData.ptr, instnAddr, hwLock, 0, env.analyzeDataSharing address⟩
          address bytesAccessed 0
          { s with log := s.log ++ [AccessEvent.analyzeDataSharing address] }) := by
  have hskip : env.skips →
      (checkAccess env address bytesAccessed instnAddr hwLock isWrite s).1 = Exit.returned ∧
      (checkAccess env address bytesAccessed instnAddr hwLock isWrite s).2.g = s.g ∧
      (checkAccess env address bytesAccessed instnAddr hwLock isWrite s).2.slots = s.slots ∧
      (checkAccess env address bytesAccessed instnAddr hwLock isWrite s).2.queries =
        s.queries ∧
      ∃ l, (checkAccess env address bytesAccessed instnAddr hwLock isWrite s).2.log =
          s.log ++ l ∧ ∀ e ∈ l, e.touchesSlot = false := by
    intro h
    unfold checkAccess
    by_cases h0 : env.gOmptInitialized = true
    · simp only [h0, Bool.not_true, Bool.false_eq_true, if_false]
      cases hp : env.prepareAllInfo with
      | none => exact ⟨rfl, rfl, rfl, rfl, [], by simp, by simp⟩
      | some info =>
        dsimp only
        by_cases ht : info.taskType = env.ompt_task_initial
        · rw [if_pos ht]
          exact ⟨rfl, rfl, rfl, rfl, [], by simp, by simp⟩
        · rw [if_neg ht]
          cases hd : info.taskData with
          | none =>
            refine ⟨rfl, rfl, rfl, rfl,
              [AccessEvent.analyzeDataSharing address, AccessEvent.warning], by simp, ?_⟩
            intro e he
            simp only [List.mem_cons, List.mem_singleton, List.not_mem_nil, or_false] at he
            rcases he with he | he <;> subst he <;> rfl
          | some td =>
            exfalso
            rcases h with h | h | ⟨i1, h1, h2⟩ | ⟨i1, h1, h2⟩
            · rw [h0] at h; cases h
            · rw [hp] at h; cases h
            · rw [hp] at h1; cases h1; exact ht h2
            · rw [hp] at h1; cases h1; rw [hd] at h2; cases h2
    · have h0f : env.gOmptInitialized = false := by
        cases hx : env.gOmptInitialized
        · rfl
        · exact absurd hx h0
      refine ⟨?_, ?_, ?_, ?_, [], ?_, ?_⟩ <;> simp [h0f]
  refine ⟨hskip, ?_, ?_⟩
  · intro l hl ⟨e, he, hte⟩ hs
    obtain ⟨_, _, _, _, l1, hl1, hnone⟩ := hskip hs
    rw [hl] at hl1
    have : l = l1 := List.append_cancel_left hl1
    subst this
    rw [hnone e he] at hte
    cases hte
  · intro hn
    unfold AccessEnv.skips at hn
    simp only [not_or, not_exists, not_and] at hn
    obtain ⟨h0, hp, ht, hd⟩ := hn
    have h0t : env.gOmptInitialized = true := by
      cases hx : env.gOmptInitialized
      · exact absurd hx h0
      · rfl
    cases hpi : env.prepareAllInfo with
    | none => exact absurd hpi hp
    | some info =>
      cases hdi : info.taskData with
      | none => exact absurd hdi (hd info hpi)
      | some td =>
        refine ⟨info, td, h0t, rfl, ht info hpi, hdi, ?_⟩
        unfold checkAccess
        simp only [h0t, Bool.not_true, Bool.false_eq_true, if_false, hpi, hdi,
          if_neg (ht info hpi)]

/-- Two skipped calls and a checked one on concrete inputs. -/
theorem demo_checkAccess :
    (checkAccess { demoAccessEnv (fun _ _ _ => false) with gOmptInitialized := false }
      4096 2 100 false true demoAccessState).2.log = [] ∧
    (checkAccess { demoAccessEnv (fun _ _ _ => false) with prepareAllInfo := some ⟨4, none⟩ }
      4096 2 100 false true demoAccessState).2.log =
        [AccessEvent.analyzeDataSharing 4096, AccessEvent.warning] ∧
    driverBytes (checkAccess (demoAccessEnv (fun _ _ _ => false))
      4096 2 100 false true demoAccessState).2.log = [4096, 4097] ∧
    (checkAccess (demoAccessEnv (fun _ _ _ => false))
      4096 0 100 false true demoAccessState).2.log = [AccessEvent.analyzeDataSharing 4096] := by
  decide

/-! ## Accesses to thread-private data -/

/-- C17, as stated, fails: a call for thread-private data acquires the reader lock of the slot
(its log starts with `pfqRWLockReadLock`) and changes the slot: `numAccess` and one
slot-local counter are incremented. -/
theorem thread_private_call_touches_slot :
    demoCheckPrivate.dataSharingType = DataSharingType.eThreadPrivateBelowExit ∧
    (checkDataRace demoEnv 5 demoGlobals demoSlot 0 0 demoCheckPrivate).2.trace =
      [⟨Event.pfqRWLockReadLock 7, false⟩, ⟨Event.pfqRWLockReadUnlock 7, false⟩,
        ⟨Event.recordHistoryMap, false⟩] ∧
    (checkDataRace demoEnv 5 demoGlobals demoSlot 0 0 demoCheckPrivate).2.ah ≠ demoSlot ∧
    (checkDataRace demoEnv 5 demoGlobals demoSlot 0 0 demoCheckPrivate).2.ah.numAccess =
      demoSlot.numAccess + 1 ∧
    (checkDataRace demoEnv 5 demoGlobals demoSlot 0 0 demoCheckPrivate).2.ah.counters.noModNoCon =
      demoSlot.counters.noModNoCon + 1 := by
  decide

/-- C17 (amended): for an access whose data-sharing type is `eThreadPrivateBelowExit` or
`eStaticThreadPrivate`, `checkDataRace` returns having only taken and released the reader
lock of the slot (no upgrade, no write lock, no oracle consulted) and leaves the records and
the state word of the slot unchanged; it increments the slot's `numAccess` and the slot-local
and global counter of one `NoMod` bucket (`eNoModRWCon` if the reader lock was contended,
else `eNoModNoCon`). -/
theorem thread_private_access_effects (env : Env) (fuel : Nat) (g : Globals)
    (accessHistory : AccessHistory) (curLabel : Label) (curLockSet : LockSet)
    (checkInfo : CheckInfo)
    (hprivate : checkInfo.dataSharingType = DataSharingType.eThreadPrivateBelowExit ∨
      checkInfo.dataSharingType = DataSharingType.eStaticThreadPrivate)
    (hfuel : 0 < fuel) :
    (checkDataRace env fuel g accessHistory curLabel curLockSet checkInfo).1 =
      Exit.returned ∧
    (checkDataRace env fuel g accessHistory curLabel curLockSet checkInfo).2.trace =
      [⟨Event.pfqRWLockReadLock env.pfqRWLockReadLock.2, false⟩,
        ⟨Event.pfqRWLockReadUnlock env.pfqRWLockReadLock.2, false⟩,
        ⟨Event.recordHistoryMap, false⟩] ∧
    (checkDataRace env fuel g accessHistory curLabel curLockSet checkInfo).2.ah.records =
      accessHistory.records ∧
    (checkDataRace env fuel g accessHistory curLabel curLockSet checkInfo).2.ah.state =
      accessHistory.state ∧
    (checkDataRace env fuel g accessHistory curLabel curLockSet checkInfo).2.ah.numAccess =
      accessHistory.numAccess + 1 ∧
    Counters.bump
        (if env.pfqRWLockReadLock.1 then CounterType.eNoModRWCon else CounterType.eNoModNoCon)
        accessHistory.counters =
      some (checkDataRace env fuel g accessHistory curLabel curLockSet
        checkInfo).2.ah.counters ∧
    Counters.bump
        (if env.pfqRWLockReadLock.1 then CounterType.eNoModRWCon else CounterType.eNoModNoCon)
        g.counters =
      some (checkDataRace env fuel g accessHistory curLabel curLockSet
        checkInfo).2.g.counters := by
  obtain ⟨n, rfl⟩ : ∃ n, fuel = n + 1 := ⟨fuel - 1, by omega⟩
  have hpass : rollback env (mkRecord curLabel curLockSet checkInfo) checkInfo (n + 1)
      (enter env g accessHistory) = (Ctl.finish, enter env g accessHistory) := by
    rw [rollback]
    unfold pass
    rw [if_pos hprivate]
  unfold checkDataRace
  rw [hpass]
  dsimp only
  cases hc : env.pfqRWLockReadLock.1 <;>
    simp [check_finish, enter, emit, getCounterType, Counters.bump, recordHistoryMap, hc]

theorem thread_private_access_effects_witness :
    (checkDataRace demoEnvContended 5 demoGlobals demoSlotOne 0 0 demoCheckPrivate).1 =
      Exit.returned ∧
    (checkDataRace demoEnvContended 5 demoGlobals demoSlotOne 0 0 demoCheckPrivate).2.trace =
      [⟨Event.pfqRWLockReadLock demoEnvContended.pfqRWLockReadLock.2, false⟩,
        ⟨Event.pfqRWLockReadUnlock demoEnvContended.pfqRWLockReadLock.2, false⟩,
        ⟨Event.recordHistoryMap, false⟩] ∧
    (checkDataRace demoEnvContended 5 demoGlobals demoSlotOne 0 0 demoCheckPrivate).2.ah.records =
      demoSlotOne.records ∧
    (checkDataRace demoEnvContended 5 demoGlobals demoSlotOne 0 0 demoCheckPrivate).2.ah.state =
      demoSlotOne.state ∧
    (checkDataRace demoEnvContended 5 demoGlobals demoSlotOne 0 0
        demoCheckPrivate).2.ah.numAccess = demoSlotOne.numAccess + 1 ∧
    Counters.bump
        (if demoEnvContended.pfqRWLockReadLock.1 then CounterType.eNoModRWCon
          else CounterType.eNoModNoCon)
        demoSlotOne.counters =
      some (checkDataRace demoEnvContended 5 demoGlobals demoSlotOne 0 0
        demoCheckPrivate).2.ah.counters ∧
    Counters.bump
        (if demoEnvContended.pfqRWLockReadLock.1 then CounterType.eNoModRWCon
          else CounterType.eNoModNoCon)
        demoGlobals.counters =
      some (checkDataRace demoEnvContended 5 demoGlobals demoSlotOne 0 0
        demoCheckPrivate).2.g.counters :=
  thread_private_access_effects demoEnvContended 5 demoGlobals demoSlotOne 0 0
    demoCheckPrivate (Or.inl rfl) (by decide)

/-! ## Neighbours in the queue -/

theorem Adj.mem_both : ∀ {q : List Nat} {a b : Nat}, Adj q a b → a ∈ q ∧ b ∈ q
  | [], _, _, h => by cases h
  | [_], _, _, h => by cases h
  | x :: y :: r, a, b, h => by
    rcases h with ⟨h1, h2⟩ | h
    · subst h1; subst h2; simp
    · have := Adj.mem_both h
      exact ⟨List.mem_cons_of_mem _ this.1, List.mem_cons_of_mem _ this.2⟩

theorem Adj.cons_adj {q : List Nat} {a b : Nat} (x : Nat) (h : Adj q a b) :
    Adj (x :: q) a b := by
  cases q with
  | nil => cases h
  | cons y r => exact Or.inr h

theorem Adj.not_head : ∀ {r : List Nat} {h a : Nat}, (h :: r).Nodup → ¬ Adj (h :: r) a h
  | [], _, _, _, hadj => by cases hadj
  | y :: r, h, a, hnd, hadj => by
    rcases hadj with ⟨_, h2⟩ | hadj
    · subst h2
      simp at hnd
    · have := (Adj.mem_both hadj).2
      exact (List.nodup_cons.1 hnd).1 this

theorem Adj.succ_unique : ∀ {q : List Nat} {a b c : Nat}, q.Nodup → Adj q a b → Adj q a c →
    b = c
  | [], _, _, _, _, h, _ => by cases h
  | [_], _, _, _, _, h, _ => by cases h
  | x :: y :: r, a, b, c, hnd, h1, h2 => by
    have hx : x ∉ y :: r := (List.nodup_cons.1 hnd).1
    have hnd1 : (y :: r).Nodup := (List.nodup_cons.1 hnd).2
    rcases h1 with ⟨h1a, h1b⟩ | h1
    · rcases h2 with ⟨_, h2b⟩ | h2
      · rw [← h1b, ← h2b]
      · subst h1a
        exact absurd (Adj.mem_both h2).1 hx
    · rcases h2 with ⟨h2a, _⟩ | h2
      · subst h2a
        exact absurd (Adj.mem_both h1).1 hx
      · exact Adj.succ_unique hnd1 h1 h2

theorem Adj.not_last : ∀ {q : List Nat} {a b : Nat}, q.Nodup → Adj q a b →
    q.getLast? ≠ some a
  | [], _, _, _, h => by cases h
  | [_], _, _, _, h => by cases h
  | x :: y :: r, a, b, hnd, h => by
    have hx : x ∉ y :: r := (List.nodup_cons.1 hnd).1
    have hnd1 : (y :: r).Nodup := (List.nodup_cons.1 hnd).2
    rw [List.getLast?_cons_cons]
    rcases h with ⟨h1, _⟩ | h
    · subst h1
      intro hl
      exact hx (List.mem_of_getLast?_eq_some hl)
    · exact Adj.not_last hnd1 h

theorem Adj.exists_pred : ∀ {r : List Nat} {h b : Nat}, b ∈ r → ∃ a, Adj (h :: r) a b
  | [], _, _, hb => by cases hb
  | y :: r, h, b, hb => by
    rcases List.mem_cons.1 hb with hb | hb
    · subst hb
      exact ⟨h, Or.inl ⟨rfl, rfl⟩⟩
    · obtain ⟨a, ha⟩ := Adj.exists_pred (h := y) hb
      exact ⟨a, Or.inr ha⟩

theorem Adj.of_append : ∀ {q : List Nat} {t a b : Nat}, Adj (q ++ [t]) a b →
    Adj q a b ∨ (q.getLast? = some a ∧ b = t)
  | [], _, _, _, h => by cases h
  | [x], t, a, b, h => by
    rcases h with ⟨h1, h2⟩ | h
    · subst h1; subst h2
      exact Or.inr ⟨rfl, rfl⟩
    · cases h
  | x :: y :: r, t, a, b, h => by
    rcases h with ⟨h1, h2⟩ | h
    · exact Or.inl (Or.inl ⟨h1, h2⟩)
    · rcases Adj.of_append (q := y :: r) h with h | ⟨h3, h4⟩
      · exact Or.inl (Or.inr h)
      · exact Or.inr ⟨by rw [List.getLast?_cons_cons]; exact h3, h4⟩

theorem getLast_head_singleton {h : Nat} {r : List Nat} (hnd : (h :: r).Nodup)
    (hl : (h :: r).getLast? = some h) : r = [] := by
  cases r with
  | nil => rfl
  | cons y r =>
    rw [List.getLast?_cons_cons] at hl
    exact absurd (List.mem_of_getLast?_eq_some hl) (List.nodup_cons.1 hnd).1

/-! ## The queue invariant -/

theorem Waits.not_holding {s : McsSys} {a b : Nat} (h : Waits s a b) :
    (s.pc b).holding = false := by
  rcases h with ⟨h, _⟩ | ⟨h, _⟩ | ⟨h, _⟩ <;> rw [h] <;> rfl

theorem Waits.congr_waits {s s1 : McsSys} {a b : Nat} (h : Waits s a b)
    (hp : s1.pc b = s.pc b) (hb : s1.mem.blocked b = s.mem.blocked b)
    (hn : s1.mem.next a = s.mem.next a) : Waits s1 a b := by
  unfold Waits at h ⊢
  rw [hp, hb, hn]
  exact h

theorem waiting_congr {s s1 : McsSys} (q : List Nat)
    (hp : ∀ x ∈ q, (s1.pc x).holding = (s.pc x).holding) : waiting s1 q = waiting s q := by
  cases q with
  | nil => rfl
  | cons h r =>
    show (if (s1.pc h).holding then r else h :: r) = (if (s.pc h).holding then r else h :: r)
    rw [hp h (List.mem_cons_self _ _)]

theorem McsInv.head_of_holding {s : McsSys} {q : List Nat} (h : McsInv s q) {t : Nat}
    (ht : (s.pc t).holding = true) : ∃ r, q = t :: r := by
  have hq : t ∈ q := (h.queued t).2 (by
    cases hp : s.pc t <;> rw [hp] at ht <;> first | rfl | cases ht)
  cases q with
  | nil => cases hq
  | cons x r =>
    rcases List.mem_cons.1 hq with hx | hx
    · exact ⟨r, by rw [hx]⟩
    · obtain ⟨a, ha⟩ := Adj.exists_pred (h := x) hx
      have := (h.behind a t ha).not_holding
      rw [this] at ht
      cases ht

theorem McsInv.head_of_unblocked {s : McsSys} {q : List Nat} (h : McsInv s q) {t : Nat}
    (hp : s.pc t = McsPc.lockSpin) (hb : s.mem.blocked t = false) : ∃ r, q = t :: r := by
  have hq : t ∈ q := (h.queued t).2 (by rw [hp]; rfl)
  cases q with
  | nil => cases hq
  | cons x r =>
    rcases List.mem_cons.1 hq with hx | hx
    · exact ⟨r, by rw [hx]⟩
    · obtain ⟨a, ha⟩ := Adj.exists_pred (h := x) hx
      rcases h.behind a t ha with ⟨h1, _⟩ | ⟨h1, _⟩ | ⟨_, h2, _⟩
      · rw [hp] at h1; cases h1
      · rw [hp] at h1; cases h1
      · rw [hb] at h2; cases h2

theorem McsInv.pred_of_waiter {s : McsSys} {q : List Nat} (h : McsInv s q) {t : Nat}
    (hq : (s.pc t).queued = true) (hh : (s.pc t).holding = false)
    (hs : s.pc t ≠ McsPc.lockSpin) : ∃ a, Adj q a t := by
  have hq : t ∈ q := (h.queued t).2 hq
  cases q with
  | nil => cases hq
  | cons x r =>
    rcases List.mem_cons.1 hq with hx | hx
    · subst hx
      rcases h.head t r rfl with h1 | ⟨h1, _⟩
      · rw [h1] at hh; cases hh
      · exact absurd h1 hs
    · exact Adj.exists_pred hx

theorem McsInv.lockInit_step {s : McsSys} {q : List Nat} (h : McsInv s q) {t : Nat}
    (hpc : s.pc t = McsPc.lockInit) :
    McsInv (McsSys.setPc t McsPc.lockExchange { s with mem := s.mem.setNext t none }) q := by
  have htq : t ∉ q := fun hx => by
    have := (h.queued t).1 hx
    rw [hpc] at this
    cases this
  constructor
  · exact h.nodup
  · exact h.tail
  · intro x
    by_cases hx : x = t
    · subst hx
      simp only [McsSys.setPc, if_true]
      constructor
      · intro hm; exact absurd hm htq
      · intro hm; cases hm
    · simp only [McsSys.setPc, if_neg hx]
      exact h.queued x
  · intro x hxp
    by_cases hx : x = t
    · subst hx
      simp [McsSys.setPc, McsMem.setNext]
    · simp only [McsSys.setPc, if_neg hx] at hxp
      simp only [McsSys.setPc, McsMem.setNext, if_neg hx]
      exact h.fresh x hxp
  · intro x r hq
    have hx : x ≠ t := fun hx => htq (by rw [hq, hx]; exact List.mem_cons_self _ _)
    simp only [McsSys.setPc, if_neg hx]
    exact h.head x r hq
  · intro a b hab
    have ha : a ≠ t := fun hx => htq (hx ▸ (Adj.mem_both hab).1)
    have hb : b ≠ t := fun hx => htq (hx ▸ (Adj.mem_both hab).2)
    refine (h.behind a b hab).congr_waits ?_ ?_ ?_
    · simp only [McsSys.setPc, if_neg hb]
    · rfl
    · simp only [McsSys.setPc, McsMem.setNext, if_neg ha]
  · intro l hl
    have hlt : l ≠ t := fun hx => htq (hx ▸ List.mem_of_getLast?_eq_some hl)
    simp only [McsSys.setPc, McsMem.setNext, if_neg hlt]
    exact h.last l hl
  · intro x n hxp
    by_cases hx : x = t
    · subst hx
      simp [McsSys.setPc] at hxp
    · simp only [McsSys.setPc, if_neg hx] at hxp
      simp only [McsSys.setPc, McsMem.setNext, if_neg hx]
      exact h.signal x n hxp
  · show s.arrivals = s.entries ++ waiting _ q
    rw [waiting_congr q (s := s)]
    · exact h.fifo
    · intro x hx
      have hxt : x ≠ t := fun hxt => htq (hxt ▸ hx)
      simp only [McsSys.setPc, if_neg hxt]

theorem McsInv.exchange_free {s : McsSys} {q : List Nat} (h : McsInv s q) {t : Nat}
    (hpc : s.pc t = McsPc.lockExchange) (htail : s.mem.tail = none) :
    McsInv (McsSys.setPc t McsPc.critical
      { s with mem := { s.mem with tail := some t }, arrivals := s.arrivals ++ [t],
               entries := s.entries ++ [t] }) [t] := by
  have hq : q = [] := by
    have := h.tail
    rw [htail] at this
    exact List.getLast?_eq_none_iff.1 this.symm
  subst hq
  constructor
  · simp
  · rfl
  · intro x
    by_cases hx : x = t
    · subst hx
      simp [McsSys.setPc, McsPc.queued]
    · simp only [McsSys.setPc, if_neg hx, List.mem_singleton]
      constructor
      · intro hm; exact absurd hm hx
      · intro hm
        have := (h.queued x).2 hm
        cases this
  · intro x hxp
    by_cases hx : x = t
    · subst hx
      simp [McsSys.setPc] at hxp
    · simp only [McsSys.setPc, if_neg hx] at hxp
      exact h.fresh x hxp
  · intro x r hq
    simp only [List.cons.injEq] at hq
    rw [← hq.1]
    left
    simp [McsSys.setPc, McsPc.holding]
  · intro a b hab
    cases hab
  · intro l hl
    simp only [List.getLast?_singleton, Option.some.injEq] at hl
    subst hl
    exact h.fresh _ hpc
  · intro x n hxp
    by_cases hx : x = t
    · subst hx
      simp [McsSys.setPc] at hxp
    · simp only [McsSys.setPc, if_neg hx] at hxp
      exact h.signal x n hxp
  · have hf := h.fifo
    simp only [waiting, List.append_nil] at hf
    show s.arrivals ++ [t] = (s.entries ++ [t]) ++ waiting _ [t]
    simp [waiting, McsSys.setPc, McsPc.holding, hf]

theorem waiting_append (s : McsSys) (q : List Nat) (t : Nat) (hq : q ≠ []) :
    waiting s (q ++ [t]) = waiting s q ++ [t] := by
  cases q with
  | nil => exact absurd rfl hq
  | cons x r =>
    show (if (s.pc x).holding then r ++ [t] else x :: (r ++ [t])) =
      (if (s.pc x).holding then r else x :: r) ++ [t]
    split <;> rfl

theorem McsInv.exchange_behind {s : McsSys} {q : List Nat} (h : McsInv s q) {t p : Nat}
    (hpc : s.pc t = McsPc.lockExchange) (htail : s.mem.tail = some p) :
    McsInv (McsSys.setPc t (McsPc.lockSetBlocked p)
      { s with mem := { s.mem with tail := some t }, arrivals := s.arrivals ++ [t] })
      (q ++ [t]) := by
  have htq : t ∉ q := fun hx => by
    have := (h.queued t).1 hx
    rw [hpc] at this
    cases this
  have hlast : q.getLast? = some p := by rw [← h.tail]; exact htail
  have hne : q ≠ [] := by
    intro hq
    rw [hq] at hlast
    cases hlast
  constructor
  · rw [List.nodup_append]
    refine ⟨h.nodup, by simp, ?_⟩
    intro a ha hb
    simp only [List.mem_singleton] at hb
    exact htq (hb ▸ ha)
  · show some t = (q ++ [t]).getLast?
    simp
  · intro x
    by_cases hx : x = t
    · subst hx
      simp [McsSys.setPc, McsPc.queued]
    · simp only [McsSys.setPc, if_neg hx, List.mem_append, List.mem_singleton, hx, or_false]
      exact h.queued x
  · intro x hxp
    by_cases hx : x = t
    · subst hx
      simp [McsSys.setPc] at hxp
    · simp only [McsSys.setPc, if_neg hx] at hxp
      exact h.fresh x hxp
  · intro x r hq
    cases q with
    | nil => exact absurd rfl hne
    | cons y r0 =>
      simp only [List.cons_append, List.cons.injEq] at hq
      have hxy : x = y := hq.1.symm
      subst hxy
      have hx : x ≠ t := fun hx => htq (hx ▸ List.mem_cons_self _ _)
      simp only [McsSys.setPc, if_neg hx]
      exact h.head x r0 rfl
  · intro a b hab
    rcases Adj.of_append hab with hab | ⟨hla, hbt⟩
    · have hb : b ≠ t := fun hx => htq (hx ▸ (Adj.mem_both hab).2)
      refine (h.behind a b hab).congr_waits ?_ rfl rfl
      simp only [McsSys.setPc, if_neg hb]
    · subst hbt
      rw [hlast] at hla
      simp only [Option.some.injEq] at hla
      subst hla
      left
      exact ⟨by simp [McsSys.setPc], h.last _ hlast⟩
  · intro l hl
    have hl1 : (q ++ [t]).getLast? = some t := by simp
    rw [hl1] at hl
    simp only [Option.some.injEq] at hl
    subst hl
    exact h.fresh _ hpc
  · intro x n hxp
    by_cases hx : x = t
    · subst hx
      simp [McsSys.setPc] at hxp
    · simp only [McsSys.setPc, if_neg hx] at hxp
      exact h.signal x n hxp
  · show s.arrivals ++ [t] = s.entries ++ waiting _ (q ++ [t])
    rw [waiting_append _ q t hne, waiting_congr q (s := s), h.fifo, List.append_assoc]
    intro x hx
    have hxt : x ≠ t := fun hxt => htq (hxt ▸ hx)
    simp only [McsSys.setPc, if_neg hxt]

theorem McsInv.setBlocked_step {s : McsSys} {q : List Nat} (h : McsInv s q) {t p : Nat}
    (hpc : s.pc t = McsPc.lockSetBlocked p) :
    McsInv (McsSys.setPc t (McsPc.lockLink p) { s with mem := s.mem.setBlocked t true })
      q := by
  have hhold : (s.pc t).holding = false := by rw [hpc]; rfl
  constructor
  · exact h.nodup
  · exact h.tail
  · intro x
    by_cases hx : x = t
    · subst hx
      simp only [McsSys.setPc, if_true]
      rw [h.queued x, hpc]
      rfl
    · simp only [McsSys.setPc, if_neg hx]
      exact h.queued x
  · intro x hxp
    by_cases hx : x = t
    · subst hx
      simp [McsSys.setPc] at hxp
    · simp only [McsSys.setPc, if_neg hx] at hxp
      exact h.fresh x hxp
  · intro x r hq
    have hx : x ≠ t := by
      intro hx
      subst hx
      rcases h.head x r hq with h1 | ⟨h1, _⟩
      · rw [hhold] at h1; cases h1
      · rw [hpc] at h1; cases h1
    simp only [McsSys.setPc, McsMem.setBlocked, if_neg hx]
    exact h.head x r hq
  · intro a b hab
    by_cases hb : b = t
    · subst hb
      rcases h.behind a b hab with ⟨h1, h2⟩ | ⟨h1, _⟩ | ⟨h1, _⟩
      · rw [hpc] at h1
        simp only [McsPc.lockSetBlocked.injEq] at h1
        subst h1
        right; left
        exact ⟨by simp [McsSys.setPc], by simp [McsSys.setPc, McsMem.setBlocked], h2⟩
      · rw [hpc] at h1; cases h1
      · rw [hpc] at h1; cases h1
    · refine (h.behind a b hab).congr_waits ?_ ?_ rfl
      · simp only [McsSys.setPc, if_neg hb]
      · simp only [McsSys.setPc, McsMem.setBlocked, if_neg hb]
  · exact h.last
  · intro x n hxp
    by_cases hx : x = t
    · subst hx
      simp [McsSys.setPc] at hxp
    · simp only [McsSys.setPc, if_neg hx] at hxp
      exact h.signal x n hxp
  · show s.arrivals = s.entries ++ waiting _ q
    rw [waiting_congr q (s := s)]
    · exact h.fifo
    · intro x _
      by_cases hx : x = t
      · subst hx
        simp only [McsSys.setPc, if_true]
        rw [hhold]; rfl
      · simp only [McsSys.setPc, if_neg hx]

theorem McsInv.link_step {s : McsSys} {q : List Nat} (h : McsInv s q) {t p : Nat}
    (hpc : s.pc t = McsPc.lockLink p) :
    McsInv (McsSys.setPc t McsPc.lockSpin { s with mem := s.mem.setNext p (some t) }) q := by
  have hhold : (s.pc t).holding = false := by rw [hpc]; rfl
  obtain ⟨a0, ha0⟩ := h.pred_of_waiter (by rw [hpc]; rfl) hhold (by rw [hpc]; intro hx; cases hx)
  have hpt : Adj q p t ∧ s.mem.blocked t = true ∧ s.mem.next p = none := by
    rcases h.behind a0 t ha0 with ⟨h1, _⟩ | ⟨h1, h2, h3⟩ | ⟨h1, _⟩
    · rw [hpc] at h1; cases h1
    · rw [hpc] at h1
      simp only [McsPc.lockLink.injEq] at h1
      subst h1
      exact ⟨ha0, h2, h3⟩
    · rw [hpc] at h1; cases h1
  obtain ⟨hadj, hblk, hnext⟩ := hpt
  have hpq : (s.pc p).queued = true := (h.queued p).1 (Adj.mem_both hadj).1
  constructor
  · exact h.nodup
  · exact h.tail
  · intro x
    by_cases hx : x = t
    · subst hx
      simp only [McsSys.setPc, if_true]
      rw [h.queued x, hpc]
      rfl
    · simp only [McsSys.setPc, if_neg hx]
      exact h.queued x
  · intro x hxp
    by_cases hx : x = t
    · subst hx
      simp [McsSys.setPc] at hxp
    · simp only [McsSys.setPc, if_neg hx] at hxp
      have hxp1 : x ≠ p := by
        intro hxp1
        subst hxp1
        rw [hxp] at hpq
        cases hpq
      simp only [McsSys.setPc, McsMem.setNext, if_neg hxp1]
      exact h.fresh x hxp
  · intro x r hq
    have hx : x ≠ t := by
      intro hx
      subst hx
      rcases h.head x r hq with h1 | ⟨h1, _⟩
      · rw [hhold] at h1; cases h1
      · rw [hpc] at h1; cases h1
    simp only [McsSys.setPc, if_neg hx]
    exact h.head x r hq
  · intro a b hab
    by_cases hb : b = t
    · subst hb
      have hap : a = p := by
        rcases h.behind a b hab with ⟨h1, _⟩ | ⟨h1, _⟩ | ⟨h1, _⟩
        · rw [hpc] at h1; cases h1
        · rw [hpc] at h1
          simp only [McsPc.lockLink.injEq] at h1
          exact h1.symm
        · rw [hpc] at h1; cases h1
      subst hap
      right; right
      exact ⟨by simp [McsSys.setPc], hblk, by simp [McsSys.setPc, McsMem.setNext]⟩
    · have hap : a ≠ p := by
        intro hap
        subst hap
        exact hb (Adj.succ_unique h.nodup hab hadj)
      refine (h.behind a b hab).congr_waits ?_ rfl ?_
      · simp only [McsSys.setPc, if_neg hb]
      · simp only [McsSys.setPc, McsMem.setNext, if_neg hap]
  · intro l hl
    have hlp : l ≠ p := by
      intro hlp
      subst hlp
      exact Adj.not_last h.nodup hadj hl
    simp only [McsSys.setPc, McsMem.setNext, if_neg hlp]
    exact h.last l hl
  · intro x n hxp
    by_cases hx : x = t
    · subst hx
      simp [McsSys.setPc] at hxp
    · simp only [McsSys.setPc, if_neg hx] at hxp
      have hxp1 : x ≠ p := by
        intro hxp1
        subst hxp1
        have := h.signal x n hxp
        rw [hnext] at this
        cases this
      simp only [McsSys.setPc, McsMem.setNext, if_neg hxp1]
      exact h.signal x n hxp
  · show s.arrivals = s.entries ++ waiting _ q
    rw [waiting_congr q (s := s)]
    · exact h.fifo
    · intro x _
      by_cases hx : x = t
      · subst hx
        simp only [McsSys.setPc, if_true]
        rw [hhold]; rfl
      · simp only [McsSys.setPc, if_neg hx]

theorem McsInv.enter_step {s : McsSys} {q : List Nat} (h : McsInv s q) {t : Nat}
    (hpc : s.pc t = McsPc.lockSpin) (hb : s.mem.blocked t = false) :
    McsInv (McsSys.setPc t McsPc.critical { s with entries := s.entries ++ [t] }) q := by
  obtain ⟨r0, hq0⟩ := h.head_of_unblocked hpc hb
  subst hq0
  constructor
  · exact h.nodup
  · exact h.tail
  · intro x
    by_cases hx : x = t
    · subst hx
      simp [McsSys.setPc, McsPc.queued]
    · simp only [McsSys.setPc, if_neg hx]
      exact h.queued x
  · intro x hxp
    by_cases hx : x = t
    · subst hx
      simp [McsSys.setPc] at hxp
    · simp only [McsSys.setPc, if_neg hx] at hxp
      exact h.fresh x hxp
  · intro x r hq
    simp only [List.cons.injEq] at hq
    rw [← hq.1]
    left
    simp [McsSys.setPc, McsPc.holding]
  · intro a b hab
    have hbt : b ≠ t := by
      intro hbt
      subst hbt
      exact Adj.not_head h.nodup hab
    refine (h.behind a b hab).congr_waits ?_ rfl rfl
    simp only [McsSys.setPc, if_neg hbt]
  · exact h.last
  · intro x n hxp
    by_cases hx : x = t
    · subst hx
      simp [McsSys.setPc] at hxp
    · simp only [McsSys.setPc, if_neg hx] at hxp
      exact h.signal x n hxp
  · have hf := h.fifo
    have hw : waiting s (t :: r0) = t :: r0 := by
      show (if (s.pc t).holding then r0 else t :: r0) = t :: r0
      rw [hpc]; rfl
    rw [hw] at hf
    show s.arrivals = (s.entries ++ [t]) ++ waiting _ (t :: r0)
    have hw1 : waiting (McsSys.setPc t McsPc.critical
        { s with entries := s.entries ++ [t] }) (t :: r0) = r0 := by
      show (if (McsPc.holding (if t = t then McsPc.critical else s.pc t)) then r0
        else t :: r0) = r0
      simp [McsPc.holding]
    rw [hw1, hf]
    simp

theorem McsInv.holder_move {s : McsSys} {q : List Nat} (h : McsInv s q) {t : Nat}
    (p : McsPc) (hold : (s.pc t).holding = true) (hp : p.holding = true)
    (hsig : ∀ n, p = McsPc.unlockSignal n → s.mem.next t = some n) :
    McsInv (McsSys.setPc t p s) q := by
  obtain ⟨r0, hq0⟩ := h.head_of_holding hold
  subst hq0
  have hpq : p.queued = true := by cases p <;> first | rfl | cases hp
  constructor
  · exact h.nodup
  · exact h.tail
  · intro x
    by_cases hx : x = t
    · subst hx
      simp [McsSys.setPc, hpq]
    · simp only [McsSys.setPc, if_neg hx]
      exact h.queued x
  · intro x hxp
    by_cases hx : x = t
    · subst hx
      simp only [McsSys.setPc, if_true] at hxp
      rw [hxp] at hp
      cases hp
    · simp only [McsSys.setPc, if_neg hx] at hxp
      exact h.fresh x hxp
  · intro x r hq
    simp only [List.cons.injEq] at hq
    rw [← hq.1]
    left
    simp [McsSys.setPc, hp]
  · intro a b hab
    have hbt : b ≠ t := by
      intro hbt
      subst hbt
      exact Adj.not_head h.nodup hab
    refine (h.behind a b hab).congr_waits ?_ rfl rfl
    simp only [McsSys.setPc, if_neg hbt]
  · exact h.last
  · intro x n hxp
    by_cases hx : x = t
    · subst hx
      simp only [McsSys.setPc, if_true] at hxp
      exact hsig n hxp
    · simp only [McsSys.setPc, if_neg hx] at hxp
      exact h.signal x n hxp
  · show s.arrivals = s.entries ++ waiting _ (t :: r0)
    rw [waiting_congr (t :: r0) (s := s)]
    · exact h.fifo
    · intro x _
      by_cases hx : x = t
      · subst hx
        simp only [McsSys.setPc, if_true]
        rw [hp, hold]
      · simp only [McsSys.setPc, if_neg hx]

theorem McsInv.release_step {s : McsSys} {q : List Nat} (h : McsInv s q) {t : Nat}
    (hpc : s.pc t = McsPc.unlockCas) (htail : s.mem.tail = some t) :
    McsInv (McsSys.setPc t McsPc.lockInit { s with mem := { s.mem with tail := none } })
      [] := by
  obtain ⟨r0, hq0⟩ := h.head_of_holding (t := t) (by rw [hpc]; rfl)
  subst hq0
  have hr0 : r0 = [] := getLast_head_singleton h.nodup (by rw [← h.tail]; exact htail)
  subst hr0
  constructor
  · simp
  · rfl
  · intro x
    by_cases hx : x = t
    · subst hx
      simp [McsSys.setPc, McsPc.queued]
    · simp only [McsSys.setPc, if_neg hx, List.not_mem_nil, false_iff]
      intro hm
      have := (h.queued x).2 hm
      simp only [List.mem_singleton] at this
      exact hx this
  · intro x hxp
    by_cases hx : x = t
    · subst hx
      simp [McsSys.setPc] at hxp
    · simp only [McsSys.setPc, if_neg hx] at hxp
      exact h.fresh x hxp
  · intro x r hq
    cases hq
  · intro a b hab
    cases hab
  · intro l hl
    cases hl
  · intro x n hxp
    by_cases hx : x = t
    · subst hx
      simp [McsSys.setPc] at hxp
    · simp only [McsSys.setPc, if_neg hx] at hxp
      exact h.signal x n hxp
  · have hf := h.fifo
    have hw : waiting s [t] = [] := by
      show (if (s.pc t).holding then [] else [t]) = []
      rw [hpc]; rfl
    rw [hw] at hf
    exact hf

theorem McsInv.signal_step {s : McsSys} {q : List Nat} (h : McsInv s q) {t n : Nat}
    (hpc : s.pc t = McsPc.unlockSignal n) :
    ∃ q1, McsInv (McsSys.setPc t McsPc.lockInit
      { s with mem := s.mem.setBlocked n false }) q1 := by
  have hold : (s.pc t).holding = true := by rw [hpc]; rfl
  obtain ⟨r0, hq0⟩ := h.head_of_holding hold
  subst hq0
  have hnext := h.signal t n hpc
  cases r0 with
  | nil =>
    have := h.last t rfl
    rw [hnext] at this
    cases this
  | cons b r1 =>
    have hadj : Adj (t :: b :: r1) t b := Or.inl ⟨rfl, rfl⟩
    have hbn : b = n ∧ s.pc b = McsPc.lockSpin := by
      rcases h.behind t b hadj with ⟨_, h2⟩ | ⟨_, _, h2⟩ | ⟨h1, _, h2⟩
      · rw [hnext] at h2; cases h2
      · rw [hnext] at h2; cases h2
      · rw [hnext] at h2
        simp only [Option.some.injEq] at h2
        exact ⟨h2.symm, h1⟩
    obtain ⟨hbn1, hbpc⟩ := hbn
    subst hbn1
    have hnd : (b :: r1).Nodup := (List.nodup_cons.1 h.nodup).2
    have htr : t ∉ b :: r1 := (List.nodup_cons.1 h.nodup).1
    have hbt : b ≠ t := fun hx => htr (hx ▸ List.mem_cons_self _ _)
    refine ⟨b :: r1, ?_⟩
    constructor
    · exact hnd
    · show s.mem.tail = (b :: r1).getLast?
      rw [h.tail, List.getLast?_cons_cons]
    · intro x
      by_cases hx : x = t
      · subst hx
        simp only [McsSys.setPc, if_true]
        constructor
        · intro hm; exact absurd hm htr
        · intro hm; cases hm
      · simp only [McsSys.setPc, if_neg hx]
        rw [← h.queued x]
        simp [hx]
    · intro x hxp
      by_cases hx : x = t
      · subst hx
        simp [McsSys.setPc] at hxp
      · simp only [McsSys.setPc, if_neg hx] at hxp
        exact h.fresh x hxp
    · intro x r hq
      simp only [List.cons.injEq] at hq
      rw [← hq.1]
      right
      exact ⟨by simp only [McsSys.setPc, if_neg hbt]; exact hbpc,
        by simp [McsSys.setPc, McsMem.setBlocked]⟩
    · intro a c hac
      have hct : c ≠ t := fun hx => htr (hx ▸ (Adj.mem_both hac).2)
      have hcb : c ≠ b := by
        intro hcb
        subst hcb
        exact Adj.not_head hnd hac
      refine (h.behind a c (Adj.cons_adj t hac)).congr_waits ?_ ?_ rfl
      · simp only [McsSys.setPc, if_neg hct]
      · simp only [McsSys.setPc, McsMem.setBlocked, if_neg hcb]
    · intro l hl
      exact h.last l (by rw [List.getLast?_cons_cons]; exact hl)
    · intro x m hxp
      by_cases hx : x = t
      · subst hx
        simp [McsSys.setPc] at hxp
      · simp only [McsSys.setPc, if_neg hx] at hxp
        exact h.signal x m hxp
    · have hf := h.fifo
      have hw : waiting s (t :: b :: r1) = b :: r1 := by
        show (if (s.pc t).holding then b :: r1 else t :: b :: r1) = b :: r1
        rw [hold]; rfl
      rw [hw] at hf
      show s.arrivals = s.entries ++ waiting _ (b :: r1)
      have hw1 : waiting (McsSys.setPc t McsPc.lockInit
          { s with mem := s.mem.setBlocked b false }) (b :: r1) = b :: r1 := by
        show (if (McsPc.holding (if b = t then McsPc.lockInit else s.pc b)) then r1
          else b :: r1) = b :: r1
        rw [if_neg hbt, hbpc]
        rfl
      rw [hw1]
      exact hf

/-- Every step of every thread keeps the queue invariant. -/
theorem McsInv.mcsStep_inv {s : McsSys} {q : List Nat} (h : McsInv s q) (t : Nat) :
    ∃ q1, McsInv (mcsStep t s) q1 := by
  unfold mcsStep
  cases hpc : s.pc t with
  | lockInit => exact ⟨q, h.lockInit_step hpc⟩
  | lockExchange =>
    dsimp only
    cases htail : s.mem.tail with
    | none => exact ⟨[t], h.exchange_free hpc htail⟩
    | some p => exact ⟨q ++ [t], h.exchange_behind hpc htail⟩
  | lockSetBlocked p => exact ⟨q, h.setBlocked_step hpc⟩
  | lockLink p => exact ⟨q, h.link_step hpc⟩
  | lockSpin =>
    dsimp only
    cases hb : s.mem.blocked t with
    | true => exact ⟨q, by simpa using h⟩
    | false => exact ⟨q, by simpa using h.enter_step hpc hb⟩
  | critical =>
    dsimp only
    cases hn : s.mem.next t with
    | none =>
      exact ⟨q, h.holder_move McsPc.unlockCas (by rw [hpc]; rfl) rfl
        (fun n hx => by cases hx)⟩
    | some n =>
      exact ⟨q, h.holder_move (McsPc.unlockSignal n) (by rw [hpc]; rfl) rfl
        (fun m hx => by cases hx; exact hn)⟩
  | unlockCas =>
    dsimp only
    unfold McsMem.casTail
    by_cases htail : s.mem.tail = some t
    · simp only [htail, if_true]
      exact ⟨[], h.release_step hpc htail⟩
    · simp only [if_neg htail, Bool.false_eq_true, if_false]
      exact ⟨q, h.holder_move McsPc.unlockWait (by rw [hpc]; rfl) rfl
        (fun n hx => by cases hx)⟩
  | unlockWait =>
    dsimp only
    cases hn : s.mem.next t with
    | none => exact ⟨q, h⟩
    | some n =>
      exact ⟨q, h.holder_move (McsPc.unlockSignal n) (by rw [hpc]; rfl) rfl
        (fun m hx => by cases hx; exact hn)⟩
  | unlockSignal n => exact h.signal_step hpc

theorem McsInv.mcsRun_inv : ∀ (schedule : List Nat) {s : McsSys} {q : List Nat},
    McsInv s q → ∃ q1, McsInv (mcsRun schedule s) q1
  | [], s, q, h => ⟨q, h⟩
  | t :: schedule, s, q, h => by
    obtain ⟨q1, h1⟩ := h.mcsStep_inv t
    exact McsInv.mcsRun_inv schedule h1

theorem McsInv.initial_inv (next : Nat → Option Nat) (blocked : Nat → Bool) :
    McsInv (mcsInitial next blocked) [] := by
  constructor
  · simp
  · rfl
  · intro t
    simp [mcsInitial, McsPc.queued]
  · intro t ht
    cases ht
  · intro h r hq
    cases hq
  · intro a b hab
    cases hab
  · intro l hl
    cases hl
  · intro t n ht
    cases ht
  · rfl

/-! ## Mutual exclusion and arrival order -/

/-- At most one thread has the lock. -/
theorem mcs_one_holder (next : Nat → Option Nat) (blocked : Nat → Bool)
    (schedule : List Nat) (a b : Nat)
    (ha : ((mcsRun schedule (mcsInitial next blocked)).pc a).holding = true)
    (hb : ((mcsRun schedule (mcsInitial next blocked)).pc b).holding = true) : a = b := by
  obtain ⟨q, h⟩ := McsInv.mcsRun_inv schedule (McsInv.initial_inv next blocked)
  obtain ⟨r1, h1⟩ := h.head_of_holding ha
  obtain ⟨r2, h2⟩ := h.head_of_holding hb
  rw [h1] at h2
  simp only [List.cons.injEq] at h2
  exact h2.1

/-- C12: in every interleaving (any schedule of atomic steps, from a free lock, whatever the
nodes hold initially) of any number of threads that each run `mcsLock`, a critical section and
`mcsUnlock` on their own node, when a thread `a` is between the return of its `mcsLock` and
the start of its `mcsUnlock`, no other thread `b` is: `b` is not in its critical section, and
not inside `mcsUnlock` either. -/
theorem mcs_mutual_exclusion (next : Nat → Option Nat) (blocked : Nat → Bool)
    (schedule : List Nat) (a b : Nat)
    (ha : (mcsRun schedule (mcsInitial next blocked)).pc a = McsPc.critical)
    (hne : b ≠ a) :
    (mcsRun schedule (mcsInitial next blocked)).pc b ≠ McsPc.critical ∧
    ((mcsRun schedule (mcsInitial next blocked)).pc b).holding = false := by
  have hb : ((mcsRun schedule (mcsInitial next blocked)).pc b).holding = false := by
    cases hh : ((mcsRun schedule (mcsInitial next blocked)).pc b).holding
    · rfl
    · exact absurd (mcs_one_holder next blocked schedule b a hh (by rw [ha]; rfl)) hne
  refine ⟨?_, hb⟩
  intro hc
  rw [hc] at hb
  cases hb

theorem mcs_mutual_exclusion_witness :
    (mcsRun [1, 1, 2, 2, 2, 2, 2] (mcsInitial (fun _ => some 9) (fun _ => false))).pc 2 ≠
      McsPc.critical ∧
    ((mcsRun [1, 1, 2, 2, 2, 2, 2] (mcsInitial (fun _ => some 9) (fun _ => false))).pc
      2).holding = false :=
  mcs_mutual_exclusion (fun _ => some 9) (fun _ => false) [1, 1, 2, 2, 2, 2, 2] 1 2
    (by decide) (by decide)

/-- C13: in every interleaving of threads running `mcsLock` / `mcsUnlock`, the threads return
from `mcsLock` in exactly the order in which their exchanges on `l->tail` took effect: at
every moment the list of the returns so far is an initial segment of the list of the
exchanges so far, so the `k`-th thread to enter is the `k`-th to have exchanged. -/
theorem mcs_fifo (next : Nat → Option Nat) (blocked : Nat → Bool) (schedule : List Nat) :
    (mcsRun schedule (mcsInitial next blocked)).entries <+:
      (mcsRun schedule (mcsInitial next blocked)).arrivals ∧
    (∀ k t, (mcsRun schedule (mcsInitial next blocked)).entries.get? k = some t →
      (mcsRun schedule (mcsInitial next blocked)).arrivals.get? k = some t) := by
  obtain ⟨q, h⟩ := McsInv.mcsRun_inv schedule (McsInv.initial_inv next blocked)
  have hp : (mcsRun schedule (mcsInitial next blocked)).entries <+:
      (mcsRun schedule (mcsInitial next blocked)).arrivals := ⟨_, h.fifo.symm⟩
  refine ⟨hp, ?_⟩
  intro k t hk
  rw [h.fifo]
  have hlt : k < (mcsRun schedule (mcsInitial next blocked)).entries.length := by
    rcases Nat.lt_or_ge k (mcsRun schedule (mcsInitial next blocked)).entries.length with
      hlt | hge
    · exact hlt
    · rw [List.get?_eq_none.2 hge] at hk
      cases hk
  rw [List.get?_eq_getElem?, List.getElem?_append_left hlt, ← List.get?_eq_getElem?]
  exact hk

/-- Two threads contend: thread 2 exchanges first, thread 1 queues behind it, spins while 2 is
in its critical section, and enters after 2 has signalled it. -/
theorem demo_mcs_handover :
    (mcsRun [1, 2, 2, 1, 1, 1, 1] (mcsInitial (fun _ => some 9) (fun _ => false))).pc 2 =
      McsPc.critical ∧
    (mcsRun [1, 2, 2, 1, 1, 1, 1] (mcsInitial (fun _ => some 9) (fun _ => false))).pc 1 =
      McsPc.lockSpin ∧
    (mcsRun [1, 2, 2, 1, 1, 1, 1, 2, 2, 1]
      (mcsInitial (fun _ => some 9) (fun _ => false))).pc 1 = McsPc.critical ∧
    (mcsRun [1, 2, 2, 1, 1, 1, 1, 2, 2, 1]
      (mcsInitial (fun _ => some 9) (fun _ => false))).pc 2 = McsPc.lockInit ∧
    (mcsRun [1, 2, 2, 1, 1, 1, 1, 2, 2, 1]
      (mcsInitial (fun _ => some 9) (fun _ => false))).arrivals = [2, 1] ∧
    (mcsRun [1, 2, 2, 1, 1, 1, 1, 2, 2, 1]
      (mcsInitial (fun _ => some 9) (fun _ => false))).entries = [2, 1] ∧
    (mcsRun [1, 2, 2, 1, 1, 1, 1, 2, 2, 1, 1, 1]
      (mcsInitial (fun _ => some 9) (fun _ => false))).mem.tail = none := by
  decide

/-! ## No dereference of a null `records` pointer -/

theorem Allocated.applyDecision_allocated {s : St} (h : Allocated s) (env : Env)
    (cur : Record) (st : AccessHistoryState) (a : RecordManagement) (it : Nat) :
    ∃ it1 s1, Romp.applyDecision env cur st a it s = some (it1, s1) ∧ Allocated s1 := by
  unfold Romp.applyDecision
  dsimp only
  cases hrec : s.ah.records with
  | none => exact absurd hrec h
  | some rs =>
    have h1 : (Romp.setState st s).ah.records = some rs := hrec
    rw [h1]
    exact ⟨_, _, rfl, by intro hx; cases hx⟩

theorem Allocated.upgradeHelper_allocated {s : St} (h : Allocated s) (env : Env)
    (hu : ¬ (Romp.upgradeHelper env s).1 = true) : Allocated (Romp.upgradeHelper env s).2 := by
  unfold Allocated
  rw [upgradeHelper_proceed_ah env s hu]
  exact h

theorem recordLoop_nullFree (env : Env) (cur : Record) (ci : CheckInfo) :
    ∀ (fuel it : Nat) (d : Int) (s : St), Allocated s →
      NullFree (recordLoop env cur ci fuel it d s)
  | 0, _, _, s, _ => by rw [recordLoop]; intro h; cases h
  | fuel + 1, it, d, s, hs => by
    rw [recordLoop]
    cases hrec : s.ah.records with
    | none => exact absurd hrec hs
    | some rs =>
      dsimp only
      split
      · intro h; cases h
      · split
        · intro h; cases h
        · rename_i hist _
          split
          · intro h; cases h
          · have hs3 : Allocated (emit (Event.manageAccessRecord hist)
                (emit (Event.analyzeRaceCondition hist
                  (env.analyzeRaceCondition hist cur
                    (env.happensBefore hist.label cur.label d).1
                    (env.happensBefore hist.label cur.label d).2))
                  (emit (Event.happensBefore hist.label cur.label) s))) := hs
            split
            · obtain ⟨it1, s1, he, hs1⟩ := hs3.applyDecision_allocated env cur
                (env.manageAccessRecord (emit (Event.analyzeRaceCondition hist
                  (env.analyzeRaceCondition hist cur
                    (env.happensBefore hist.label cur.label d).1
                    (env.happensBefore hist.label cur.label d).2))
                  (emit (Event.happensBefore hist.label cur.label) s)).ah hist cur
                  (env.happensBefore hist.label cur.label d).1
                  (env.happensBefore hist.label cur.label d).2).1
                (env.manageAccessRecord (emit (Event.analyzeRaceCondition hist
                  (env.analyzeRaceCondition hist cur
                    (env.happensBefore hist.label cur.label d).1
                    (env.happensBefore hist.label cur.label d).2))
                  (emit (Event.happensBefore hist.label cur.label) s)).ah hist cur
                  (env.happensBefore hist.label cur.label d).1
                  (env.happensBefore hist.label cur.label d).2).2 it
              rw [he]
              exact recordLoop_nullFree env cur ci fuel it1 _ s1 hs1
            · split
              · intro h; cases h
              · rename_i hu
                obtain ⟨it1, s1, he, hs1⟩ := (hs3.upgradeHelper_allocated env
                  hu).applyDecision_allocated env cur
                  (env.manageAccessRecord (emit (Event.analyzeRaceCondition hist
                    (env.analyzeRaceCondition hist cur
                      (env.happensBefore hist.label cur.label d).1
                      (env.happensBefore hist.label cur.label d).2))
                    (emit (Event.happensBefore hist.label cur.label) s)).ah hist cur
                    (env.happensBefore hist.label cur.label d).1
                    (env.happensBefore hist.label cur.label d).2).1
                  (env.manageAccessRecord (emit (Event.analyzeRaceCondition hist
                    (env.analyzeRaceCondition hist cur
                      (env.happensBefore hist.label cur.label d).1
                      (env.happensBefore hist.label cur.label d).2))
                    (emit (Event.happensBefore hist.label cur.label) s)).ah hist cur
                    (env.happensBefore hist.label cur.label d).1
                    (env.happensBefore hist.label cur.label d).2).2 it
                rw [he]
                exact recordLoop_nullFree env cur ci fuel it1 _ s1 hs1

theorem historyStage_nullFree (env : Env) (cur : Record) (ci : CheckInfo) (fuel : Nat)
    (s : St) (hs : Allocated s) : NullFree (historyStage env cur ci fuel s) := by
  unfold historyStage
  cases hrec : s.ah.records with
  | none => exact absurd hrec hs
  | some rs =>
    dsimp only
    by_cases he : rs.isEmpty = true
    · rw [if_pos he]
      by_cases hu : (upgradeHelper env s).1 = true
      · rw [if_pos hu]; intro h; cases h
      · rw [if_neg hu]
        have hrec1 : (setState (if ci.isWrite = true then AccessHistoryState.eSingleWrite
            else AccessHistoryState.eSingleRead) (upgradeHelper env s).2).ah.records =
            some rs := by
          show (upgradeHelper env s).2.ah.records = some rs
          rw [upgradeHelper_proceed_ah env s hu]
          exact hrec
        rw [hrec1]
        intro h; cases h
    · rw [if_neg he]
      exact recordLoop_nullFree env cur ci fuel 0 _ s hs

theorem recycledStage_nullFree (env : Env) (cur : Record) (ci : CheckInfo) (fuel : Nat)
    (s : St) (hs : Allocated s) : NullFree (recycledStage env cur ci fuel s) := by
  unfold recycledStage
  by_cases hm : s.ah.memIsRecycled = true
  · rw [if_pos hm]
    by_cases hu : (upgradeHelper env s).1 = true
    · rw [if_pos hu]; intro h; cases h
    · rw [if_neg hu]
      dsimp only
      cases hrec : s.ah.records with
      | none => exact absurd hrec hs
      | some rs =>
        have hrec1 : (clearFlags (upgradeHelper env s).2).ah.records = some rs := by
          show (upgradeHelper env s).2.ah.records = some rs
          rw [upgradeHelper_proceed_ah env s hu]
          exact hrec
        rw [hrec1]
        exact historyStage_nullFree env cur ci fuel _ (by intro hx; cases hx)
  · rw [if_neg hm]
    exact historyStage_nullFree env cur ci fuel s hs

theorem foundStage_nullFree (env : Env) (cur : Record) (ci : CheckInfo) (fuel : Nat)
    (s : St) (hs : Allocated s) : NullFree (foundStage env cur ci fuel s) := by
  unfold foundStage
  cases hrec : s.ah.records with
  | none => exact absurd hrec hs
  | some rs =>
    dsimp only
    have hs1 : Allocated (if rs.length > env.REC_NUM_THRESHOLD then bumpOverflow s else s) := by
      split
      · exact hs
      · exact hs
    have hrec1 : (if rs.length > env.REC_NUM_THRESHOLD then bumpOverflow s else s).ah.records =
        some rs := by
      split
      · exact hrec
      · exact hrec
    generalize (if rs.length > env.REC_NUM_THRESHOLD then bumpOverflow s else s) = s1
      at hs1 hrec1 ⊢
    by_cases hd : s1.ah.dataRaceFound = true
    · rw [if_pos hd]
      by_cases he : (!rs.isEmpty) = true
      · rw [if_pos he]
        by_cases hu : (upgradeHelper env s1).1 = true
        · rw [if_pos hu]; intro h; cases h
        · rw [if_neg hu]
          have hrec2 : (upgradeHelper env s1).2.ah.records = some rs := by
            rw [upgradeHelper_proceed_ah env s1 hu]
            exact hrec1
          rw [hrec2]
          intro h; cases h
      · rw [if_neg he]; intro h; cases h
    · rw [if_neg hd]
      exact recycledStage_nullFree env cur ci fuel s1 hs1

theorem getRecords_allocated (s : St) : Allocated (getRecords s) := by
  show (AccessHistory.getRecords s.ah).records ≠ none
  unfold AccessHistory.getRecords
  cases hrec : s.ah.records with
  | none => intro h; cases h
  | some rs =>
    dsimp only
    rw [hrec]
    intro h; cases h

theorem pass_nullFree (env : Env) (cur : Record) (ci : CheckInfo) (fuel : Nat) (s : St) :
    NullFree (pass env cur ci fuel s) := by
  unfold pass
  split
  · intro h; cases h
  · cases hrec : s.ah.peekRecords with
    | none =>
      dsimp only
      by_cases hu : (upgradeHelper env s).1 = true
      · rw [if_pos hu]; intro h; cases h
      · rw [if_neg hu]
        exact foundStage_nullFree env cur ci fuel _ (getRecords_allocated _)
    | some rs =>
      exact foundStage_nullFree env cur ci fuel s (by
        intro hx
        have : s.ah.peekRecords = s.ah.records := rfl
        rw [this, hx] at hrec
        cases hrec)

theorem rollback_nullFree (env : Env) (cur : Record) (ci : CheckInfo) :
    ∀ (fuel : Nat) (s : St), NullFree (rollback env cur ci fuel s)
  | 0, s => by rw [rollback]; intro h; cases h
  | fuel + 1, s => by
    rw [rollback]
    have hp := pass_nullFree env cur ci fuel s
    split
    · exact rollback_nullFree env cur ci fuel _
    · exact hp

/-- C21: no `checkDataRace` call dereferences a null `records` pointer: the call never ends
in `Stuck.nullDeref`, and neither does any traversal of the body from the label `rollback`,
whatever the slot holds there and whether or not the writer lock is held (so also after a
restart).  For shared data, when `peekRecords` returns absent the traversal either restarts
(`upgradeHelper` returned `true`) or goes on with the writer lock held on the slot that
`getRecords` has allocated; in the model a dereference on a slot without a sequence is
`Stuck.nullDeref`, as `foundStage` on such a slot shows. -/
theorem records_never_null_at_dereference (env : Env) (fuel : Nat) (g : Globals)
    (accessHistory : AccessHistory) (curLabel : Label) (curLockSet : LockSet)
    (checkInfo : CheckInfo) :
    (checkDataRace env fuel g accessHistory curLabel curLockSet checkInfo).1 ≠
      Exit.stuck Stuck.nullDeref ∧
    (∀ (n : Nat) (s : St),
      (pass env (mkRecord curLabel curLockSet checkInfo) checkInfo n s).1 ≠
        Ctl.stuck Stuck.nullDeref ∧
      (rollback env (mkRecord curLabel curLockSet checkInfo) checkInfo n s).1 ≠
        Ctl.stuck Stuck.nullDeref) ∧
    (checkInfo.shared → ∀ (n : Nat) (s : St), s.ah.peekRecords = none →
      ((upgradeHelper env s).1 = true ∧
        pass env (mkRecord curLabel curLockSet checkInfo) checkInfo n s =
          (Ctl.restart, (upgradeHelper env s).2)) ∨
      ((upgradeHelper env s).1 = false ∧
        (upgradeHelper env s).2.writeLockHeld = true ∧
        (getRecords (upgradeHelper env s).2).ah.records ≠ none ∧
        pass env (mkRecord curLabel curLockSet checkInfo) checkInfo n s =
          foundStage env (mkRecord curLabel curLockSet checkInfo) checkInfo n
            (getRecords (upgradeHelper env s).2))) ∧
    (∀ (n : Nat) (s : St), s.ah.records = none →
      (foundStage env (mkRecord curLabel curLockSet checkInfo) checkInfo n s).1 =
        Ctl.stuck Stuck.nullDeref) := by
  refine ⟨?_, ?_, ?_, ?_⟩
  · have h := rollback_nullFree env (mkRecord curLabel curLockSet checkInfo) checkInfo fuel
      (enter env g accessHistory)
    unfold checkDataRace
    generalize rollback env (mkRecord curLabel curLockSet checkInfo) checkInfo fuel
      (enter env g accessHistory) = r at h
    obtain ⟨c, s⟩ := r
    cases c with
    | finish =>
      show (check_finish s).1 ≠ _
      rw [check_finish_returned]
      intro hx; cases hx
    | restart => intro hx; cases hx
    | stuck w =>
      intro hx
      apply h
      show Ctl.stuck w = Ctl.stuck Stuck.nullDeref
      cases hx
      rfl
  · intro n s
    exact ⟨pass_nullFree env _ checkInfo n s, rollback_nullFree env _ checkInfo n s⟩
  · intro hshared n s hpeek
    have hnp : ¬ (checkInfo.dataSharingType = DataSharingType.eThreadPrivateBelowExit ∨
        checkInfo.dataSharingType = DataSharingType.eStaticThreadPrivate) := by
      intro hx
      rcases hx with hx | hx
      · exact hshared.1 hx
      · exact hshared.2 hx
    unfold pass
    rw [if_neg hnp, hpeek]
    dsimp only
    by_cases hu : (upgradeHelper env s).1 = true
    · left
      rw [if_pos hu]
      exact ⟨hu, rfl⟩
    · right
      rw [if_neg hu]
      refine ⟨by simpa using hu, upgradeHelper_held env s, getRecords_allocated _, rfl⟩
  · intro n s hrec
    unfold foundStage
    rw [hrec]

/-- A first access to a fresh slot (`records` null on entry) and an access that walks an
allocated history both return. -/
theorem demo_records_allocated :
    demoSlot.peekRecords = none ∧
    (checkDataRace demoEnv 5 demoGlobals demoSlot 1 0 demoCheck).1 = Exit.returned ∧
    (checkDataRace demoEnv 5 demoGlobals demoSlot 1 0 demoCheck).2.ah.records =
      some [demoRecord] ∧
    (checkDataRace demoEnvNonAtomic 5 demoGlobals demoSlot 1 0 demoCheck).1 = Exit.returned ∧
    (checkDataRace demoEnv 5 demoGlobals demoSlotOne 0 0 demoCheckTwo).1 = Exit.returned := by
  decide

/-! ## Acquire and release without contention -/

theorem McsSys.eq_of_fields (a b : McsSys) (hm : a.mem = b.mem) (hp : ∀ x, a.pc x = b.pc x)
    (ha : a.arrivals = b.arrivals) (he : a.entries = b.entries) : a = b := by
  cases a
  cases b
  simp only [McsSys.mk.injEq] at *
  exact ⟨hm, funext hp, ha, he⟩

/-- C22: on a free MCS lock (`l->tail` nil) with `me` outside the lock and no other thread
stepping, `mcsLock(l, me)` returns after its two first operations (the initialisation of
`me->next` and the exchange), without entering the spin loop, and leaves `l->tail = me` and
`me->next` nil; the following `mcsUnlock(l, me)` returns after its load and its
compare-exchange, without entering the waiting loop, and leaves `l->tail` nil again; the same
release follows a successful `mcsTryLock(l, me)`, which succeeds on the free lock.  Acquire
then release gives back the lock word; besides, only `me->next` (set to nil) is written. -/
theorem mcs_acquire_release_identity (s : McsSys) (me : Nat)
    (hfree : s.mem.tail = none) (hout : s.pc me = McsPc.lockInit) :
    ((mcsRun [me] s).pc me = McsPc.lockExchange ∧
      (mcsRun [me, me] s).pc me = McsPc.critical ∧
      (mcsRun [me, me] s).mem.tail = some me ∧
      (mcsRun [me, me] s).mem.next me = none) ∧
    ((mcsRun [me, me, me] s).pc me = McsPc.unlockCas ∧
      (mcsRun [me, me, me, me] s).pc me = McsPc.lockInit ∧
      (mcsRun [me, me, me, me] s).mem.tail = s.mem.tail ∧
      (mcsRun [me, me, me, me] s).mem.tail = none ∧
      (mcsRun [me, me, me, me] s).mem.blocked = s.mem.blocked ∧
      (∀ x, x ≠ me → (mcsRun [me, me, me, me] s).mem.next x = s.mem.next x) ∧
      (∀ x, x ≠ me → (mcsRun [me, me, me, me] s).pc x = s.pc x)) ∧
    ((mcsTryLock me s.mem).1 = true ∧
      (mcsTryLockBy me s).pc me = McsPc.critical ∧
      (mcsTryLockBy me s).mem.tail = some me ∧
      (mcsTryLockBy me s).mem.next me = none ∧
      (mcsRun [me] (mcsTryLockBy me s)).pc me = McsPc.unlockCas ∧
      (mcsRun [me, me] (mcsTryLockBy me s)).pc me = McsPc.lockInit ∧
      (mcsRun [me, me] (mcsTryLockBy me s)).mem.tail = s.mem.tail ∧
      (mcsRun [me, me] (mcsTryLockBy me s)).mem.blocked = s.mem.blocked ∧
      (∀ x, x ≠ me → (mcsRun [me, me] (mcsTryLockBy me s)).mem.next x = s.mem.next x)) := by
  have h1 : mcsStep me s =
      McsSys.setPc me McsPc.lockExchange { s with mem := s.mem.setNext me none } := by
    unfold mcsStep
    rw [hout]
  have h2 : mcsStep me (mcsStep me s) =
      McsSys.setPc me McsPc.critical
        { s with mem := { s.mem.setNext me none with tail := some me },
                 arrivals := s.arrivals ++ [me], entries := s.entries ++ [me] } := by
    rw [h1]
    unfold mcsStep
    have hp : (McsSys.setPc me McsPc.lockExchange
        { s with mem := s.mem.setNext me none }).pc me = McsPc.lockExchange := by
      simp [McsSys.setPc]
    rw [hp]
    have htl : (McsSys.setPc me McsPc.lockExchange
        { s with mem := s.mem.setNext me none }).mem.tail = none := hfree
    dsimp only
    rw [htl]
    apply McsSys.eq_of_fields
    · rfl
    · intro x
      by_cases hx : x = me <;> simp [McsSys.setPc, hx]
    · rfl
    · rfl
  have h3 : ∀ s2 : McsSys, s2.pc me = McsPc.critical → s2.mem.next me = none →
      mcsStep me s2 = McsSys.setPc me McsPc.unlockCas s2 := by
    intro s2 hp hn
    unfold mcsStep
    rw [hp]
    dsimp only
    rw [hn]
  have h4 : ∀ s3 : McsSys, s3.pc me = McsPc.unlockCas → s3.mem.tail = some me →
      mcsStep me s3 = McsSys.setPc me McsPc.lockInit
        { s3 with mem := { s3.mem with tail := none } } := by
    intro s3 hp ht
    unfold mcsStep
    rw [hp]
    simp [McsMem.casTail, ht]
  have h34 : ∀ s2 : McsSys, s2.pc me = McsPc.critical → s2.mem.next me = none →
      s2.mem.tail = some me →
      mcsStep me (mcsStep me s2) = McsSys.setPc me McsPc.lockInit
        { s2 with mem := { s2.mem with tail := none } } := by
    intro s2 hp hn ht
    rw [h3 s2 hp hn, h4 (McsSys.setPc me McsPc.unlockCas s2) (by simp [McsSys.setPc]) ht]
    apply McsSys.eq_of_fields
    · rfl
    · intro x
      by_cases hx : x = me <;> simp [McsSys.setPc, hx]
    · rfl
    · rfl
  have ht1 : (mcsTryLock me s.mem).1 = true := by
    simp [mcsTryLock, McsMem.casTail, McsMem.setNext, hfree]
  have ht2 : mcsTryLockBy me s = McsSys.setPc me McsPc.critical
      { s with mem := { s.mem.setNext me none with tail := some me },
               arrivals := s.arrivals ++ [me], entries := s.entries ++ [me] } := by
    unfold mcsTryLockBy
    simp [mcsTryLock, McsMem.casTail, McsMem.setNext, hfree]
  have hc : (McsSys.setPc me McsPc.critical
      { s with mem := { s.mem.setNext me none with tail := some me },
               arrivals := s.arrivals ++ [me], entries := s.entries ++ [me] }).pc me =
      McsPc.critical := by simp [McsSys.setPc]
  have hn : (McsSys.setPc me McsPc.critical
      { s with mem := { s.mem.setNext me none with tail := some me },
               arrivals := s.arrivals ++ [me], entries := s.entries ++ [me] }).mem.next me =
      none := by simp [McsSys.setPc, McsMem.setNext]
  refine ⟨⟨?_, ?_, ?_, ?_⟩, ⟨?_, ?_, ?_, ?_, ?_, ?_, ?_⟩, ⟨ht1, ?_, ?_, ?_, ?_, ?_, ?_, ?_, ?_⟩⟩
  · show (mcsStep me s).pc me = _
    rw [h1]; simp [McsSys.setPc]
  · show (mcsStep me (mcsStep me s)).pc me = _
    rw [h2]; exact hc
  · show (mcsStep me (mcsStep me s)).mem.tail = _
    rw [h2]; rfl
  · show (mcsStep me (mcsStep me s)).mem.next me = _
    rw [h2]; exact hn
  · show (mcsStep me (mcsStep me (mcsStep me s))).pc me = _
    rw [h2, h3 _ hc hn]; simp [McsSys.setPc]
  · show (mcsStep me (mcsStep me (mcsStep me (mcsStep me s)))).pc me = _
    rw [h2, h34 _ hc hn rfl]; simp [McsSys.setPc]
  · show (mcsStep me (mcsStep me (mcsStep me (mcsStep me s)))).mem.tail = _
    rw [h2, h34 _ hc hn rfl, hfree]; rfl
  · show (mcsStep me (mcsStep me (mcsStep me (mcsStep me s)))).mem.tail = _
    rw [h2, h34 _ hc hn rfl]; rfl
  · show (mcsStep me (mcsStep me (mcsStep me (mcsStep me s)))).mem.blocked = _
    rw [h2, h34 _ hc hn rfl]; rfl
  · intro x hx
    show (mcsStep me (mcsStep me (mcsStep me (mcsStep me s)))).mem.next x = _
    rw [h2, h34 _ hc hn rfl]; simp [McsSys.setPc, McsMem.setNext, hx]
  · intro x hx
    show (mcsStep me (mcsStep me (mcsStep me (mcsStep me s)))).pc x = _
    rw [h2, h34 _ hc hn rfl]; simp [McsSys.setPc, hx]
  · rw [ht2]; exact hc
  · rw [ht2]; rfl
  · rw [ht2]; exact hn
  · show (mcsStep me (mcsTryLockBy me s)).pc me = _
    rw [ht2, h3 _ hc hn]; simp [McsSys.setPc]
  · show (mcsStep me (mcsStep me (mcsTryLockBy me s))).pc me = _
    rw [ht2, h34 _ hc hn rfl]; simp [McsSys.setPc]
  · show (mcsStep me (mcsStep me (mcsTryLockBy me s))).mem.tail = _
    rw [ht2, h34 _ hc hn rfl, hfree]; rfl
  · show (mcsStep me (mcsStep me (mcsTryLockBy me s))).mem.blocked = _
    rw [ht2, h34 _ hc hn rfl]; rfl
  · intro x hx
    show (mcsStep me (mcsStep me (mcsTryLockBy me s))).mem.next x = _
    rw [ht2, h34 _ hc hn rfl]; simp [McsSys.setPc, McsMem.setNext, hx]

theorem mcs_acquire_release_identity_witness :
    (mcsRun [3, 3] (mcsInitial (fun _ => some 9) (fun _ => true))).pc 3 = McsPc.critical ∧
    (mcsRun [3, 3] (mcsInitial (fun _ => some 9) (fun _ => true))).mem.tail = some 3 ∧
    (mcsRun [3, 3, 3, 3] (mcsInitial (fun _ => some 9) (fun _ => true))).pc 3 =
      McsPc.lockInit ∧
    (mcsRun [3, 3, 3, 3] (mcsInitial (fun _ => some 9) (fun _ => true))).mem.tail =
      (mcsInitial (fun _ => some 9) (fun _ => true)).mem.tail ∧
    (mcsRun [3, 3] (mcsTryLockBy 3 (mcsInitial (fun _ => some 9) (fun _ => true)))).mem.tail =
      (mcsInitial (fun _ => some 9) (fun _ => true)).mem.tail :=
  ⟨(mcs_acquire_release_identity (mcsInitial (fun _ => some 9) (fun _ => true)) 3
      rfl rfl).1.2.1,
   (mcs_acquire_release_identity (mcsInitial (fun _ => some 9) (fun _ => true)) 3
      rfl rfl).1.2.2.1,
   (mcs_acquire_release_identity (mcsInitial (fun _ => some 9) (fun _ => true)) 3
      rfl rfl).2.1.2.1,
   (mcs_acquire_release_identity (mcsInitial (fun _ => some 9) (fun _ => true)) 3
      rfl rfl).2.1.2.2.1,
   (mcs_acquire_release_identity (mcsInitial (fun _ => some 9) (fun _ => true)) 3
      rfl rfl).2.2.2.2.2.2.2.2.1⟩

/-- Under contention the call does wait: behind a holder the second caller of `mcsLock` is
still spinning after any number of its own steps, and `mcsTryLock` fails. -/
theorem demo_mcs_contended :
    (mcsRun [1, 1, 2, 2, 2, 2, 2, 2, 2] (mcsInitial (fun _ => none) (fun _ => false))).pc 2 =
      McsPc.lockSpin ∧
    (mcsTryLock 2 (mcsRun [1, 1] (mcsInitial (fun _ => none) (fun _ => false))).mem).1 =
      false ∧
    (mcsTryLockBy 2 (mcsRun [1, 1] (mcsInitial (fun _ => none) (fun _ => false)))).pc 2 =
      McsPc.lockInit := by
  decide

end Romp
